import Mathlib

/-!
# IMU6050 driver: a shallow embedding of `src/IMU6050.cpp`

Conventions of the embedding.

* Floating-point values are rationals (`ℚ`), in two models of the same code. In
  `MPU6050.update`, `MPU6050.begin` and `MPU6050.calcGyroOffsets` every arithmetic operation
  is the exact one; this model carries the properties of the integer decoding, of the bus
  traffic, of the clock arithmetic, of the members an operation leaves alone and of the shape
  of the formulas. In `Rounded.update`, `Rounded.calcGyroOffsets` and the `Rounded`
  constructors every floating-point operation is followed by the rounding of its type,
  binary32 for `float` and binary64 for `double`, to nearest with ties to even; this model
  carries every property about the value of a computed angle, offset or interval. Overflow
  to infinity and NaN are outside both models.
* `int16_t` values are integers in `[-32768, 32767]`, obtained with `toInt16`; the `int`
  returned by `wire->read()` is an unbounded integer (the later conversion to `int16_t`
  keeps the low 16 bits only, so the width of `int` does not matter). In
  `wire->read() << 8 | wire->read()` the left operand is taken to be read first.
* `unsigned long` (the millisecond clock) is a natural number reduced modulo `2^32`.
* The `TwoWire` handle is a record holding the list of operations issued on the bus and the
  receive buffer; the bytes the device delivers for a `requestFrom` and the values returned
  by `millis()` are explicit arguments, in the order in which the code asks for them.
* `IMU6050.h` and the platform's `atan2` are not part of the sources: the register
  constants and `atan2` are taken as parameters (`Env`); the member types follow the data
  model (seven signed 16-bit raw values, floating-point angles, rates, offsets and
  coefficients, a millisecond timestamp).
-/

namespace IMU6050

/-- Operations issued on the I2C handle, in the vocabulary of the `TwoWire` calls. -/
inductive BusOp where
  | beginTransmission (addr : Nat)
  | write (byte : Nat)
  | endTransmission (stop : Bool)
  | requestFrom (addr : Nat) (len : Nat) (stop : Bool)
  deriving DecidableEq, Repr

/-- The bus handle: operations issued so far (oldest first) and the unread received bytes. -/
structure TwoWire where
  log : List BusOp
  rx : List (Fin 256)
  deriving DecidableEq, Repr

namespace TwoWire

def beginTransmission (w : TwoWire) (addr : Nat) : TwoWire :=
  { w with log := w.log ++ [BusOp.beginTransmission addr] }

def write (w : TwoWire) (byte : Nat) : TwoWire :=
  { w with log := w.log ++ [BusOp.write byte] }

def endTransmission (w : TwoWire) (stop : Bool) : TwoWire :=
  { w with log := w.log ++ [BusOp.endTransmission stop] }

/-- The call `requestFrom(addr, len, stop)`: the receive buffer is replaced by what the device
delivered (`resp`), at most `len` bytes of it. -/
def requestFrom (w : TwoWire) (addr len : Nat) (stop : Bool) (resp : List (Fin 256)) :
    TwoWire :=
  { log := w.log ++ [BusOp.requestFrom addr len stop], rx := resp.take len }

/-- The call `read()`: the next received byte as an `int`, or `-1` when none is left. -/
def read (w : TwoWire) : Int × TwoWire :=
  match w.rx with
  | [] => (-1, w)
  | b :: rest => ((b.val : Int), { w with rx := rest })

end TwoWire

/-- Conversion of an `int` to `int16_t`: the low 16 bits, read as two's complement. -/
def toInt16 (z : Int) : Int :=
  if z % 65536 < 32768 then z % 65536 else z % 65536 - 65536

/-- Conversion to `unsigned long` (32 bits). -/
def toU32 (z : Int) : Nat :=
  (z % 4294967296).toNat

/-- The expression `wire->read() << 8 | wire->read()` stored into an `int16_t`, the left
operand being read first. -/
def readWord (w : TwoWire) : Int × TwoWire :=
  let (hi, w1) := w.read
  let (lo, w2) := w1.read
  (toInt16 (Int.lor (hi <<< (8 : Int)) lo), w2)

/-- The constant `PI` of `Arduino.h`. -/
def PI : ℚ := 3.1415926535897932384626433832795

/-- What the translation unit takes from outside its own text: the register constants of
`IMU6050.h` and the platform's `atan2`. -/
structure Env where
  atan2 : ℚ → ℚ → ℚ
  MPU6050_ADDR : Nat
  MPU6050_SMPLRT_DIV : Nat
  MPU6050_CONFIG : Nat
  MPU6050_GYRO_CONFIG : Nat
  MPU6050_ACCEL_CONFIG : Nat
  MPU6050_PWR_MGMT_1 : Nat

/-- The data members of class `MPU6050` that `IMU6050.cpp` reads or writes. -/
structure MPU6050 where
  wire : TwoWire
  rawAccX : Int
  rawAccY : Int
  rawAccZ : Int
  rawTemp : Int
  rawGyroX : Int
  rawGyroY : Int
  rawGyroZ : Int
  gyroXoffset : ℚ
  gyroYoffset : ℚ
  gyroZoffset : ℚ
  temp : ℚ
  accX : ℚ
  accY : ℚ
  accZ : ℚ
  gyroX : ℚ
  gyroY : ℚ
  gyroZ : ℚ
  angleGyroX : ℚ
  angleGyroY : ℚ
  angleGyroZ : ℚ
  angleAccX : ℚ
  angleAccY : ℚ
  angleX : ℚ
  angleY : ℚ
  angleZ : ℚ
  interval : ℚ
  preInterval : Nat
  accCoef : ℚ
  gyroCoef : ℚ

namespace MPU6050

/-- The function `MPU6050::writeMPU6050(reg, data)`. -/
def writeMPU6050 (env : Env) (s : MPU6050) (reg data : Nat) : MPU6050 :=
  let w := s.wire.beginTransmission env.MPU6050_ADDR
  let w := w.write reg
  let w := w.write data
  let w := w.endTransmission true
  { s with wire := w }

/-- The function `MPU6050::setGyroOffsets(x, y, z)`. -/
def setGyroOffsets (s : MPU6050) (x y z : ℚ) : MPU6050 :=
  { s with gyroXoffset := x, gyroYoffset := y, gyroZoffset := z }

/-- The function `MPU6050::update()`. `resp` is what the device delivers for the burst
request, `t1` and `t2` are the values of the two `millis()` calls, in program order. -/
def update (env : Env) (s : MPU6050) (resp : List (Fin 256)) (t1 t2 : Nat) : MPU6050 :=
  let w := s.wire.beginTransmission env.MPU6050_ADDR
  let w := w.write 0x3B
  let w := w.endTransmission false
  let w := w.requestFrom env.MPU6050_ADDR 14 true resp
  let (rawAccX, w) := readWord w
  let (rawAccY, w) := readWord w
  let (rawAccZ, w) := readWord w
  let (rawTemp, w) := readWord w
  let (rawGyroX, w) := readWord w
  let (rawGyroY, w) := readWord w
  let (rawGyroZ, w) := readWord w
  let temp : ℚ := ((rawTemp : ℚ) + 12412.0) / 340.0
  let accX : ℚ := (rawAccX : ℚ) / 16384.0
  let accY : ℚ := (rawAccY : ℚ) / 16384.0
  let accZ : ℚ := (rawAccZ : ℚ) / 16384.0
  let angleAccX : ℚ := env.atan2 accY (accZ + |accX|) * 360 / 2.0 / PI
  let angleAccY : ℚ := env.atan2 accX (accZ + |accY|) * 360 / -2.0 / PI
  let gyroX : ℚ := (rawGyroX : ℚ) / 65.5
  let gyroY : ℚ := (rawGyroY : ℚ) / 65.5
  let gyroZ : ℚ := (rawGyroZ : ℚ) / 65.5
  let gyroX := gyroX - s.gyroXoffset
  let gyroY := gyroY - s.gyroYoffset
  let gyroZ := gyroZ - s.gyroZoffset
  let interval : ℚ := (toU32 ((t1 : Int) - (s.preInterval : Int)) : ℚ) * 0.001
  let angleGyroX := s.angleGyroX + gyroX * interval
  let angleGyroY := s.angleGyroY + gyroY * interval
  let angleGyroZ := s.angleGyroZ + gyroZ * interval
  let angleX := (s.gyroCoef * (s.angleX + gyroX * interval)) + (s.accCoef * angleAccX)
  let angleY := (s.gyroCoef * (s.angleY + gyroY * interval)) + (s.accCoef * angleAccY)
  let angleZ := angleGyroZ
  { s with
    wire := w
    rawAccX := rawAccX, rawAccY := rawAccY, rawAccZ := rawAccZ
    rawTemp := rawTemp
    rawGyroX := rawGyroX, rawGyroY := rawGyroY, rawGyroZ := rawGyroZ
    temp := temp
    accX := accX, accY := accY, accZ := accZ
    angleAccX := angleAccX, angleAccY := angleAccY
    gyroX := gyroX, gyroY := gyroY, gyroZ := gyroZ
    interval := interval
    angleGyroX := angleGyroX, angleGyroY := angleGyroY, angleGyroZ := angleGyroZ
    angleX := angleX, angleY := angleY, angleZ := angleZ
    preInterval := toU32 (t2 : Int) }

/-- Modelled from the spec: the accessor `getAccAngleX()` of `IMU6050.h` ("accessors for ...
raw accelerometer-only tilt angles"), which is not in the sources; it returns the stored
`angleAccX`. -/
def getAccAngleX (s : MPU6050) : ℚ := s.angleAccX

/-- Modelled from the spec: the accessor `getAccAngleY()` of `IMU6050.h`, which is not in the
sources; it returns the stored `angleAccY`. -/
def getAccAngleY (s : MPU6050) : ℚ := s.angleAccY

/-- The function `MPU6050::begin()`. `resp` is what the device delivers for the burst request
of the inner `update()`, `t1` and `t2` are the two clock values read by that `update()` and
`t3` the one read by `begin` itself. -/
def begin (env : Env) (s : MPU6050) (resp : List (Fin 256)) (t1 t2 t3 : Nat) : MPU6050 :=
  let s := writeMPU6050 env s env.MPU6050_SMPLRT_DIV 0x00
  let s := writeMPU6050 env s env.MPU6050_CONFIG 0x00
  let s := writeMPU6050 env s env.MPU6050_GYRO_CONFIG 0x08
  let s := writeMPU6050 env s env.MPU6050_ACCEL_CONFIG 0x10
  let s := writeMPU6050 env s env.MPU6050_PWR_MGMT_1 0x02
  let s := update env s resp t1 t2
  let s := { s with angleGyroX := 0 }
  let s := { s with angleGyroY := 0 }
  let s := { s with angleX := getAccAngleX s }
  let s := { s with angleY := getAccAngleY s }
  { s with preInterval := toU32 (t3 : Int) }

/-- Local variables of `calcGyroOffsets` that live across loop iterations, with the bus
handle the loop body works on. -/
structure CalcAcc where
  x : ℚ
  y : ℚ
  z : ℚ
  wire : TwoWire

/-- One iteration of the `for` loop of `calcGyroOffsets`: a burst request, four discarded
words, the three gyro words, and the accumulation. -/
def calcGyroOffsetsBody (env : Env) (a : CalcAcc) (resp : List (Fin 256)) : CalcAcc :=
  let w := a.wire.beginTransmission env.MPU6050_ADDR
  let w := w.write 0x3B
  let w := w.endTransmission false
  let w := w.requestFrom env.MPU6050_ADDR 14 true resp
  let (_, w) := readWord w
  let (_, w) := readWord w
  let (_, w) := readWord w
  let (_, w) := readWord w
  let (rx, w) := readWord w
  let (ry, w) := readWord w
  let (rz, w) := readWord w
  { x := a.x + (rx : ℚ) / 65.5
    y := a.y + (ry : ℚ) / 65.5
    z := a.z + (rz : ℚ) / 65.5
    wire := w }

/-- The function `MPU6050::calcGyroOffsets(console)`. `resp i` is what the device delivers
for the burst request of iteration `i`. The `delay` calls and the text sent to `Serial`
when `console` is set touch no data member and are left out. -/
def calcGyroOffsets (env : Env) (s : MPU6050) (console : Bool)
    (resp : Nat → List (Fin 256)) : MPU6050 :=
  let _ := console
  let a := (List.range 3000).foldl (fun a i => calcGyroOffsetsBody env a (resp i))
    { x := 0, y := 0, z := 0, wire := s.wire }
  { s with
    wire := a.wire
    gyroXoffset := a.x / 3000
    gyroYoffset := a.y / 3000
    gyroZoffset := a.z / 3000 }

end MPU6050

open MPU6050

/-! ## Binary floating point

The members of the driver are `float` (binary32) and the literals with a decimal point are
`double` (taken as binary64). The model `Rounded.update` below is `update` with the rounding
of every floating-point operation written out; values stay rationals, overflow to infinity
and NaN are outside the model. -/

/-- Rounding of a rational to the nearest integer, ties to the even one. -/
def roundEven (q : ℚ) : ℤ :=
  if q - ⌊q⌋ < 1 / 2 then ⌊q⌋
  else if 1 / 2 < q - ⌊q⌋ then ⌊q⌋ + 1
  else if ⌊q⌋ % 2 = 0 then ⌊q⌋ else ⌊q⌋ + 1

/-- Exponent of the unit in the last place of `q` in a binary format with `p` significand
bits whose least exponent (that of the subnormal numbers) is `emin`. -/
def ulpExp (p : ℕ) (emin : ℤ) (q : ℚ) : ℤ :=
  max (Int.log 2 |q| - ((p : ℤ) - 1)) emin

/-- Rounding to nearest, ties to even, in the binary format with `p` significand bits and
least exponent `emin`. -/
def roundFloat (p : ℕ) (emin : ℤ) (q : ℚ) : ℚ :=
  (roundEven (q / 2 ^ ulpExp p emin q) : ℚ) * 2 ^ ulpExp p emin q

/-- Rounding to `float` (IEEE binary32). -/
def f32 (q : ℚ) : ℚ := roundFloat 24 (-149) q

/-- Rounding to `double` (IEEE binary64). -/
def f64 (q : ℚ) : ℚ := roundFloat 53 (-1074) q

namespace Rounded

/-- The function `MPU6050::update()` with binary32 members: each arithmetic operation of the
source is followed by the rounding of its type (`f64` where a `double` literal or the
`double` result of `atan2` takes part, `f32` for `float` operations and for each store into a
member). Conversions of integers to `double` and of `float` to `double` are exact. -/
def update (env : Env) (s : MPU6050) (resp : List (Fin 256)) (t1 t2 : Nat) : MPU6050 :=
  let w := s.wire.beginTransmission env.MPU6050_ADDR
  let w := w.write 0x3B
  let w := w.endTransmission false
  let w := w.requestFrom env.MPU6050_ADDR 14 true resp
  let (rawAccX, w) := readWord w
  let (rawAccY, w) := readWord w
  let (rawAccZ, w) := readWord w
  let (rawTemp, w) := readWord w
  let (rawGyroX, w) := readWord w
  let (rawGyroY, w) := readWord w
  let (rawGyroZ, w) := readWord w
  let temp : ℚ := f32 (f64 (f64 ((rawTemp : ℚ) + 12412.0) / 340.0))
  let accX : ℚ := f32 (f64 (f32 (rawAccX : ℚ) / 16384.0))
  let accY : ℚ := f32 (f64 (f32 (rawAccY : ℚ) / 16384.0))
  let accZ : ℚ := f32 (f64 (f32 (rawAccZ : ℚ) / 16384.0))
  let angleAccX : ℚ :=
    f32 (f64 (f64 (f64 (f64 (env.atan2 accY (f32 (accZ + |accX|))) * 360) / 2.0) / f64 PI))
  let angleAccY : ℚ :=
    f32 (f64 (f64 (f64 (f64 (env.atan2 accX (f32 (accZ + |accY|))) * 360) / -2.0) / f64 PI))
  let gyroX : ℚ := f32 (f64 (f32 (rawGyroX : ℚ) / 65.5))
  let gyroY : ℚ := f32 (f64 (f32 (rawGyroY : ℚ) / 65.5))
  let gyroZ : ℚ := f32 (f64 (f32 (rawGyroZ : ℚ) / 65.5))
  let gyroX := f32 (gyroX - s.gyroXoffset)
  let gyroY := f32 (gyroY - s.gyroYoffset)
  let gyroZ := f32 (gyroZ - s.gyroZoffset)
  let interval : ℚ :=
    f32 (f64 (f64 (toU32 ((t1 : Int) - (s.preInterval : Int)) : ℚ) * f64 0.001))
  let angleGyroX := f32 (s.angleGyroX + f32 (gyroX * interval))
  let angleGyroY := f32 (s.angleGyroY + f32 (gyroY * interval))
  let angleGyroZ := f32 (s.angleGyroZ + f32 (gyroZ * interval))
  let angleX := f32 (f32 (s.gyroCoef * f32 (s.angleX + f32 (gyroX * interval)))
    + f32 (s.accCoef * angleAccX))
  let angleY := f32 (f32 (s.gyroCoef * f32 (s.angleY + f32 (gyroY * interval)))
    + f32 (s.accCoef * angleAccY))
  let angleZ := angleGyroZ
  { s with
    wire := w
    rawAccX := rawAccX, rawAccY := rawAccY, rawAccZ := rawAccZ
    rawTemp := rawTemp
    rawGyroX := rawGyroX, rawGyroY := rawGyroY, rawGyroZ := rawGyroZ
    temp := temp
    accX := accX, accY := accY, accZ := accZ
    angleAccX := angleAccX, angleAccY := angleAccY
    gyroX := gyroX, gyroY := gyroY, gyroZ := gyroZ
    interval := interval
    angleGyroX := angleGyroX, angleGyroY := angleGyroY, angleGyroZ := angleGyroZ
    angleX := angleX, angleY := angleY, angleZ := angleZ
    preInterval := toU32 (t2 : Int) }

/-- One iteration of the `for` loop of `calcGyroOffsets` with binary32 accumulators: the
quotient and the sum are `double` operations, the store into `x`, `y`, `z` rounds to
binary32. -/
def calcGyroOffsetsBody (env : Env) (a : CalcAcc) (resp : List (Fin 256)) : CalcAcc :=
  let w := a.wire.beginTransmission env.MPU6050_ADDR
  let w := w.write 0x3B
  let w := w.endTransmission false
  let w := w.requestFrom env.MPU6050_ADDR 14 true resp
  let (_, w) := readWord w
  let (_, w) := readWord w
  let (_, w) := readWord w
  let (_, w) := readWord w
  let (rx, w) := readWord w
  let (ry, w) := readWord w
  let (rz, w) := readWord w
  { x := f32 (f64 (a.x + f64 (f32 (rx : ℚ) / 65.5)))
    y := f32 (f64 (a.y + f64 (f32 (ry : ℚ) / 65.5)))
    z := f32 (f64 (a.z + f64 (f32 (rz : ℚ) / 65.5)))
    wire := w }

/-- The function `MPU6050::calcGyroOffsets(console)` with binary32 accumulators and
members; the final quotients are `float` divisions. -/
def calcGyroOffsets (env : Env) (s : MPU6050) (console : Bool)
    (resp : Nat → List (Fin 256)) : MPU6050 :=
  let _ := console
  let a := (List.range 3000).foldl (fun a i => calcGyroOffsetsBody env a (resp i))
    { x := 0, y := 0, z := 0, wire := s.wire }
  { s with
    wire := a.wire
    gyroXoffset := f32 (a.x / 3000)
    gyroYoffset := f32 (a.y / 3000)
    gyroZoffset := f32 (a.z / 3000) }

/-- The constructor `MPU6050::MPU6050(TwoWire &w)`: it stores the handle and the `float`
literals `0.02f` and `0.98f`; every other member keeps what the storage `u` held. -/
def ctor (u : MPU6050) (w : TwoWire) : MPU6050 :=
  { u with wire := w, accCoef := f32 0.02, gyroCoef := f32 0.98 }

/-- The constructor `MPU6050::MPU6050(TwoWire &w, float aC, float gC)`. -/
def ctorCoef (u : MPU6050) (w : TwoWire) (aC gC : ℚ) : MPU6050 :=
  { u with wire := w, accCoef := f32 aC, gyroCoef := f32 gC }

/-- A caller's loop: one `update()` per element of `ins`, each element giving the bytes the
device delivers and the two clock values read by that call. -/
def updates (env : Env) (s : MPU6050) (ins : List (List (Fin 256) × Nat × Nat)) : MPU6050 :=
  ins.foldl (fun st i => update env st i.1 i.2.1 i.2.2) s

/-- The states reached after each call of the loop `updates`, in order. -/
def updateTrace (env : Env) : MPU6050 → List (List (Fin 256) × Nat × Nat) → List MPU6050
  | _, [] => []
  | s, i :: rest =>
    update env s i.1 i.2.1 i.2.2 :: updateTrace env (update env s i.1 i.2.1 i.2.2) rest

end Rounded

/-! ## Definitions used to state the properties -/

/-- The signed 16-bit reading of two bytes, high byte first, in the words of the data model:
`hi*256 + lo` when `hi < 128`, and `hi*256 + lo - 65536` otherwise. -/
def specWord (hi lo : Nat) : Int :=
  if hi < 128 then (hi : Int) * 256 + lo else (hi : Int) * 256 + lo - 65536

/-- The `k`-th big-endian signed 16-bit value of a burst `b`, made of bytes `b[2k]` and
`b[2k+1]`. -/
def burstWord (b : List (Fin 256)) (k : Nat) : Int :=
  specWord (b.getD (2 * k) 0).val (b.getD (2 * k + 1) 0).val

/-- A sample environment: the register addresses of the MPU-6050 data sheet and a rational
stand-in for `atan2` that vanishes when its first argument does. -/
def sampleEnv : Env :=
  { atan2 := fun y x => y / (|x| + |y|)
    MPU6050_ADDR := 0x68
    MPU6050_SMPLRT_DIV := 0x19
    MPU6050_CONFIG := 0x1a
    MPU6050_GYRO_CONFIG := 0x1b
    MPU6050_ACCEL_CONFIG := 0x1c
    MPU6050_PWR_MGMT_1 := 0x6b }

/-- A driver state with every numeric member at zero and the default coefficients of the
one-argument constructor. -/
def zeroState : MPU6050 :=
  { wire := { log := [], rx := [] }
    rawAccX := 0, rawAccY := 0, rawAccZ := 0, rawTemp := 0
    rawGyroX := 0, rawGyroY := 0, rawGyroZ := 0
    gyroXoffset := 0, gyroYoffset := 0, gyroZoffset := 0
    temp := 0, accX := 0, accY := 0, accZ := 0
    gyroX := 0, gyroY := 0, gyroZ := 0
    angleGyroX := 0, angleGyroY := 0, angleGyroZ := 0
    angleAccX := 0, angleAccY := 0
    angleX := 0, angleY := 0, angleZ := 0
    interval := 0, preInterval := 0
    accCoef := 0.02, gyroCoef := 0.98 }

/-- A burst of a level device turning at 10 degrees per second about each axis: raw
accelerometer `(0, 0, 16384)`, raw temperature `0`, raw gyro `(655, 655, 655)`. -/
def levelBurst : List (Fin 256) :=
  [0, 0, 0, 0, 64, 0, 0, 0, 2, 143, 2, 143, 2, 143]

/-- A burst with mixed signs: raw accelerometer `(-2, 258, -32768)`, raw temperature `32767`,
raw gyro `(-256, 255, 4660)`. -/
def mixedBurst : List (Fin 256) :=
  [255, 254, 1, 2, 128, 0, 127, 255, 255, 0, 0, 255, 18, 52]

/-- The `k`-th word obtained from a receive buffer `b`: the big-endian word when both of its
bytes were delivered, `-1` otherwise. -/
def readWordAt (b : List (Fin 256)) (k : Nat) : Int :=
  if 2 * k + 2 ≤ b.length then burstWord b k else -1

/-- The running binary32 integral of the gyro Z rate over a sequence of samples, each given
by its raw gyro Z word and the two clock values of its call, as `Rounded.update` computes it:
`a` is the angle so far, `pre` the stored timestamp. -/
def yawSum (offset : ℚ) : ℚ → Nat → List (Int × Nat × Nat) → ℚ
  | a, _, [] => a
  | a, pre, (g, t1, t2) :: rest =>
    yawSum offset
      (f32 (a + f32 (f32 (f32 (f64 (f32 (g : ℚ) / 65.5)) - offset)
        * f32 (f64 (f64 (toU32 ((t1 : Int) - (pre : Int)) : ℚ) * f64 0.001)))))
      (toU32 (t2 : Int)) rest

/-- The elapsed milliseconds seen by each call of a sequence of updates: the first clock
value of the call minus the timestamp stored by the previous one, as unsigned 32-bit. -/
def elapsedMs : Nat → List (List (Fin 256) × Nat × Nat) → List Nat
  | _, [] => []
  | pre, i :: rest =>
    toU32 ((i.2.1 : Int) - (pre : Int)) :: elapsedMs (toU32 (i.2.2 : Int)) rest

/-- The zero state with gyro integrals of `2^24` degrees about X and Z. -/
def bigAngleState : MPU6050 :=
  { zeroState with angleGyroX := 16777216, angleGyroZ := 16777216 }

/-- The running binary32 sum kept by `Rounded.calcGyroOffsets` in one accumulator after `n`
bursts, `t i` being the `double` quotient added at burst `i`. -/
def floatSum (t : ℕ → ℚ) : ℕ → ℚ
  | 0 => 0
  | n + 1 => f32 (f64 (floatSum t n + t n))

/-- Calibration bursts whose raw gyro X word is `32750` for the first `1049` bursts and `1`
for the others; every other byte is zero. -/
def lossBursts (i : Nat) : List (Fin 256) :=
  if i < 1049 then [0, 0, 0, 0, 0, 0, 0, 0, 127, 238, 0, 0, 0, 0]
  else [0, 0, 0, 0, 0, 0, 0, 0, 0, 1, 0, 0, 0, 0]

/-- A burst whose raw gyro X word is `1`; every other byte is zero. -/
def unitBurst : List (Fin 256) :=
  [0, 0, 0, 0, 0, 0, 0, 0, 0, 1, 0, 0, 0, 0]

/-- An environment whose `atan2` takes the values of the C library at the two points used
below, `atan2(1, 1)` and `atan2(1, 1.25)` as the nearest binary64 values to pi/4 and to
`atan(0.8)`, and `0` elsewhere, which is its value at `(0, 1)`. -/
def tiltEnv : Env :=
  { sampleEnv with
    atan2 := fun y x =>
      if y = 1 ∧ x = 1 then 884279719003555 / 1125899906842624
      else if y = 1 ∧ x = 5 / 4 then 3038763055969609 / 4503599627370496
      else 0 }

/-- A burst of a device at rest tilted by 45 degrees about X: raw accelerometer
`(0, 16384, 16384)`, raw temperature `0`, raw gyro `(0, 0, 0)`. -/
def tiltBurst : List (Fin 256) :=
  [0, 0, 64, 0, 64, 0, 0, 0, 0, 0, 0, 0, 0, 0]

/-- A burst with raw accelerometer `(0, 16384, 20480)`, that is `(0, 1, 1.25)` g, raw
temperature `0` and raw gyro `(0, 0, 0)`. -/
def slopeBurst : List (Fin 256) :=
  [0, 0, 64, 0, 80, 0, 0, 0, 0, 0, 0, 0, 0, 0]

/-- A state built by the one-argument constructor (coefficients `0.02f`, `0.98f`) whose
fused angle and gyro integral about X are both `45` degrees. -/
def tiltState : MPU6050 :=
  { Rounded.ctor zeroState zeroState.wire with angleX := 45, angleGyroX := 45 }

/-- A state built by the two-argument constructor with coefficients `3/32` and `29/32`, of
sum exactly `1`, whose fused angle and gyro integral about X are both the `float`
`10134437 / 262144`, about `38.66` degrees. -/
def slopeState : MPU6050 :=
  { Rounded.ctorCoef zeroState zeroState.wire (3 / 32) (29 / 32) with
    angleX := 10134437 / 262144, angleGyroX := 10134437 / 262144 }

/-- A state built by the two-argument constructor with coefficients `3/32` and `29/32`
whose fused X angle is `10` degrees while its gyro integral is `0`. -/
def driftState : MPU6050 :=
  { Rounded.ctorCoef zeroState zeroState.wire (3 / 32) (29 / 32) with angleX := 10 }

/-! ## Reading a burst -/

theorem lor_shift_bytes (hi lo : Nat) (hlo : lo < 256) :
    Int.lor ((hi : Int) <<< (8 : Int)) (lo : Int) = (hi : Int) * 256 + lo := by
  have h1 : ((hi : Int) <<< (8 : Int)) = ((hi <<< 8 : Nat) : Int) := Int.shiftLeft_coe_nat hi 8
  have h2 : Int.lor ((hi <<< 8 : Nat) : Int) (lo : Int) = ((hi <<< 8 ||| lo : Nat) : Int) := rfl
  have h3 : hi <<< 8 ||| lo = 2 ^ 8 * hi + lo := by
    rw [Nat.shiftLeft_eq, Nat.mul_comm hi (2 ^ 8)]
    exact (Nat.mul_add_lt_is_or (by simpa using hlo) hi).symm
  rw [h1, h2, h3]
  push_cast
  ring

theorem toInt16_bytes (hi lo : Fin 256) :
    toInt16 (Int.lor ((hi.val : Int) <<< (8 : Int)) (lo.val : Int)) = specWord hi.val lo.val := by
  rw [lor_shift_bytes hi.val lo.val lo.isLt]
  unfold toInt16 specWord
  have := hi.isLt
  have := lo.isLt
  split_ifs <;> omega

theorem readWord_cons_cons (log : List BusOp) (hi lo : Fin 256) (rest : List (Fin 256)) :
    readWord ⟨log, hi :: lo :: rest⟩ = (specWord hi.val lo.val, ⟨log, rest⟩) := by
  simp [readWord, TwoWire.read, toInt16_bytes]

theorem specWord_bounds (hi lo : Fin 256) :
    -32768 ≤ specWord hi.val lo.val ∧ specWord hi.val lo.val ≤ 32767 := by
  unfold specWord
  have := hi.isLt
  have := lo.isLt
  split_ifs <;> omega

theorem list_of_length_14 {α : Type} (l : List α) (h : l.length = 14) :
    ∃ b0 b1 b2 b3 b4 b5 b6 b7 b8 b9 b10 b11 b12 b13,
      l = [b0, b1, b2, b3, b4, b5, b6, b7, b8, b9, b10, b11, b12, b13] := by
  match l, h with
  | [b0, b1, b2, b3, b4, b5, b6, b7, b8, b9, b10, b11, b12, b13], _ =>
    exact ⟨b0, b1, b2, b3, b4, b5, b6, b7, b8, b9, b10, b11, b12, b13, rfl⟩

/-- On a full burst the seven raw members are the seven big-endian words of the burst. -/
theorem update_raw_of_full (env : Env) (s : MPU6050) (b : List (Fin 256))
    (hb : b.length = 14) (t1 t2 : Nat) :
    (update env s b t1 t2).rawAccX = burstWord b 0
      ∧ (update env s b t1 t2).rawAccY = burstWord b 1
      ∧ (update env s b t1 t2).rawAccZ = burstWord b 2
      ∧ (update env s b t1 t2).rawTemp = burstWord b 3
      ∧ (update env s b t1 t2).rawGyroX = burstWord b 4
      ∧ (update env s b t1 t2).rawGyroY = burstWord b 5
      ∧ (update env s b t1 t2).rawGyroZ = burstWord b 6 := by
  obtain ⟨b0, b1, b2, b3, b4, b5, b6, b7, b8, b9, b10, b11, b12, b13, rfl⟩ :=
    list_of_length_14 b hb
  simp [update, TwoWire.requestFrom, readWord_cons_cons, burstWord]

theorem burstWord_levelBurst :
    burstWord levelBurst 0 = 0 ∧ burstWord levelBurst 1 = 0 ∧ burstWord levelBurst 2 = 16384
      ∧ burstWord levelBurst 3 = 0 ∧ burstWord levelBurst 4 = 655
      ∧ burstWord levelBurst 5 = 655 ∧ burstWord levelBurst 6 = 655 := by
  decide

theorem burstWord_mixedBurst :
    burstWord mixedBurst 0 = -2 ∧ burstWord mixedBurst 1 = 258
      ∧ burstWord mixedBurst 2 = -32768 ∧ burstWord mixedBurst 3 = 32767
      ∧ burstWord mixedBurst 4 = -256 ∧ burstWord mixedBurst 5 = 255
      ∧ burstWord mixedBurst 6 = 4660 := by
  decide

/-! ## One call of `update` -/

/-- C3: for every 14-byte burst, `update` assembles the seven raw values in the order
accelX, accelY, accelZ, temperature, gyroX, gyroY, gyroZ, the `k`-th being the signed
16-bit reading of `b[2k]*256 + b[2k+1]`, and every raw value lies in `[-32768, 32767]`. -/
theorem update_raw_words (env : Env) (s : MPU6050) (b : List (Fin 256))
    (hb : b.length = 14) (t1 t2 : Nat) :
    ((update env s b t1 t2).rawAccX = burstWord b 0
      ∧ (update env s b t1 t2).rawAccY = burstWord b 1
      ∧ (update env s b t1 t2).rawAccZ = burstWord b 2
      ∧ (update env s b t1 t2).rawTemp = burstWord b 3
      ∧ (update env s b t1 t2).rawGyroX = burstWord b 4
      ∧ (update env s b t1 t2).rawGyroY = burstWord b 5
      ∧ (update env s b t1 t2).rawGyroZ = burstWord b 6)
      ∧ (∀ k, burstWord b k
          = if (b.getD (2 * k) 0).val < 128
            then ((b.getD (2 * k) 0).val : Int) * 256 + (b.getD (2 * k + 1) 0).val
            else ((b.getD (2 * k) 0).val : Int) * 256 + (b.getD (2 * k + 1) 0).val - 65536)
      ∧ (∀ k, -32768 ≤ burstWord b k ∧ burstWord b k ≤ 32767) :=
  ⟨update_raw_of_full env s b hb t1 t2, fun _ => rfl, fun _ => specWord_bounds _ _⟩

/-- Witness of C3 on a burst with bytes on both sides of the sign boundary. -/
theorem update_raw_words_witness :
    mixedBurst.length = 14
      ∧ (update sampleEnv zeroState mixedBurst 100 101).rawAccX = -2
      ∧ (update sampleEnv zeroState mixedBurst 100 101).rawAccZ = -32768
      ∧ (update sampleEnv zeroState mixedBurst 100 101).rawTemp = 32767
      ∧ (update sampleEnv zeroState mixedBurst 100 101).rawGyroZ = 4660 := by
  have h := (update_raw_words sampleEnv zeroState mixedBurst rfl 100 101).1
  have w := burstWord_mixedBurst
  exact ⟨rfl, h.1.trans w.1, h.2.2.1.trans w.2.2.1, h.2.2.2.1.trans w.2.2.2.1,
    h.2.2.2.2.2.2.trans w.2.2.2.2.2.2⟩

/-- C5: when the raw accelerometer triplet of the burst is `(0, 0, z)` with `z > 0`, the
decoded accelerometer is `(0, 0, z/16384)` and both tilt angles are `0`; for
`z = 16384` the decoded accelerometer is `(0, 0, 1)`. The platform's `atan2` is assumed to
return `0` for a zero first argument and a positive second one. -/
theorem update_level (env : Env) (s : MPU6050) (resp : List (Fin 256)) (t1 t2 : Nat)
    (hatan : ∀ x : ℚ, 0 < x → env.atan2 0 x = 0)
    (hx : (update env s resp t1 t2).rawAccX = 0)
    (hy : (update env s resp t1 t2).rawAccY = 0)
    (hz : 0 < (update env s resp t1 t2).rawAccZ) :
    (update env s resp t1 t2).accX = 0
      ∧ (update env s resp t1 t2).accY = 0
      ∧ (update env s resp t1 t2).accZ = ((update env s resp t1 t2).rawAccZ : ℚ) / 16384
      ∧ ((update env s resp t1 t2).rawAccZ = 16384 → (update env s resp t1 t2).accZ = 1)
      ∧ (update env s resp t1 t2).angleAccX = 0
      ∧ (update env s resp t1 t2).angleAccY = 0 := by
  have ax : (update env s resp t1 t2).accX
      = ((update env s resp t1 t2).rawAccX : ℚ) / 16384.0 := rfl
  have ay : (update env s resp t1 t2).accY
      = ((update env s resp t1 t2).rawAccY : ℚ) / 16384.0 := rfl
  have az : (update env s resp t1 t2).accZ
      = ((update env s resp t1 t2).rawAccZ : ℚ) / 16384.0 := rfl
  have tx : (update env s resp t1 t2).angleAccX
      = env.atan2 (update env s resp t1 t2).accY
          ((update env s resp t1 t2).accZ + |(update env s resp t1 t2).accX|)
          * 360 / 2.0 / PI := rfl
  have ty : (update env s resp t1 t2).angleAccY
      = env.atan2 (update env s resp t1 t2).accX
          ((update env s resp t1 t2).accZ + |(update env s resp t1 t2).accY|)
          * 360 / -2.0 / PI := rfl
  have ax0 : (update env s resp t1 t2).accX = 0 := by rw [ax, hx]; norm_num
  have ay0 : (update env s resp t1 t2).accY = 0 := by rw [ay, hy]; norm_num
  have azq : (update env s resp t1 t2).accZ
      = ((update env s resp t1 t2).rawAccZ : ℚ) / 16384 := by rw [az]; norm_num
  have hzq : (0 : ℚ) < ((update env s resp t1 t2).rawAccZ : ℚ) := by exact_mod_cast hz
  have azpos : 0 < (update env s resp t1 t2).accZ := by
    rw [azq]
    positivity
  refine ⟨ax0, ay0, azq, ?_, ?_, ?_⟩
  · intro h
    rw [azq, h]
    norm_num
  · rw [tx, ax0, ay0, abs_zero, add_zero, hatan _ azpos]
    norm_num
  · rw [ty, ax0, ay0, abs_zero, add_zero, hatan _ azpos]
    norm_num

/-- Witness of C5 on the level burst `(0, 0, 16384)`. -/
theorem update_level_witness :
    (update sampleEnv zeroState levelBurst 100 101).accX = 0
      ∧ (update sampleEnv zeroState levelBurst 100 101).accY = 0
      ∧ (update sampleEnv zeroState levelBurst 100 101).accZ = 1
      ∧ (update sampleEnv zeroState levelBurst 100 101).angleAccX = 0
      ∧ (update sampleEnv zeroState levelBurst 100 101).angleAccY = 0 := by
  have r := update_raw_of_full sampleEnv zeroState levelBurst rfl 100 101
  have w := burstWord_levelBurst
  have h := update_level sampleEnv zeroState levelBurst 100 101
    (fun x _ => by simp [sampleEnv])
    (r.1.trans w.1) (r.2.1.trans w.2.1) (by rw [r.2.2.1, w.2.2.1]; decide)
  exact ⟨h.1, h.2.1, h.2.2.2.1 (r.2.2.1.trans w.2.2.1), h.2.2.2.2.1, h.2.2.2.2.2⟩

/-! ## Calibration -/

/-- The accelerometer tilt stored by `update` on a full burst, from the accelerometer words
of the burst alone. -/
theorem update_tilt_of_full (env : Env) (s : MPU6050) (b : List (Fin 256))
    (hb : b.length = 14) (t1 t2 : Nat) :
    (update env s b t1 t2).angleAccX
        = env.atan2 ((burstWord b 1 : ℚ) / 16384)
            ((burstWord b 2 : ℚ) / 16384 + |(burstWord b 0 : ℚ) / 16384|) * (180 / PI)
      ∧ (update env s b t1 t2).angleAccY
        = -(env.atan2 ((burstWord b 0 : ℚ) / 16384)
            ((burstWord b 2 : ℚ) / 16384 + |(burstWord b 1 : ℚ) / 16384|) * (180 / PI)) := by
  have r := update_raw_of_full env s b hb t1 t2
  have tx : (update env s b t1 t2).angleAccX
      = env.atan2 (((update env s b t1 t2).rawAccY : ℚ) / 16384.0)
          (((update env s b t1 t2).rawAccZ : ℚ) / 16384.0
            + |((update env s b t1 t2).rawAccX : ℚ) / 16384.0|) * 360 / 2.0 / PI := rfl
  have ty : (update env s b t1 t2).angleAccY
      = env.atan2 (((update env s b t1 t2).rawAccX : ℚ) / 16384.0)
          (((update env s b t1 t2).rawAccZ : ℚ) / 16384.0
            + |((update env s b t1 t2).rawAccY : ℚ) / 16384.0|) * 360 / -2.0 / PI := rfl
  rw [tx, ty, r.1, r.2.1, r.2.2.1]
  constructor
  · norm_num
    ring
  · norm_num
    ring

/-- The five register writes of `begin` change the bus handle only, so `begin` is the inner
`update` run on the prior state with another bus handle, followed by the five member
assignments. -/
theorem begin_eq_update (env : Env) (s : MPU6050) (resp : List (Fin 256)) (t1 t2 t3 : Nat) :
    ∃ w : TwoWire,
      begin env s resp t1 t2 t3
        = { update env { s with wire := w } resp t1 t2 with
            angleGyroX := 0
            angleGyroY := 0
            angleX := (update env { s with wire := w } resp t1 t2).angleAccX
            angleY := (update env { s with wire := w } resp t1 t2).angleAccY
            preInterval := toU32 (t3 : Int) } := by
  unfold begin writeMPU6050 getAccAngleX getAccAngleY
  exact ⟨_, rfl⟩

/-- C8: after `begin`, for every first burst, the fused angles are the accelerometer tilt of
that burst: `angleX = angleAccX` and `angleY = angleAccY`; on a full burst they are a
function of the three accelerometer words only, so they do not depend on the gyro bytes,
the stored offsets, the coefficients or the clock readings. -/
theorem begin_seeds_fused_angles (env : Env) (s : MPU6050) (resp : List (Fin 256))
    (t1 t2 t3 : Nat) :
    (begin env s resp t1 t2 t3).angleX = (begin env s resp t1 t2 t3).angleAccX
      ∧ (begin env s resp t1 t2 t3).angleY = (begin env s resp t1 t2 t3).angleAccY
      ∧ (resp.length = 14 →
          (begin env s resp t1 t2 t3).angleX
              = env.atan2 ((burstWord resp 1 : ℚ) / 16384)
                  ((burstWord resp 2 : ℚ) / 16384 + |(burstWord resp 0 : ℚ) / 16384|)
                * (180 / PI)
            ∧ (begin env s resp t1 t2 t3).angleY
              = -(env.atan2 ((burstWord resp 0 : ℚ) / 16384)
                  ((burstWord resp 2 : ℚ) / 16384 + |(burstWord resp 1 : ℚ) / 16384|)
                * (180 / PI))) := by
  obtain ⟨w, hw⟩ := begin_eq_update env s resp t1 t2 t3
  rw [hw]
  exact ⟨rfl, rfl, fun hb => update_tilt_of_full env _ resp hb t1 t2⟩

/-- Witness of C8: `begin` on the level burst seeds both fused angles with tilt `0`. -/
theorem begin_seeds_fused_angles_witness :
    levelBurst.length = 14
      ∧ (begin sampleEnv zeroState levelBurst 100 101 102).angleX = 0
      ∧ (begin sampleEnv zeroState levelBurst 100 101 102).angleY = 0 := by
  have w := burstWord_levelBurst
  have h := (begin_seeds_fused_angles sampleEnv zeroState levelBurst 100 101 102).2.2 rfl
  rw [w.1, w.2.1, w.2.2.1] at h
  refine ⟨rfl, h.1.trans ?_, h.2.trans ?_⟩ <;> simp [sampleEnv]

/-- What `begin` leaves in the gyro-integral members: X and Y are zeroed, Z and `angleZ`
keep the value computed by the inner `update`. -/
theorem begin_gyro_terms (env : Env) (s : MPU6050) (resp : List (Fin 256)) (t1 t2 t3 : Nat) :
    (begin env s resp t1 t2 t3).angleGyroX = 0
      ∧ (begin env s resp t1 t2 t3).angleGyroY = 0
      ∧ (begin env s resp t1 t2 t3).angleGyroZ
          = s.angleGyroZ + (((begin env s resp t1 t2 t3).rawGyroZ : ℚ) / 65.5 - s.gyroZoffset)
              * ((toU32 ((t1 : Int) - (s.preInterval : Int)) : ℚ) * 0.001)
      ∧ (begin env s resp t1 t2 t3).angleZ = (begin env s resp t1 t2 t3).angleGyroZ := by
  obtain ⟨w, hw⟩ := begin_eq_update env s resp t1 t2 t3
  rw [hw]
  exact ⟨rfl, rfl, rfl, rfl⟩

theorem begin_rawGyroZ_of_full (env : Env) (s : MPU6050) (b : List (Fin 256))
    (hb : b.length = 14) (t1 t2 t3 : Nat) :
    (begin env s b t1 t2 t3).rawGyroZ = burstWord b 6 := by
  obtain ⟨w, hw⟩ := begin_eq_update env s b t1 t2 t3
  rw [hw]
  exact (update_raw_of_full env _ b hb t1 t2).2.2.2.2.2.2

/-- C9, evaluated on the all-zero state with the burst of raw gyro Z `655` and `100` ms on
the clock: `begin` zeroes `angleGyroX` and `angleGyroY` but leaves `angleGyroZ = 1` and
`angleZ = 1`. -/
theorem begin_leaves_angleGyroZ :
    (begin sampleEnv zeroState levelBurst 100 101 102).angleGyroX = 0
      ∧ (begin sampleEnv zeroState levelBurst 100 101 102).angleGyroY = 0
      ∧ (begin sampleEnv zeroState levelBurst 100 101 102).angleGyroZ = 1
      ∧ (begin sampleEnv zeroState levelBurst 100 101 102).angleZ = 1 := by
  have g := begin_gyro_terms sampleEnv zeroState levelBurst 100 101 102
  have r := begin_rawGyroZ_of_full sampleEnv zeroState levelBurst rfl 100 101 102
  have ht : toU32 (((100 : Nat) : Int) - (zeroState.preInterval : Int)) = 100 := by decide
  have hz : (begin sampleEnv zeroState levelBurst 100 101 102).angleGyroZ = 1 := by
    rw [g.2.2.1, r, burstWord_levelBurst.2.2.2.2.2.2, ht]
    norm_num [zeroState]
  exact ⟨g.1, g.2.1, hz, g.2.2.2.trans hz⟩

/-! ## The clock -/

theorem lor_neg_one (hi : Nat) : Int.lor ((hi : Int) <<< (8 : Int)) (-1) = -1 := by
  have h1 : ((hi : Int) <<< (8 : Int)) = ((hi <<< 8 : Nat) : Int) := Int.shiftLeft_coe_nat hi 8
  have h2 : Int.lor ((hi <<< 8 : Nat) : Int) (-1) = Int.negSucc (Nat.ldiff 0 (hi <<< 8)) := rfl
  rw [h1, h2]
  simp [Nat.ldiff]

theorem readWord_nil (log : List BusOp) : readWord ⟨log, []⟩ = (-1, ⟨log, []⟩) := by
  simp [readWord, TwoWire.read]
  decide

theorem readWord_single (log : List BusOp) (hi : Fin 256) :
    readWord ⟨log, [hi]⟩ = (-1, ⟨log, []⟩) := by
  simp [readWord, TwoWire.read, lor_neg_one]
  decide

theorem burstWord_drop_two (b : List (Fin 256)) (k : Nat) :
    burstWord (b.drop 2) k = burstWord b (k + 1) := by
  unfold burstWord
  simp only [List.getD_eq_getElem?_getD, List.getElem?_drop]
  have e1 : 2 + 2 * k = 2 * (k + 1) := by ring
  have e2 : 2 + (2 * k + 1) = 2 * (k + 1) + 1 := by ring
  rw [e1, e2]

theorem readWordAt_drop_two (b : List (Fin 256)) (k : Nat) :
    readWordAt (b.drop 2) k = readWordAt b (k + 1) := by
  unfold readWordAt
  rw [burstWord_drop_two, List.length_drop]
  by_cases h : 2 * (k + 1) + 2 ≤ b.length
  · rw [if_pos h, if_pos (by omega)]
  · rw [if_neg h, if_neg (by omega)]

/-- One word read from a buffer of any length: the word and the buffer left. -/
theorem readWord_eq (log : List BusOp) (rx : List (Fin 256)) :
    readWord ⟨log, rx⟩ = (readWordAt rx 0, ⟨log, rx.drop 2⟩) := by
  match rx with
  | [] => rw [readWord_nil]; rfl
  | [hi] => rw [readWord_single]; rfl
  | hi :: lo :: rest =>
    rw [readWord_cons_cons]
    simp [readWordAt, burstWord]

/-- For a burst of any length the seven raw members are the seven words read from the bytes
delivered (at most 14 of them), and the bus log grows by the four operations of the request. -/
theorem update_raw_any (env : Env) (s : MPU6050) (resp : List (Fin 256)) (t1 t2 : Nat) :
    (update env s resp t1 t2).rawAccX = readWordAt (resp.take 14) 0
      ∧ (update env s resp t1 t2).rawAccY = readWordAt (resp.take 14) 1
      ∧ (update env s resp t1 t2).rawAccZ = readWordAt (resp.take 14) 2
      ∧ (update env s resp t1 t2).rawTemp = readWordAt (resp.take 14) 3
      ∧ (update env s resp t1 t2).rawGyroX = readWordAt (resp.take 14) 4
      ∧ (update env s resp t1 t2).rawGyroY = readWordAt (resp.take 14) 5
      ∧ (update env s resp t1 t2).rawGyroZ = readWordAt (resp.take 14) 6
      ∧ (update env s resp t1 t2).wire.log
          = s.wire.log ++ [BusOp.beginTransmission env.MPU6050_ADDR, BusOp.write 0x3B,
              BusOp.endTransmission false, BusOp.requestFrom env.MPU6050_ADDR 14 true] := by
  have d1 : readWordAt ((resp.take 14).drop 2) 0 = readWordAt (resp.take 14) 1 :=
    readWordAt_drop_two _ 0
  have d2 : readWordAt (((resp.take 14).drop 2).drop 2) 0 = readWordAt (resp.take 14) 2 :=
    (readWordAt_drop_two _ 0).trans (readWordAt_drop_two _ 1)
  have d3 : readWordAt ((((resp.take 14).drop 2).drop 2).drop 2) 0
      = readWordAt (resp.take 14) 3 :=
    (readWordAt_drop_two _ 0).trans ((readWordAt_drop_two _ 1).trans
      (readWordAt_drop_two _ 2))
  have d4 : readWordAt (((((resp.take 14).drop 2).drop 2).drop 2).drop 2) 0
      = readWordAt (resp.take 14) 4 :=
    (readWordAt_drop_two _ 0).trans ((readWordAt_drop_two _ 1).trans
      ((readWordAt_drop_two _ 2).trans (readWordAt_drop_two _ 3)))
  have d5 : readWordAt ((((((resp.take 14).drop 2).drop 2).drop 2).drop 2).drop 2) 0
      = readWordAt (resp.take 14) 5 :=
    (readWordAt_drop_two _ 0).trans ((readWordAt_drop_two _ 1).trans
      ((readWordAt_drop_two _ 2).trans ((readWordAt_drop_two _ 3).trans
        (readWordAt_drop_two _ 4))))
  have d6 : readWordAt (((((((resp.take 14).drop 2).drop 2).drop 2).drop 2).drop 2).drop 2) 0
      = readWordAt (resp.take 14) 6 :=
    (readWordAt_drop_two _ 0).trans ((readWordAt_drop_two _ 1).trans
      ((readWordAt_drop_two _ 2).trans ((readWordAt_drop_two _ 3).trans
        ((readWordAt_drop_two _ 4).trans (readWordAt_drop_two _ 5)))))
  refine ⟨?_, ?_, ?_, ?_, ?_, ?_, ?_, ?_⟩
  · simp only [update, TwoWire.requestFrom, readWord_eq]
  · rw [← d1]; simp only [update, TwoWire.requestFrom, readWord_eq]
  · rw [← d2]; simp only [update, TwoWire.requestFrom, readWord_eq]
  · rw [← d3]; simp only [update, TwoWire.requestFrom, readWord_eq]
  · rw [← d4]; simp only [update, TwoWire.requestFrom, readWord_eq]
  · rw [← d5]; simp only [update, TwoWire.requestFrom, readWord_eq]
  · rw [← d6]; simp only [update, TwoWire.requestFrom, readWord_eq]
  · simp [update, TwoWire.requestFrom, readWord_eq, TwoWire.beginTransmission,
      TwoWire.write, TwoWire.endTransmission]

/-- The tilt angles stored by `update`, from the words read for any burst. -/
theorem update_tilt_any (env : Env) (s : MPU6050) (resp : List (Fin 256)) (t1 t2 : Nat) :
    (update env s resp t1 t2).angleAccX
        = env.atan2 ((readWordAt (resp.take 14) 1 : ℚ) / 16384.0)
            ((readWordAt (resp.take 14) 2 : ℚ) / 16384.0
              + |(readWordAt (resp.take 14) 0 : ℚ) / 16384.0|) * 360 / 2.0 / PI
      ∧ (update env s resp t1 t2).angleAccY
        = env.atan2 ((readWordAt (resp.take 14) 0 : ℚ) / 16384.0)
            ((readWordAt (resp.take 14) 2 : ℚ) / 16384.0
              + |(readWordAt (resp.take 14) 1 : ℚ) / 16384.0|) * 360 / -2.0 / PI := by
  have r := update_raw_any env s resp t1 t2
  have tx : (update env s resp t1 t2).angleAccX
      = env.atan2 (((update env s resp t1 t2).rawAccY : ℚ) / 16384.0)
          (((update env s resp t1 t2).rawAccZ : ℚ) / 16384.0
            + |((update env s resp t1 t2).rawAccX : ℚ) / 16384.0|) * 360 / 2.0 / PI := rfl
  have ty : (update env s resp t1 t2).angleAccY
      = env.atan2 (((update env s resp t1 t2).rawAccX : ℚ) / 16384.0)
          (((update env s resp t1 t2).rawAccZ : ℚ) / 16384.0
            + |((update env s resp t1 t2).rawAccY : ℚ) / 16384.0|) * 360 / -2.0 / PI := rfl
  rw [tx, ty, r.1, r.2.1, r.2.2.1]
  exact ⟨rfl, rfl⟩

/-- When the clock value read by `update` is the stored timestamp, the interval is zero and
the gyro-integral angles keep their values. -/
theorem update_same_clock (env : Env) (s : MPU6050) (resp : List (Fin 256)) (t2 : Nat) :
    (update env s resp s.preInterval t2).interval = 0
      ∧ (update env s resp s.preInterval t2).angleGyroX = s.angleGyroX
      ∧ (update env s resp s.preInterval t2).angleGyroY = s.angleGyroY
      ∧ (update env s resp s.preInterval t2).angleGyroZ = s.angleGyroZ := by
  have hi : (update env s resp s.preInterval t2).interval
      = (toU32 ((s.preInterval : Int) - (s.preInterval : Int)) : ℚ) * 0.001 := rfl
  have h0 : (update env s resp s.preInterval t2).interval = 0 := by
    rw [hi]
    simp [toU32]
  have gx : (update env s resp s.preInterval t2).angleGyroX
      = s.angleGyroX + (update env s resp s.preInterval t2).gyroX
          * (update env s resp s.preInterval t2).interval := rfl
  have gy : (update env s resp s.preInterval t2).angleGyroY
      = s.angleGyroY + (update env s resp s.preInterval t2).gyroY
          * (update env s resp s.preInterval t2).interval := rfl
  have gz : (update env s resp s.preInterval t2).angleGyroZ
      = s.angleGyroZ + (update env s resp s.preInterval t2).gyroZ
          * (update env s resp s.preInterval t2).interval := rfl
  refine ⟨h0, ?_, ?_, ?_⟩
  · rw [gx, h0, mul_zero, add_zero]
  · rw [gy, h0, mul_zero, add_zero]
  · rw [gz, h0, mul_zero, add_zero]

/-! ## Repeated calls -/

/-- C11: a second `update` with the same burst, its clock reading being the timestamp the
first call stored (`dt = 0`), leaves `angleGyroX/Y/Z` at their values after the first call and
recomputes `angleAccX/Y` to the same values. -/
theorem update_twice_same_burst (env : Env) (s : MPU6050) (resp : List (Fin 256))
    (t1 t2 t3 : Nat) :
    (update env (update env s resp t1 t2) resp (update env s resp t1 t2).preInterval t3).interval
        = 0
      ∧ (update env (update env s resp t1 t2) resp
            (update env s resp t1 t2).preInterval t3).angleGyroX
          = (update env s resp t1 t2).angleGyroX
      ∧ (update env (update env s resp t1 t2) resp
            (update env s resp t1 t2).preInterval t3).angleGyroY
          = (update env s resp t1 t2).angleGyroY
      ∧ (update env (update env s resp t1 t2) resp
            (update env s resp t1 t2).preInterval t3).angleGyroZ
          = (update env s resp t1 t2).angleGyroZ
      ∧ (update env (update env s resp t1 t2) resp
            (update env s resp t1 t2).preInterval t3).angleAccX
          = (update env s resp t1 t2).angleAccX
      ∧ (update env (update env s resp t1 t2) resp
            (update env s resp t1 t2).preInterval t3).angleAccY
          = (update env s resp t1 t2).angleAccY := by
  have c := update_same_clock env (update env s resp t1 t2) resp t3
  have a1 := update_tilt_any env s resp t1 t2
  have a2 := update_tilt_any env (update env s resp t1 t2) resp
    (update env s resp t1 t2).preInterval t3
  exact ⟨c.1, c.2.1, c.2.2.1, c.2.2.2, a2.1.trans a1.1.symm, a2.2.trans a1.2.symm⟩

/-! ## The bus -/

/-- C14: `begin` appends to the bus log exactly five register writes, in the order
sample-rate divider `0x00`, configuration `0x00`, gyro configuration `0x08`, accelerometer
configuration `0x10`, power management `0x02`, each one transaction to the device address
with the register byte then the value byte, and only then the burst request of `update`. -/
theorem begin_bus_log (env : Env) (s : MPU6050) (resp : List (Fin 256)) (t1 t2 t3 : Nat) :
    (begin env s resp t1 t2 t3).wire.log
      = s.wire.log ++
        [BusOp.beginTransmission env.MPU6050_ADDR, BusOp.write env.MPU6050_SMPLRT_DIV,
          BusOp.write 0x00, BusOp.endTransmission true,
         BusOp.beginTransmission env.MPU6050_ADDR, BusOp.write env.MPU6050_CONFIG,
          BusOp.write 0x00, BusOp.endTransmission true,
         BusOp.beginTransmission env.MPU6050_ADDR, BusOp.write env.MPU6050_GYRO_CONFIG,
          BusOp.write 0x08, BusOp.endTransmission true,
         BusOp.beginTransmission env.MPU6050_ADDR, BusOp.write env.MPU6050_ACCEL_CONFIG,
          BusOp.write 0x10, BusOp.endTransmission true,
         BusOp.beginTransmission env.MPU6050_ADDR, BusOp.write env.MPU6050_PWR_MGMT_1,
          BusOp.write 0x02, BusOp.endTransmission true,
         BusOp.beginTransmission env.MPU6050_ADDR, BusOp.write 0x3B,
          BusOp.endTransmission false, BusOp.requestFrom env.MPU6050_ADDR 14 true] := by
  have h : (begin env s resp t1 t2 t3).wire.log
      = (update env
          (writeMPU6050 env (writeMPU6050 env (writeMPU6050 env (writeMPU6050 env
            (writeMPU6050 env s env.MPU6050_SMPLRT_DIV 0x00) env.MPU6050_CONFIG 0x00)
            env.MPU6050_GYRO_CONFIG 0x08) env.MPU6050_ACCEL_CONFIG 0x10)
            env.MPU6050_PWR_MGMT_1 0x02) resp t1 t2).wire.log := by
    unfold begin getAccAngleX getAccAngleY
    rfl
  rw [h, (update_raw_any env _ resp t1 t2).2.2.2.2.2.2.2]
  simp [writeMPU6050, TwoWire.beginTransmission, TwoWire.write, TwoWire.endTransmission]

/-! ## Short reads -/

/-- C16: `update` and `begin` leave `accCoef`, `gyroCoef` and the three gyro offsets
unchanged; `calcGyroOffsets` leaves `accCoef`, `gyroCoef` and every angle, raw and decoded
member unchanged; `setGyroOffsets x y z` sets the offsets to `(x, y, z)` and changes no other
member. -/
theorem coefficients_and_offsets_frame (env : Env) (s : MPU6050) (resp : List (Fin 256))
    (t1 t2 t3 : Nat) (console : Bool) (bursts : Nat → List (Fin 256)) (x y z : ℚ) :
    ((update env s resp t1 t2).accCoef = s.accCoef
      ∧ (update env s resp t1 t2).gyroCoef = s.gyroCoef
      ∧ (update env s resp t1 t2).gyroXoffset = s.gyroXoffset
      ∧ (update env s resp t1 t2).gyroYoffset = s.gyroYoffset
      ∧ (update env s resp t1 t2).gyroZoffset = s.gyroZoffset)
      ∧ ((begin env s resp t1 t2 t3).accCoef = s.accCoef
        ∧ (begin env s resp t1 t2 t3).gyroCoef = s.gyroCoef
        ∧ (begin env s resp t1 t2 t3).gyroXoffset = s.gyroXoffset
        ∧ (begin env s resp t1 t2 t3).gyroYoffset = s.gyroYoffset
        ∧ (begin env s resp t1 t2 t3).gyroZoffset = s.gyroZoffset)
      ∧ ((calcGyroOffsets env s console bursts).accCoef = s.accCoef
        ∧ (calcGyroOffsets env s console bursts).gyroCoef = s.gyroCoef
        ∧ (calcGyroOffsets env s console bursts).angleX = s.angleX
        ∧ (calcGyroOffsets env s console bursts).angleY = s.angleY
        ∧ (calcGyroOffsets env s console bursts).angleZ = s.angleZ
        ∧ (calcGyroOffsets env s console bursts).angleGyroX = s.angleGyroX
        ∧ (calcGyroOffsets env s console bursts).angleGyroY = s.angleGyroY
        ∧ (calcGyroOffsets env s console bursts).angleGyroZ = s.angleGyroZ
        ∧ (calcGyroOffsets env s console bursts).angleAccX = s.angleAccX
        ∧ (calcGyroOffsets env s console bursts).angleAccY = s.angleAccY
        ∧ (calcGyroOffsets env s console bursts).rawAccX = s.rawAccX
        ∧ (calcGyroOffsets env s console bursts).rawAccY = s.rawAccY
        ∧ (calcGyroOffsets env s console bursts).rawAccZ = s.rawAccZ
        ∧ (calcGyroOffsets env s console bursts).rawTemp = s.rawTemp
        ∧ (calcGyroOffsets env s console bursts).rawGyroX = s.rawGyroX
        ∧ (calcGyroOffsets env s console bursts).rawGyroY = s.rawGyroY
        ∧ (calcGyroOffsets env s console bursts).rawGyroZ = s.rawGyroZ
        ∧ (calcGyroOffsets env s console bursts).temp = s.temp
        ∧ (calcGyroOffsets env s console bursts).accX = s.accX
        ∧ (calcGyroOffsets env s console bursts).accY = s.accY
        ∧ (calcGyroOffsets env s console bursts).accZ = s.accZ
        ∧ (calcGyroOffsets env s console bursts).gyroX = s.gyroX
        ∧ (calcGyroOffsets env s console bursts).gyroY = s.gyroY
        ∧ (calcGyroOffsets env s console bursts).gyroZ = s.gyroZ
        ∧ (calcGyroOffsets env s console bursts).interval = s.interval
        ∧ (calcGyroOffsets env s console bursts).preInterval = s.preInterval)
      ∧ ((setGyroOffsets s x y z).gyroXoffset = x
        ∧ (setGyroOffsets s x y z).gyroYoffset = y
        ∧ (setGyroOffsets s x y z).gyroZoffset = z
        ∧ { setGyroOffsets s x y z with
              gyroXoffset := s.gyroXoffset
              gyroYoffset := s.gyroYoffset
              gyroZoffset := s.gyroZoffset } = s) := by
  obtain ⟨w, hw⟩ := begin_eq_update env s resp t1 t2 t3
  rw [hw]
  refine ⟨⟨rfl, rfl, rfl, rfl, rfl⟩, ⟨rfl, rfl, rfl, rfl, rfl⟩, ?_, ⟨rfl, rfl, rfl, rfl⟩⟩
  simp only [calcGyroOffsets, and_self]

/-! ## Rounding to a binary format -/

theorem roundEven_err (q : ℚ) : |(roundEven q : ℚ) - q| ≤ 1 / 2 := by
  have h1 : (⌊q⌋ : ℚ) ≤ q := Int.floor_le q
  have h2 : q < ⌊q⌋ + 1 := Int.lt_floor_add_one q
  unfold roundEven
  split_ifs with ha hb hc
  · rw [abs_le]; constructor <;> linarith
  · push_cast; rw [abs_le]; constructor <;> linarith
  · rw [abs_le]; constructor <;> linarith
  · push_cast; rw [abs_le]; constructor <;> linarith

theorem roundEven_eq (q : ℚ) (n : ℤ) (h : |q - n| < 1 / 2) : roundEven q = n := by
  rw [abs_lt] at h
  unfold roundEven
  by_cases hn : (n : ℚ) ≤ q
  · have hf : ⌊q⌋ = n := by
      rw [Int.floor_eq_iff]
      constructor
      · exact hn
      · linarith
    rw [hf, if_pos (by linarith)]
  · push_neg at hn
    have hf : ⌊q⌋ = n - 1 := by
      rw [Int.floor_eq_iff]
      push_cast
      constructor <;> linarith
    rw [hf]
    push_cast
    rw [if_neg (by linarith), if_pos (by linarith)]
    ring

theorem roundEven_tie_even (n : ℤ) (hn : n % 2 = 0) : roundEven ((n : ℚ) + 1 / 2) = n := by
  have hf : ⌊(n : ℚ) + 1 / 2⌋ = n := by
    rw [Int.floor_eq_iff]
    constructor <;> linarith
  unfold roundEven
  rw [hf, if_neg (by linarith), if_neg (by linarith), if_pos hn]

theorem roundEven_tie_odd (n : ℤ) (hn : n % 2 = 0) : roundEven ((n : ℚ) - 1 / 2) = n := by
  have hf : ⌊(n : ℚ) - 1 / 2⌋ = n - 1 := by
    rw [Int.floor_eq_iff]
    push_cast
    constructor <;> linarith
  have hodd : ¬ (n - 1) % 2 = 0 := by omega
  unfold roundEven
  rw [hf, if_neg (by push_cast; linarith), if_neg (by push_cast; linarith), if_neg hodd]
  ring

theorem roundEven_intCast (n : ℤ) : roundEven (n : ℚ) = n :=
  roundEven_eq _ n (by simp)

theorem two_zpow_pos (e : ℤ) : (0 : ℚ) < 2 ^ e := zpow_pos (by norm_num) e

theorem ulpExp_ge (p : ℕ) (emin : ℤ) (q : ℚ) : emin ≤ ulpExp p emin q :=
  le_max_right _ _

theorem log_lt_of_abs_lt (q : ℚ) (hq : q ≠ 0) (x : ℤ) (h : |q| < 2 ^ x) :
    Int.log 2 |q| < x := by
  have hpos : 0 < |q| := abs_pos.mpr hq
  have := (Int.lt_zpow_iff_log_lt (R := ℚ) (b := 2) (by norm_num) (x := x) hpos).mp
    (by simpa using h)
  exact this

theorem le_log_of_le_abs (q : ℚ) (hq : q ≠ 0) (x : ℤ) (h : (2 : ℚ) ^ x ≤ |q|) :
    x ≤ Int.log 2 |q| := by
  have hpos : 0 < |q| := abs_pos.mpr hq
  exact (Int.zpow_le_iff_le_log (R := ℚ) (b := 2) (by norm_num) (x := x) hpos).mp
    (by simpa using h)

theorem zpow_log_le_abs (q : ℚ) (hq : q ≠ 0) : (2 : ℚ) ^ Int.log 2 |q| ≤ |q| := by
  have := Int.zpow_log_le_self (R := ℚ) (b := 2) (by norm_num) (abs_pos.mpr hq)
  simpa using this

theorem abs_lt_zpow_log_succ (q : ℚ) : |q| < (2 : ℚ) ^ (Int.log 2 |q| + 1) := by
  have := Int.lt_zpow_succ_log_self (R := ℚ) (b := 2) (by norm_num) |q|
  simpa using this

/-- The exponent chosen for a value inside a binade. -/
theorem ulpExp_eq (p : ℕ) (emin : ℤ) (q : ℚ) (e : ℤ)
    (hlo : (2 : ℚ) ^ (e + (p : ℤ) - 1) ≤ |q|) (hhi : |q| < (2 : ℚ) ^ (e + (p : ℤ)))
    (he : emin ≤ e) : ulpExp p emin q = e := by
  have hq : q ≠ 0 := by
    intro h
    rw [h, abs_zero] at hlo
    exact absurd hlo (not_le.mpr (two_zpow_pos _))
  have h1 := log_lt_of_abs_lt q hq _ hhi
  have h2 := le_log_of_le_abs q hq _ hlo
  have hl : Int.log 2 |q| = e + (p : ℤ) - 1 := by omega
  unfold ulpExp
  rw [hl]
  have : e + (p : ℤ) - 1 - ((p : ℤ) - 1) = e := by ring
  rw [this]
  exact max_eq_left he

/-- Evaluation of a rounding: a value inside the binade of exponent `e` whose scaled value
is nearer to the integer `n` than to any other. -/
theorem roundFloat_eval (p : ℕ) (emin : ℤ) (q : ℚ) (e n : ℤ)
    (hlo : (2 : ℚ) ^ (e + (p : ℤ) - 1) ≤ |q|) (hhi : |q| < (2 : ℚ) ^ (e + (p : ℤ)))
    (he : emin ≤ e) (hn : |q / 2 ^ e - n| < 1 / 2) :
    roundFloat p emin q = (n : ℚ) * 2 ^ e := by
  unfold roundFloat
  rw [ulpExp_eq p emin q e hlo hhi he, roundEven_eq _ n hn]

/-- Evaluation of a rounding at a tie: the even neighbour is taken. -/
theorem roundFloat_eval_tie (p : ℕ) (emin : ℤ) (q : ℚ) (e n : ℤ)
    (hlo : (2 : ℚ) ^ (e + (p : ℤ) - 1) ≤ |q|) (hhi : |q| < (2 : ℚ) ^ (e + (p : ℤ)))
    (he : emin ≤ e) (hn : q / 2 ^ e = (n : ℚ) + 1 / 2) (heven : n % 2 = 0) :
    roundFloat p emin q = (n : ℚ) * 2 ^ e := by
  unfold roundFloat
  rw [ulpExp_eq p emin q e hlo hhi he, hn, roundEven_tie_even n heven]

theorem roundFloat_zero (p : ℕ) (emin : ℤ) : roundFloat p emin 0 = 0 := by
  unfold roundFloat
  rw [zero_div]
  have : roundEven 0 = 0 := by
    have := roundEven_intCast 0
    simpa using this
  rw [this]
  simp

/-- Rounding error: at most half a unit in the last place, that is a relative error of
`2^-p`, or `2^(emin-1)` in the subnormal range. -/
theorem roundFloat_err (p : ℕ) (emin : ℤ) (q : ℚ) :
    |roundFloat p emin q - q| ≤ |q| * 2 ^ (-(p : ℤ)) + 2 ^ (emin - 1) := by
  by_cases hq : q = 0
  · rw [hq, roundFloat_zero]
    simp
    exact le_of_lt (two_zpow_pos _)
  · have hpos := two_zpow_pos (ulpExp p emin q)
    have herr := roundEven_err (q / 2 ^ ulpExp p emin q)
    have hsplit : roundFloat p emin q - q
        = ((roundEven (q / 2 ^ ulpExp p emin q) : ℚ) - q / 2 ^ ulpExp p emin q)
          * 2 ^ ulpExp p emin q := by
      unfold roundFloat
      field_simp
    have hb : |roundFloat p emin q - q| ≤ 2 ^ ulpExp p emin q / 2 := by
      rw [hsplit, abs_mul, abs_of_pos hpos]
      calc |(roundEven (q / 2 ^ ulpExp p emin q) : ℚ) - q / 2 ^ ulpExp p emin q|
            * 2 ^ ulpExp p emin q
          ≤ 1 / 2 * 2 ^ ulpExp p emin q := mul_le_mul_of_nonneg_right herr (le_of_lt hpos)
        _ = 2 ^ ulpExp p emin q / 2 := by ring
    have hhalf : ∀ x : ℤ, (2 : ℚ) ^ x / 2 = 2 ^ (x - 1) := by
      intro x
      rw [zpow_sub₀ (by norm_num : (2 : ℚ) ≠ 0), zpow_one]
    rcases le_total (Int.log 2 |q| - ((p : ℤ) - 1)) emin with h | h
    · have he : ulpExp p emin q = emin := max_eq_right h
      rw [he, hhalf] at hb
      have : 0 ≤ |q| * 2 ^ (-(p : ℤ)) := mul_nonneg (abs_nonneg _) (le_of_lt (two_zpow_pos _))
      linarith
    · have he : ulpExp p emin q = Int.log 2 |q| - ((p : ℤ) - 1) := max_eq_left h
      rw [he, hhalf] at hb
      have e1 : Int.log 2 |q| - ((p : ℤ) - 1) - 1 = Int.log 2 |q| + (-(p : ℤ)) := by ring
      rw [e1, zpow_add₀ (by norm_num : (2 : ℚ) ≠ 0)] at hb
      have h2 := mul_le_mul_of_nonneg_right (zpow_log_le_abs q hq)
        (le_of_lt (two_zpow_pos (-(p : ℤ))))
      have : 0 < (2 : ℚ) ^ (emin - 1) := two_zpow_pos _
      linarith

/-- A value `n * 2^e` with `|n| < 2^p` and `e` not below the least exponent is left unchanged
by rounding. -/
theorem roundFloat_repr (p : ℕ) (emin : ℤ) (n e : ℤ) (hn : |n| < 2 ^ p) (he : emin ≤ e) :
    roundFloat p emin ((n : ℚ) * 2 ^ e) = (n : ℚ) * 2 ^ e := by
  by_cases hz : n = 0
  · rw [hz]
    simp [roundFloat_zero]
  · have h2 : (2 : ℚ) ≠ 0 := by norm_num
    have hq : (n : ℚ) * 2 ^ e ≠ 0 :=
      mul_ne_zero (by exact_mod_cast hz) (ne_of_gt (two_zpow_pos e))
    have habs : |(n : ℚ) * 2 ^ e| < 2 ^ (e + (p : ℤ)) := by
      rw [abs_mul, abs_of_pos (two_zpow_pos e), zpow_add₀ h2, mul_comm ((2 : ℚ) ^ e)]
      apply mul_lt_mul_of_pos_right _ (two_zpow_pos e)
      have : ((|n| : ℤ) : ℚ) < ((2 ^ p : ℤ) : ℚ) := by exact_mod_cast hn
      simpa using this
    have hlog := log_lt_of_abs_lt _ hq _ habs
    have hle : ulpExp p emin ((n : ℚ) * 2 ^ e) ≤ e := by
      unfold ulpExp
      apply max_le
      · omega
      · exact he
    obtain ⟨k, hk⟩ := Int.eq_ofNat_of_zero_le (sub_nonneg.mpr hle)
    have hscale : (n : ℚ) * 2 ^ e / 2 ^ ulpExp p emin ((n : ℚ) * 2 ^ e)
        = ((n * 2 ^ k : ℤ) : ℚ) := by
      have e1 : e = ulpExp p emin ((n : ℚ) * 2 ^ e) + (k : ℤ) := by omega
      rw [div_eq_iff (ne_of_gt (two_zpow_pos _))]
      nth_rewrite 1 [e1]
      rw [zpow_add₀ h2, zpow_natCast]
      push_cast
      ring
    have hval : roundFloat p emin ((n : ℚ) * 2 ^ e)
        = ((n * 2 ^ k : ℤ) : ℚ) * 2 ^ ulpExp p emin ((n : ℚ) * 2 ^ e) := by
      unfold roundFloat
      rw [hscale, roundEven_intCast]
    rw [hval, ← hscale]
    field_simp

/-- Rounding is idempotent: a rounded value is representable. -/
theorem roundFloat_idem (p : ℕ) (emin : ℤ) (hp : 1 ≤ p) (q : ℚ) :
    roundFloat p emin (roundFloat p emin q) = roundFloat p emin q := by
  by_cases hq : q = 0
  · rw [hq, roundFloat_zero, roundFloat_zero]
  · have h2 : (2 : ℚ) ≠ 0 := by norm_num
    have hpos := two_zpow_pos (ulpExp p emin q)
    have hge : Int.log 2 |q| - ((p : ℤ) - 1) ≤ ulpExp p emin q := le_max_left _ _
    have hlt : |q| < 2 ^ (ulpExp p emin q + (p : ℤ)) :=
      lt_of_lt_of_le (abs_lt_zpow_log_succ q)
        (zpow_le_zpow_right₀ (by norm_num) (by omega))
    have hscaled : |q / 2 ^ ulpExp p emin q| < 2 ^ p := by
      rw [abs_div, abs_of_pos hpos, div_lt_iff₀ hpos]
      rw [zpow_add₀ h2, zpow_natCast, mul_comm] at hlt
      exact hlt
    have herr := roundEven_err (q / 2 ^ ulpExp p emin q)
    have hm : |(roundEven (q / 2 ^ ulpExp p emin q) : ℚ)| < 2 ^ p + 1 := by
      have := abs_sub_abs_le_abs_sub (roundEven (q / 2 ^ ulpExp p emin q) : ℚ)
        (q / 2 ^ ulpExp p emin q)
      linarith
    have hmz : |roundEven (q / 2 ^ ulpExp p emin q)| ≤ 2 ^ p := by
      have : ((|roundEven (q / 2 ^ ulpExp p emin q)| : ℤ) : ℚ) < ((2 ^ p + 1 : ℤ) : ℚ) := by
        push_cast
        exact hm
      have := Int.cast_lt.mp this
      omega
    show roundFloat p emin (roundFloat p emin q) = roundFloat p emin q
    have hdef : roundFloat p emin q
        = (roundEven (q / 2 ^ ulpExp p emin q) : ℚ) * 2 ^ ulpExp p emin q := rfl
    rcases lt_or_eq_of_le hmz with hlt2 | heq
    · rw [hdef]
      exact roundFloat_repr p emin _ _ hlt2 (ulpExp_ge p emin q)
    · obtain ⟨j, hj⟩ : ∃ j : ℕ, p = j + 1 := ⟨p - 1, by omega⟩
      have hcases : roundEven (q / 2 ^ ulpExp p emin q) = 2 ^ p
          ∨ roundEven (q / 2 ^ ulpExp p emin q) = -(2 ^ p) := by
        rcases abs_cases (roundEven (q / 2 ^ ulpExp p emin q)) with h | h
        · left; omega
        · right; omega
      have hjlt : |(2 : ℤ) ^ j| < 2 ^ p := by
        rw [abs_of_pos (by positivity), hj]
        exact pow_lt_pow_right₀ (by norm_num) (by omega)
      have hjlt2 : |-(2 : ℤ) ^ j| < 2 ^ p := by
        rw [abs_neg]
        exact hjlt
      rcases hcases with h | h
      · have hv : roundFloat p emin q
            = (((2 : ℤ) ^ j : ℤ) : ℚ) * 2 ^ (ulpExp p emin q + 1) := by
          rw [hdef, h, zpow_add₀ h2, hj]
          push_cast
          ring
        rw [hv]
        exact roundFloat_repr p emin _ _ hjlt (by have := ulpExp_ge p emin q; omega)
      · have hv : roundFloat p emin q
            = ((-(2 : ℤ) ^ j : ℤ) : ℚ) * 2 ^ (ulpExp p emin q + 1) := by
          rw [hdef, h, zpow_add₀ h2, hj]
          push_cast
          ring
        rw [hv]
        exact roundFloat_repr p emin _ _ hjlt2 (by have := ulpExp_ge p emin q; omega)

/-- Evaluation of a rounding at a positive value, with the bounds stated without absolute
values. -/
theorem roundFloat_eval_pos (p : ℕ) (emin : ℤ) (q : ℚ) (e n : ℤ)
    (hlo : (2 : ℚ) ^ (e + (p : ℤ) - 1) ≤ q) (hhi : q < (2 : ℚ) ^ (e + (p : ℤ)))
    (he : emin ≤ e) (h1 : (n : ℚ) - 1 / 2 < q / 2 ^ e) (h2 : q / 2 ^ e < (n : ℚ) + 1 / 2) :
    roundFloat p emin q = (n : ℚ) * 2 ^ e := by
  have hq : 0 < q := lt_of_lt_of_le (two_zpow_pos _) hlo
  apply roundFloat_eval p emin q e n
  · rw [abs_of_pos hq]; exact hlo
  · rw [abs_of_pos hq]; exact hhi
  · exact he
  · rw [abs_lt]; constructor <;> linarith

/-- Evaluation of a rounding at a positive tie. -/
theorem roundFloat_eval_tie_pos (p : ℕ) (emin : ℤ) (q : ℚ) (e n : ℤ)
    (hlo : (2 : ℚ) ^ (e + (p : ℤ) - 1) ≤ q) (hhi : q < (2 : ℚ) ^ (e + (p : ℤ)))
    (he : emin ≤ e) (hn : q / 2 ^ e = (n : ℚ) + 1 / 2) (heven : n % 2 = 0) :
    roundFloat p emin q = (n : ℚ) * 2 ^ e := by
  have hq : 0 < q := lt_of_lt_of_le (two_zpow_pos _) hlo
  apply roundFloat_eval_tie p emin q e n _ _ he hn heven
  · rw [abs_of_pos hq]; exact hlo
  · rw [abs_of_pos hq]; exact hhi

/-- Evaluation of a rounding at a positive tie that rounds up to an even significand. -/
theorem roundFloat_eval_tie_up_pos (p : ℕ) (emin : ℤ) (q : ℚ) (e n : ℤ)
    (hlo : (2 : ℚ) ^ (e + (p : ℤ) - 1) ≤ q) (hhi : q < (2 : ℚ) ^ (e + (p : ℤ)))
    (he : emin ≤ e) (hn : q / 2 ^ e = (n : ℚ) - 1 / 2) (heven : n % 2 = 0) :
    roundFloat p emin q = (n : ℚ) * 2 ^ e := by
  have hq : 0 < q := lt_of_lt_of_le (two_zpow_pos _) hlo
  unfold roundFloat
  rw [ulpExp_eq p emin q e (by rw [abs_of_pos hq]; exact hlo)
    (by rw [abs_of_pos hq]; exact hhi) he, hn, roundEven_tie_odd n heven]

theorem f32_zero : f32 0 = 0 := roundFloat_zero 24 (-149)

theorem f64_zero : f64 0 = 0 := roundFloat_zero 53 (-1074)

theorem f32_idem (q : ℚ) : f32 (f32 q) = f32 q := roundFloat_idem 24 (-149) (by norm_num) q

/-- Integers of magnitude below `2^24` are binary32 values. -/
theorem f32_intCast (n : ℤ) (h : |n| < 2 ^ 24) : f32 (n : ℚ) = n := by
  have := roundFloat_repr 24 (-149) n 0 h (by norm_num)
  simpa [f32] using this

/-- Integers of magnitude below `2^53` are binary64 values. -/
theorem f64_intCast (n : ℤ) (h : |n| < 2 ^ 53) : f64 (n : ℚ) = n := by
  have := roundFloat_repr 53 (-1074) n 0 h (by norm_num)
  simpa [f64] using this

/-- Rounding error of binary32: relative `2^-24`, absolute `2^-150` near zero. -/
theorem f32_err (q : ℚ) : |f32 q - q| ≤ |q| / 2 ^ 24 + 1 / 2 ^ 150 := by
  have h := roundFloat_err 24 (-149) q
  have e1 : (2 : ℚ) ^ (-((24 : ℕ) : ℤ)) = 1 / 2 ^ 24 := by norm_num
  have e2 : (2 : ℚ) ^ ((-149 : ℤ) - 1) = 1 / 2 ^ 150 := by norm_num
  rw [e1, e2] at h
  unfold f32
  linarith

/-! ## The update with rounding -/

/-- For a burst of any length the raw members and the bus log of the rounded update are
those of the integer part of the code. -/
theorem rounded_update_raw_any (env : Env) (s : MPU6050) (resp : List (Fin 256))
    (t1 t2 : Nat) :
    (Rounded.update env s resp t1 t2).rawAccX = readWordAt (resp.take 14) 0
      ∧ (Rounded.update env s resp t1 t2).rawAccY = readWordAt (resp.take 14) 1
      ∧ (Rounded.update env s resp t1 t2).rawAccZ = readWordAt (resp.take 14) 2
      ∧ (Rounded.update env s resp t1 t2).rawTemp = readWordAt (resp.take 14) 3
      ∧ (Rounded.update env s resp t1 t2).rawGyroX = readWordAt (resp.take 14) 4
      ∧ (Rounded.update env s resp t1 t2).rawGyroY = readWordAt (resp.take 14) 5
      ∧ (Rounded.update env s resp t1 t2).rawGyroZ = readWordAt (resp.take 14) 6 := by
  have d1 : readWordAt ((resp.take 14).drop 2) 0 = readWordAt (resp.take 14) 1 :=
    readWordAt_drop_two _ 0
  have d2 : readWordAt (((resp.take 14).drop 2).drop 2) 0 = readWordAt (resp.take 14) 2 :=
    (readWordAt_drop_two _ 0).trans (readWordAt_drop_two _ 1)
  have d3 : readWordAt ((((resp.take 14).drop 2).drop 2).drop 2) 0
      = readWordAt (resp.take 14) 3 :=
    (readWordAt_drop_two _ 0).trans ((readWordAt_drop_two _ 1).trans
      (readWordAt_drop_two _ 2))
  have d4 : readWordAt (((((resp.take 14).drop 2).drop 2).drop 2).drop 2) 0
      = readWordAt (resp.take 14) 4 :=
    (readWordAt_drop_two _ 0).trans ((readWordAt_drop_two _ 1).trans
      ((readWordAt_drop_two _ 2).trans (readWordAt_drop_two _ 3)))
  have d5 : readWordAt ((((((resp.take 14).drop 2).drop 2).drop 2).drop 2).drop 2) 0
      = readWordAt (resp.take 14) 5 :=
    (readWordAt_drop_two _ 0).trans ((readWordAt_drop_two _ 1).trans
      ((readWordAt_drop_two _ 2).trans ((readWordAt_drop_two _ 3).trans
        (readWordAt_drop_two _ 4))))
  have d6 : readWordAt (((((((resp.take 14).drop 2).drop 2).drop 2).drop 2).drop 2).drop 2) 0
      = readWordAt (resp.take 14) 6 :=
    (readWordAt_drop_two _ 0).trans ((readWordAt_drop_two _ 1).trans
      ((readWordAt_drop_two _ 2).trans ((readWordAt_drop_two _ 3).trans
        ((readWordAt_drop_two _ 4).trans (readWordAt_drop_two _ 5)))))
  refine ⟨?_, ?_, ?_, ?_, ?_, ?_, ?_⟩
  · simp only [Rounded.update, TwoWire.requestFrom, readWord_eq]
  · rw [← d1]; simp only [Rounded.update, TwoWire.requestFrom, readWord_eq]
  · rw [← d2]; simp only [Rounded.update, TwoWire.requestFrom, readWord_eq]
  · rw [← d3]; simp only [Rounded.update, TwoWire.requestFrom, readWord_eq]
  · rw [← d4]; simp only [Rounded.update, TwoWire.requestFrom, readWord_eq]
  · rw [← d5]; simp only [Rounded.update, TwoWire.requestFrom, readWord_eq]
  · rw [← d6]; simp only [Rounded.update, TwoWire.requestFrom, readWord_eq]

/-- The rates stored by the rounded update. -/
theorem rounded_update_rates (env : Env) (s : MPU6050) (resp : List (Fin 256)) (t1 t2 : Nat) :
    (Rounded.update env s resp t1 t2).gyroX
        = f32 (f32 (f64 (f32 ((Rounded.update env s resp t1 t2).rawGyroX : ℚ) / 65.5))
            - s.gyroXoffset)
      ∧ (Rounded.update env s resp t1 t2).gyroY
        = f32 (f32 (f64 (f32 ((Rounded.update env s resp t1 t2).rawGyroY : ℚ) / 65.5))
            - s.gyroYoffset)
      ∧ (Rounded.update env s resp t1 t2).gyroZ
        = f32 (f32 (f64 (f32 ((Rounded.update env s resp t1 t2).rawGyroZ : ℚ) / 65.5))
            - s.gyroZoffset) :=
  ⟨rfl, rfl, rfl⟩

/-- Members that the rounded update copies, the timestamp it stores and its interval. -/
theorem rounded_update_keeps (env : Env) (s : MPU6050) (resp : List (Fin 256)) (t1 t2 : Nat) :
    (Rounded.update env s resp t1 t2).accCoef = s.accCoef
      ∧ (Rounded.update env s resp t1 t2).gyroCoef = s.gyroCoef
      ∧ (Rounded.update env s resp t1 t2).gyroXoffset = s.gyroXoffset
      ∧ (Rounded.update env s resp t1 t2).gyroYoffset = s.gyroYoffset
      ∧ (Rounded.update env s resp t1 t2).gyroZoffset = s.gyroZoffset
      ∧ (Rounded.update env s resp t1 t2).preInterval = toU32 (t2 : Int)
      ∧ (Rounded.update env s resp t1 t2).interval
          = f32 (f64 (f64 (toU32 ((t1 : Int) - (s.preInterval : Int)) : ℚ) * f64 0.001)) :=
  ⟨rfl, rfl, rfl, rfl, rfl, rfl, rfl⟩

/-- The gyro-integral angles stored by the rounded update. -/
theorem rounded_update_integrals (env : Env) (s : MPU6050) (resp : List (Fin 256))
    (t1 t2 : Nat) :
    (Rounded.update env s resp t1 t2).angleGyroX
        = f32 (s.angleGyroX + f32 ((Rounded.update env s resp t1 t2).gyroX
            * (Rounded.update env s resp t1 t2).interval))
      ∧ (Rounded.update env s resp t1 t2).angleGyroY
        = f32 (s.angleGyroY + f32 ((Rounded.update env s resp t1 t2).gyroY
            * (Rounded.update env s resp t1 t2).interval))
      ∧ (Rounded.update env s resp t1 t2).angleGyroZ
        = f32 (s.angleGyroZ + f32 ((Rounded.update env s resp t1 t2).gyroZ
            * (Rounded.update env s resp t1 t2).interval))
      ∧ (Rounded.update env s resp t1 t2).angleZ
        = (Rounded.update env s resp t1 t2).angleGyroZ :=
  ⟨rfl, rfl, rfl, rfl⟩

/-- The fused angles stored by the rounded update. -/
theorem rounded_update_fused (env : Env) (s : MPU6050) (resp : List (Fin 256)) (t1 t2 : Nat) :
    (Rounded.update env s resp t1 t2).angleX
        = f32 (f32 (s.gyroCoef * f32 (s.angleX
              + f32 ((Rounded.update env s resp t1 t2).gyroX
                  * (Rounded.update env s resp t1 t2).interval)))
            + f32 (s.accCoef * (Rounded.update env s resp t1 t2).angleAccX))
      ∧ (Rounded.update env s resp t1 t2).angleY
        = f32 (f32 (s.gyroCoef * f32 (s.angleY
              + f32 ((Rounded.update env s resp t1 t2).gyroY
                  * (Rounded.update env s resp t1 t2).interval)))
            + f32 (s.accCoef * (Rounded.update env s resp t1 t2).angleAccY)) :=
  ⟨rfl, rfl⟩

/-- The accelerometer tilt stored by the rounded update, from the raw words. -/
theorem rounded_update_tilt (env : Env) (s : MPU6050) (resp : List (Fin 256)) (t1 t2 : Nat) :
    (Rounded.update env s resp t1 t2).angleAccX
        = f32 (f64 (f64 (f64 (f64 (env.atan2
            (f32 (f64 (f32 ((Rounded.update env s resp t1 t2).rawAccY : ℚ) / 16384.0)))
            (f32 (f32 (f64 (f32 ((Rounded.update env s resp t1 t2).rawAccZ : ℚ) / 16384.0))
              + |f32 (f64 (f32 ((Rounded.update env s resp t1 t2).rawAccX : ℚ) / 16384.0))|)))
            * 360) / 2.0) / f64 PI))
      ∧ (Rounded.update env s resp t1 t2).angleAccY
        = f32 (f64 (f64 (f64 (f64 (env.atan2
            (f32 (f64 (f32 ((Rounded.update env s resp t1 t2).rawAccX : ℚ) / 16384.0)))
            (f32 (f32 (f64 (f32 ((Rounded.update env s resp t1 t2).rawAccZ : ℚ) / 16384.0))
              + |f32 (f64 (f32 ((Rounded.update env s resp t1 t2).rawAccY : ℚ) / 16384.0))|)))
            * 360) / -2.0) / f64 PI)) :=
  ⟨rfl, rfl⟩

/-! ## Values of some roundings -/

/-- The `double` literal `0.001`. -/
theorem f64_milli : f64 (1 / 1000 : ℚ) = (1152921504606847 / 1152921504606846976 : ℚ) := by
  have h := roundFloat_eval_pos 53 (-1074) (1 / 1000 : ℚ) (-62) 4611686018427388
    (by norm_num) (by norm_num) (by norm_num) (by norm_num) (by norm_num)
  unfold f64
  rw [h]
  norm_num

/-- The `double` product `100 * 0.001`. -/
theorem f64_hundred_milli : f64 (28823037615171175 / 288230376151711744 : ℚ) = (3602879701896397 / 36028797018963968 : ℚ) := by
  have h := roundFloat_eval_pos 53 (-1074) (28823037615171175 / 288230376151711744 : ℚ) (-56) 7205759403792794
    (by norm_num) (by norm_num) (by norm_num) (by norm_num) (by norm_num)
  unfold f64
  rw [h]
  norm_num

/-- The `float` nearest to the `double` `0.1`. -/
theorem f32_tenth : f32 (3602879701896397 / 36028797018963968 : ℚ) = (13421773 / 134217728 : ℚ) := by
  have h := roundFloat_eval_pos 24 (-149) (3602879701896397 / 36028797018963968 : ℚ) (-27) 13421773
    (by norm_num) (by norm_num) (by norm_num) (by norm_num) (by norm_num)
  unfold f32
  rw [h]
  norm_num

theorem f64_hundred_fifty_milli : f64 (86469112845513525 / 576460752303423488 : ℚ) = (5404319552844595 / 36028797018963968 : ℚ) := by
  have h := roundFloat_eval_pos 53 (-1074) (86469112845513525 / 576460752303423488 : ℚ) (-55) 5404319552844595
    (by norm_num) (by norm_num) (by norm_num) (by norm_num) (by norm_num)
  unfold f64
  rw [h]
  norm_num

theorem f32_fifteen_hundredths : f32 (5404319552844595 / 36028797018963968 : ℚ) = (5033165 / 33554432 : ℚ) := by
  have h := roundFloat_eval_pos 24 (-149) (5404319552844595 / 36028797018963968 : ℚ) (-26) 10066330
    (by norm_num) (by norm_num) (by norm_num) (by norm_num) (by norm_num)
  unfold f32
  rw [h]
  norm_num

/-- Ten times the `float` `0.1f` rounds to `1`. -/
theorem f32_ten_tenths : f32 (67108865 / 67108864 : ℚ) = (1 : ℚ) := by
  have h := roundFloat_eval_pos 24 (-149) (67108865 / 67108864 : ℚ) (-23) 8388608
    (by norm_num) (by norm_num) (by norm_num) (by norm_num) (by norm_num)
  unfold f32
  rw [h]
  norm_num

/-- At `2^24` an increment of `1` is absorbed (tie, to even). -/
theorem f32_absorb_one : f32 (16777217 : ℚ) = (16777216 : ℚ) := by
  have h := roundFloat_eval_tie_pos 24 (-149) (16777217 : ℚ) (1) 8388608
    (by norm_num) (by norm_num) (by norm_num) (by norm_num) (by norm_num)
  unfold f32
  rw [h]
  norm_num

theorem f32_ofInt655 : f32 ((655 : ℤ) : ℚ) = 655 := by
  have := f32_intCast 655 (by norm_num)
  simpa using this

theorem f64_ten : f64 10 = 10 := by
  have := f64_intCast 10 (by norm_num)
  simpa using this

theorem f32_ten : f32 10 = 10 := by
  have := f32_intCast 10 (by norm_num)
  simpa using this

theorem f32_one : f32 1 = 1 := by
  have := f32_intCast 1 (by norm_num)
  simpa using this

theorem f64_ofNat100 : f64 ((100 : ℕ) : ℚ) = 100 := by
  have := f64_intCast 100 (by norm_num)
  simpa using this

theorem f64_ofNat150 : f64 ((150 : ℕ) : ℚ) = 150 := by
  have := f64_intCast 150 (by norm_num)
  simpa using this

/-- The rate decoded from the raw gyro word `655` with a zero offset is `10`. -/
theorem rounded_rate_655 : f32 (f32 (f64 (f32 ((655 : ℤ) : ℚ) / 65.5)) - 0) = 10 := by
  have a2 : (655 : ℚ) / 65.5 = 10 := by norm_num
  rw [f32_ofInt655, a2, f64_ten, f32_ten, sub_zero, f32_ten]

/-- The interval computed for `100` elapsed milliseconds is the `float` `0.1f`. -/
theorem rounded_interval_100 :
    f32 (f64 (f64 ((100 : ℕ) : ℚ) * f64 0.001)) = 13421773 / 134217728 := by
  have a1 : (0.001 : ℚ) = 1 / 1000 := by norm_num
  have a2 : (100 : ℚ) * (1152921504606847 / 1152921504606846976 : ℚ)
      = (28823037615171175 / 288230376151711744 : ℚ) := by norm_num
  rw [f64_ofNat100, a1, f64_milli, a2, f64_hundred_milli, f32_tenth]

/-- The interval computed for `150` elapsed milliseconds is the `float` `0.15f`. -/
theorem rounded_interval_150 :
    f32 (f64 (f64 ((150 : ℕ) : ℚ) * f64 0.001)) = 5033165 / 33554432 := by
  have a1 : (0.001 : ℚ) = 1 / 1000 := by norm_num
  have a2 : (150 : ℚ) * (1152921504606847 / 1152921504606846976 : ℚ)
      = (86469112845513525 / 576460752303423488 : ℚ) := by norm_num
  rw [f64_ofNat150, a1, f64_milli, a2, f64_hundred_fifty_milli, f32_fifteen_hundredths]

/-- The rate `10` over `100` ms gives an increment that rounds to `1`. -/
theorem rounded_increment_one : f32 (10 * (13421773 / 134217728)) = 1 := by
  have a1 : (10 : ℚ) * (13421773 / 134217728) = (67108865 / 67108864 : ℚ) := by norm_num
  rw [a1, f32_ten_tenths]

theorem readWordAt_levelBurst :
    readWordAt (levelBurst.take 14) 0 = 0 ∧ readWordAt (levelBurst.take 14) 1 = 0
      ∧ readWordAt (levelBurst.take 14) 2 = 16384 ∧ readWordAt (levelBurst.take 14) 3 = 0
      ∧ readWordAt (levelBurst.take 14) 4 = 655 ∧ readWordAt (levelBurst.take 14) 5 = 655
      ∧ readWordAt (levelBurst.take 14) 6 = 655 := by
  decide

/-! ## The gyro integral in binary32 -/

/-- With `100` elapsed milliseconds, a raw gyro word `655` and a zero offset, the rounded
update stores the binary32 rounding of the previous gyro integral plus `1`. -/
theorem rounded_step_655_100 (env : Env) (s : MPU6050) (resp : List (Fin 256)) (t1 t2 : Nat)
    (hms : toU32 ((t1 : Int) - (s.preInterval : Int)) = 100) :
    ((Rounded.update env s resp t1 t2).rawGyroX = 655 → s.gyroXoffset = 0 →
        (Rounded.update env s resp t1 t2).gyroX = 10
          ∧ (Rounded.update env s resp t1 t2).angleGyroX = f32 (s.angleGyroX + 1))
      ∧ ((Rounded.update env s resp t1 t2).rawGyroY = 655 → s.gyroYoffset = 0 →
        (Rounded.update env s resp t1 t2).gyroY = 10
          ∧ (Rounded.update env s resp t1 t2).angleGyroY = f32 (s.angleGyroY + 1))
      ∧ ((Rounded.update env s resp t1 t2).rawGyroZ = 655 → s.gyroZoffset = 0 →
        (Rounded.update env s resp t1 t2).gyroZ = 10
          ∧ (Rounded.update env s resp t1 t2).angleGyroZ = f32 (s.angleGyroZ + 1))
      ∧ (Rounded.update env s resp t1 t2).interval = 13421773 / 134217728 := by
  have r := rounded_update_rates env s resp t1 t2
  have k := rounded_update_keeps env s resp t1 t2
  have g := rounded_update_integrals env s resp t1 t2
  have hi : (Rounded.update env s resp t1 t2).interval = 13421773 / 134217728 := by
    rw [k.2.2.2.2.2.2, hms, rounded_interval_100]
  refine ⟨fun hr ho => ?_, fun hr ho => ?_, fun hr ho => ?_, hi⟩
  · have hg : (Rounded.update env s resp t1 t2).gyroX = 10 := by
      rw [r.1, hr, ho, rounded_rate_655]
    refine ⟨hg, ?_⟩
    rw [g.1, hg, hi, rounded_increment_one]
  · have hg : (Rounded.update env s resp t1 t2).gyroY = 10 := by
      rw [r.2.1, hr, ho, rounded_rate_655]
    refine ⟨hg, ?_⟩
    rw [g.2.1, hg, hi, rounded_increment_one]
  · have hg : (Rounded.update env s resp t1 t2).gyroZ = 10 := by
      rw [r.2.2, hr, ho, rounded_rate_655]
    refine ⟨hg, ?_⟩
    rw [g.2.2.1, hg, hi, rounded_increment_one]

/-- C6 as stated fails in binary32: with raw gyro X `655`, zero offset and `100` ms elapsed,
`(rawGyro/65.5 - offset) * dt` is `1`, but from a gyro integral of `2^24` the update leaves
`angleGyroX` at `2^24`. -/
theorem rounded_gyro_step_counterexample :
    toU32 (((100 : Nat) : Int) - (bigAngleState.preInterval : Int)) = 100
      ∧ (Rounded.update sampleEnv bigAngleState levelBurst 100 101).rawGyroX = 655
      ∧ bigAngleState.gyroXoffset = 0
      ∧ ((655 : ℚ) / 65.5 - bigAngleState.gyroXoffset) * (100 * 0.001) = 1
      ∧ (Rounded.update sampleEnv bigAngleState levelBurst 100 101).angleGyroX
          = bigAngleState.angleGyroX
      ∧ (Rounded.update sampleEnv bigAngleState levelBurst 100 101).angleGyroX
          ≠ bigAngleState.angleGyroX + 1 := by
  have hms : toU32 (((100 : Nat) : Int) - (bigAngleState.preInterval : Int)) = 100 := by
    decide
  have hr : (Rounded.update sampleEnv bigAngleState levelBurst 100 101).rawGyroX = 655 :=
    (rounded_update_raw_any sampleEnv bigAngleState levelBurst 100 101).2.2.2.2.1.trans
      readWordAt_levelBurst.2.2.2.2.1
  have ho : bigAngleState.gyroXoffset = 0 := rfl
  have ha : bigAngleState.angleGyroX = 16777216 := rfl
  have hv : (Rounded.update sampleEnv bigAngleState levelBurst 100 101).angleGyroX
      = 16777216 := by
    rw [((rounded_step_655_100 sampleEnv bigAngleState levelBurst 100 101 hms).1 hr ho).2, ha]
    have a1 : (16777216 : ℚ) + 1 = 16777217 := by norm_num
    rw [a1, f32_absorb_one]
  refine ⟨hms, hr, ho, ?_, ?_, ?_⟩
  · rw [ho]
    norm_num
  · rw [hv, ha]
  · rw [hv, ha]
    norm_num

/-- C6, amended: one rounded update sets each gyro-integral angle to the binary32 rounding
of the previous angle plus the rounded product `gyro * dt`, where `gyro` is the rounded
`rawGyro/65.5` minus the offset and `dt` the rounded elapsed milliseconds times `0.001`; with
raw gyro `655`, zero offset and `100` ms the product rounds to exactly `1`, so the angle
becomes the rounding of `angle + 1`, which is `1` from a previous angle `0`. -/
theorem rounded_update_gyro_integral (env : Env) (s : MPU6050) (resp : List (Fin 256))
    (t1 t2 : Nat) :
    ((Rounded.update env s resp t1 t2).angleGyroX
        = f32 (s.angleGyroX + f32 ((Rounded.update env s resp t1 t2).gyroX
            * (Rounded.update env s resp t1 t2).interval))
      ∧ (Rounded.update env s resp t1 t2).angleGyroY
        = f32 (s.angleGyroY + f32 ((Rounded.update env s resp t1 t2).gyroY
            * (Rounded.update env s resp t1 t2).interval))
      ∧ (Rounded.update env s resp t1 t2).angleGyroZ
        = f32 (s.angleGyroZ + f32 ((Rounded.update env s resp t1 t2).gyroZ
            * (Rounded.update env s resp t1 t2).interval)))
      ∧ ((Rounded.update env s resp t1 t2).gyroX
          = f32 (f32 (f64 (f32 ((Rounded.update env s resp t1 t2).rawGyroX : ℚ) / 65.5))
              - s.gyroXoffset)
        ∧ (Rounded.update env s resp t1 t2).gyroY
          = f32 (f32 (f64 (f32 ((Rounded.update env s resp t1 t2).rawGyroY : ℚ) / 65.5))
              - s.gyroYoffset)
        ∧ (Rounded.update env s resp t1 t2).gyroZ
          = f32 (f32 (f64 (f32 ((Rounded.update env s resp t1 t2).rawGyroZ : ℚ) / 65.5))
              - s.gyroZoffset))
      ∧ (Rounded.update env s resp t1 t2).interval
          = f32 (f64 (f64 (toU32 ((t1 : Int) - (s.preInterval : Int)) : ℚ) * f64 0.001))
      ∧ (toU32 ((t1 : Int) - (s.preInterval : Int)) = 100 →
          ((Rounded.update env s resp t1 t2).rawGyroX = 655 → s.gyroXoffset = 0 →
              (Rounded.update env s resp t1 t2).angleGyroX = f32 (s.angleGyroX + 1)
                ∧ (s.angleGyroX = 0 → (Rounded.update env s resp t1 t2).angleGyroX = 1))
          ∧ ((Rounded.update env s resp t1 t2).rawGyroY = 655 → s.gyroYoffset = 0 →
              (Rounded.update env s resp t1 t2).angleGyroY = f32 (s.angleGyroY + 1)
                ∧ (s.angleGyroY = 0 → (Rounded.update env s resp t1 t2).angleGyroY = 1))
          ∧ ((Rounded.update env s resp t1 t2).rawGyroZ = 655 → s.gyroZoffset = 0 →
              (Rounded.update env s resp t1 t2).angleGyroZ = f32 (s.angleGyroZ + 1)
                ∧ (s.angleGyroZ = 0 → (Rounded.update env s resp t1 t2).angleGyroZ = 1))) := by
  have g := rounded_update_integrals env s resp t1 t2
  refine ⟨⟨g.1, g.2.1, g.2.2.1⟩, rounded_update_rates env s resp t1 t2,
    (rounded_update_keeps env s resp t1 t2).2.2.2.2.2.2, fun hms => ?_⟩
  have st := rounded_step_655_100 env s resp t1 t2 hms
  have h01 : f32 ((0 : ℚ) + 1) = 1 := by rw [zero_add, f32_one]
  refine ⟨fun hr ho => ⟨(st.1 hr ho).2, fun h0 => ?_⟩,
    fun hr ho => ⟨(st.2.1 hr ho).2, fun h0 => ?_⟩,
    fun hr ho => ⟨(st.2.2.1 hr ho).2, fun h0 => ?_⟩⟩
  · rw [(st.1 hr ho).2, h0, h01]
  · rw [(st.2.1 hr ho).2, h0, h01]
  · rw [(st.2.2.1 hr ho).2, h0, h01]

/-- Witness of amended C6: from the zero state, raw gyro `655` over `100` ms gives `1`. -/
theorem rounded_update_gyro_integral_witness :
    (Rounded.update sampleEnv zeroState levelBurst 100 101).angleGyroX = 1 :=
  ((((rounded_update_gyro_integral sampleEnv zeroState levelBurst 100 101).2.2.2
    (by decide)).1
    ((rounded_update_raw_any sampleEnv zeroState levelBurst 100 101).2.2.2.2.1.trans
      readWordAt_levelBurst.2.2.2.2.1) rfl).2 rfl)

/-! ## Sequences of rounded updates -/

theorem rounded_updates_cons (env : Env) (s : MPU6050) (i : List (Fin 256) × Nat × Nat)
    (rest : List (List (Fin 256) × Nat × Nat)) :
    Rounded.updates env s (i :: rest)
      = Rounded.updates env (Rounded.update env s i.1 i.2.1 i.2.2) rest :=
  rfl

/-- The trace has one state per call and ends in the state returned by the loop. -/
theorem rounded_updateTrace_last (env : Env) (s : MPU6050)
    (ins : List (List (Fin 256) × Nat × Nat)) :
    (Rounded.updateTrace env s ins).length = ins.length
      ∧ (Rounded.updateTrace env s ins).getLastD s = Rounded.updates env s ins := by
  induction ins generalizing s with
  | nil => exact ⟨rfl, rfl⟩
  | cons i rest ih =>
    have h := ih (Rounded.update env s i.1 i.2.1 i.2.2)
    refine ⟨by simp [Rounded.updateTrace, h.1], ?_⟩
    rw [rounded_updates_cons, ← h.2]
    exact List.getLastD_cons s (Rounded.update env s i.1 i.2.1 i.2.2)
      (Rounded.updateTrace env (Rounded.update env s i.1 i.2.1 i.2.2) rest)

/-- C13 as stated fails in binary32: from a gyro integral of `2^24` about Z, an update with
rate `10` and `dt = 0.1f` leaves `angleGyroZ` at `2^24`, not at `2^24 + gyroZ*dt`. -/
theorem rounded_yaw_counterexample :
    (Rounded.update sampleEnv bigAngleState levelBurst 100 101).gyroZ = 10
      ∧ (Rounded.update sampleEnv bigAngleState levelBurst 100 101).interval
          = 13421773 / 134217728
      ∧ (Rounded.update sampleEnv bigAngleState levelBurst 100 101).angleGyroZ
          = bigAngleState.angleGyroZ
      ∧ (Rounded.update sampleEnv bigAngleState levelBurst 100 101).angleGyroZ
          ≠ bigAngleState.angleGyroZ
            + (Rounded.update sampleEnv bigAngleState levelBurst 100 101).gyroZ
              * (Rounded.update sampleEnv bigAngleState levelBurst 100 101).interval := by
  have hms : toU32 (((100 : Nat) : Int) - (bigAngleState.preInterval : Int)) = 100 := by
    decide
  have hr : (Rounded.update sampleEnv bigAngleState levelBurst 100 101).rawGyroZ = 655 :=
    (rounded_update_raw_any sampleEnv bigAngleState levelBurst 100 101).2.2.2.2.2.2.trans
      readWordAt_levelBurst.2.2.2.2.2.2
  have st := rounded_step_655_100 sampleEnv bigAngleState levelBurst 100 101 hms
  have ha : bigAngleState.angleGyroZ = 16777216 := rfl
  have hg := (st.2.2.1 hr rfl).1
  have hv : (Rounded.update sampleEnv bigAngleState levelBurst 100 101).angleGyroZ
      = 16777216 := by
    rw [(st.2.2.1 hr rfl).2, ha]
    have a1 : (16777216 : ℚ) + 1 = 16777217 := by norm_num
    rw [a1, f32_absorb_one]
  refine ⟨hg, st.2.2.2, ?_, ?_⟩
  · rw [hv, ha]
  · rw [hv, hg, st.2.2.2, ha]
    norm_num

/-- C13, amended: after every rounded update `angleZ = angleGyroZ`, and each call sets
`angleGyroZ` to the binary32 rounding of its previous value plus the rounded `gyroZ * dt`;
over any sequence of calls the result is the running binary32 sum `yawSum`, a function of the
stored Z offset, the initial angle and timestamp, the raw gyro Z words and the clock values
alone: no accelerometer value, coefficient, bound or wrap-around enters. -/
theorem rounded_updates_yaw (env : Env) (s : MPU6050)
    (ins : List (List (Fin 256) × Nat × Nat)) :
    (∀ (resp : List (Fin 256)) (t1 t2 : Nat),
        (Rounded.update env s resp t1 t2).angleZ = (Rounded.update env s resp t1 t2).angleGyroZ
          ∧ (Rounded.update env s resp t1 t2).angleGyroZ
            = f32 (s.angleGyroZ + f32 ((Rounded.update env s resp t1 t2).gyroZ
                * (Rounded.update env s resp t1 t2).interval)))
      ∧ (∀ st ∈ Rounded.updateTrace env s ins, st.angleZ = st.angleGyroZ)
      ∧ (Rounded.updateTrace env s ins).getLastD s = Rounded.updates env s ins
      ∧ List.Chain (fun a b => b.angleGyroZ = f32 (a.angleGyroZ + f32 (b.gyroZ * b.interval)))
          s (Rounded.updateTrace env s ins)
      ∧ (Rounded.updates env s ins).angleGyroZ
          = yawSum s.gyroZoffset s.angleGyroZ s.preInterval
              (ins.map (fun i => (readWordAt (i.1.take 14) 6, i.2.1, i.2.2))) := by
  refine ⟨fun resp t1 t2 => ⟨rfl, rfl⟩, ?_, (rounded_updateTrace_last env s ins).2, ?_, ?_⟩
  · induction ins generalizing s with
    | nil => intro st hst; simp [Rounded.updateTrace] at hst
    | cons i rest ih =>
      intro st hst
      simp only [Rounded.updateTrace, List.mem_cons] at hst
      rcases hst with h | h
      · rw [h]; exact (rounded_update_integrals env s i.1 i.2.1 i.2.2).2.2.2
      · exact ih _ st h
  · induction ins generalizing s with
    | nil => simp [Rounded.updateTrace]
    | cons i rest ih =>
      simp only [Rounded.updateTrace, List.chain_cons]
      exact ⟨(rounded_update_integrals env s i.1 i.2.1 i.2.2).2.2.1, ih _⟩
  · induction ins generalizing s with
    | nil => simp [Rounded.updates, yawSum]
    | cons i rest ih =>
      have k := rounded_update_keeps env s i.1 i.2.1 i.2.2
      have g := rounded_update_integrals env s i.1 i.2.1 i.2.2
      have r := rounded_update_rates env s i.1 i.2.1 i.2.2
      have w := rounded_update_raw_any env s i.1 i.2.1 i.2.2
      rw [rounded_updates_cons, ih, k.2.2.2.2.1, k.2.2.2.2.2.1, g.2.2.1, r.2.2, k.2.2.2.2.2.2,
        w.2.2.2.2.2.2]
      simp only [List.map_cons, yawSum]

/-- Witness of amended C13: one call on the zero state. -/
theorem rounded_updates_yaw_witness :
    (Rounded.update sampleEnv zeroState levelBurst 100 101).angleZ
      = (Rounded.update sampleEnv zeroState levelBurst 100 101).angleGyroZ :=
  (rounded_updates_yaw sampleEnv zeroState [(levelBurst, 100, 101)]).2.1
    (Rounded.update sampleEnv zeroState levelBurst 100 101) (List.mem_cons_self _ _)

/-! ## The clock in binary32 -/

/-- The intervals of a sequence of rounded updates are the rounded conversions of the
elapsed milliseconds of the calls. -/
theorem rounded_trace_intervals (env : Env) (s : MPU6050)
    (ins : List (List (Fin 256) × Nat × Nat)) :
    (Rounded.updateTrace env s ins).map (fun st => st.interval)
      = (elapsedMs s.preInterval ins).map
          (fun ms => f32 (f64 (f64 ((ms : ℕ) : ℚ) * f64 0.001))) := by
  induction ins generalizing s with
  | nil => rfl
  | cons i rest ih =>
    have k := rounded_update_keeps env s i.1 i.2.1 i.2.2
    simp only [Rounded.updateTrace, elapsedMs, List.map_cons]
    rw [ih, k.2.2.2.2.2.1, k.2.2.2.2.2.2]

/-- C18 as stated fails: a call that reads `100` ms and then `105` ms stores `105`, not the
`100` used for `dt`; and even when each call reads one value twice, the two calls at `100`
and `250` ms have `dt = 0.1f` and `0.15f`, whose sum is not `(250 - 0) * 0.001`. -/
theorem rounded_clock_counterexample :
    (Rounded.update sampleEnv zeroState levelBurst 100 105).interval
        = f32 (f64 (f64 ((100 : ℕ) : ℚ) * f64 0.001))
      ∧ (Rounded.update sampleEnv zeroState levelBurst 100 105).preInterval = 105
      ∧ (Rounded.update sampleEnv zeroState levelBurst 100 105).preInterval ≠ 100
      ∧ (Rounded.updateTrace sampleEnv zeroState
            [(levelBurst, 100, 100), (levelBurst, 250, 250)]).map (fun st => st.interval)
          = [13421773 / 134217728, 5033165 / 33554432]
      ∧ (Rounded.updates sampleEnv zeroState
            [(levelBurst, 100, 100), (levelBurst, 250, 250)]).preInterval = 250
      ∧ ((Rounded.updateTrace sampleEnv zeroState
            [(levelBurst, 100, 100), (levelBurst, 250, 250)]).map (fun st => st.interval)).sum
          ≠ ((250 : ℚ) - (zeroState.preInterval : ℚ)) * 0.001 := by
  have k := rounded_update_keeps sampleEnv zeroState levelBurst 100 105
  have hms : toU32 (((100 : Nat) : Int) - (zeroState.preInterval : Int)) = 100 := by decide
  have hp : (Rounded.update sampleEnv zeroState levelBurst 100 105).preInterval = 105 := by
    rw [k.2.2.2.2.2.1]
    decide
  have hl : elapsedMs zeroState.preInterval [(levelBurst, 100, 100), (levelBurst, 250, 250)]
      = [100, 150] := by decide
  have ht : (Rounded.updateTrace sampleEnv zeroState
        [(levelBurst, 100, 100), (levelBurst, 250, 250)]).map (fun st => st.interval)
      = [13421773 / 134217728, 5033165 / 33554432] := by
    rw [rounded_trace_intervals, hl]
    simp only [List.map_cons, List.map_nil]
    rw [rounded_interval_100, rounded_interval_150]
  refine ⟨?_, hp, ?_, ht, ?_, ?_⟩
  · rw [k.2.2.2.2.2.2, hms]
  · rw [hp]
    decide
  · have k2 := rounded_update_keeps sampleEnv
      (Rounded.update sampleEnv zeroState levelBurst 100 100) levelBurst 250 250
    show (Rounded.update sampleEnv (Rounded.update sampleEnv zeroState levelBurst 100 100)
      levelBurst 250 250).preInterval = 250
    rw [k2.2.2.2.2.2.1]
    decide
  · rw [ht]
    norm_num [zeroState]

/-- C18, amended: in the rounded update `dt` is the binary32 rounding of the unsigned 32-bit
difference between the first clock value of the call and the stored timestamp, times `0.001`,
and the timestamp stored is the second clock value of the call. Over a sequence of calls in
which each call reads the same value twice and the values never decrease from the initial
timestamp and stay below `2^32`, the elapsed milliseconds of the calls sum to exactly
`last stored - initial stored`, and each `dt` is the rounded conversion of its own elapsed
milliseconds. -/
theorem rounded_update_clock (env : Env) (s : MPU6050) (resp : List (Fin 256)) (t1 t2 : Nat)
    (ins : List (List (Fin 256) × Nat × Nat)) :
    (Rounded.update env s resp t1 t2).interval
        = f32 (f64 (f64 (toU32 ((t1 : Int) - (s.preInterval : Int)) : ℚ) * f64 0.001))
      ∧ (Rounded.update env s resp t1 t2).preInterval = toU32 (t2 : Int)
      ∧ (Rounded.updateTrace env s ins).map (fun st => st.interval)
          = (elapsedMs s.preInterval ins).map
              (fun ms => f32 (f64 (f64 ((ms : ℕ) : ℚ) * f64 0.001)))
      ∧ ((∀ i ∈ ins, i.2.2 = i.2.1 ∧ i.2.1 < 4294967296) →
          List.Chain (fun a b => a ≤ b) s.preInterval (ins.map (fun i => i.2.1)) →
          (elapsedMs s.preInterval ins).sum + s.preInterval
            = (Rounded.updates env s ins).preInterval) := by
  refine ⟨rfl, rfl, rounded_trace_intervals env s ins, ?_⟩
  induction ins generalizing s with
  | nil =>
    intro _ _
    simp [Rounded.updates, elapsedMs]
  | cons i rest ih =>
    intro hin hch
    have hi := hin i (List.mem_cons_self _ _)
    simp only [List.map_cons, List.chain_cons] at hch
    have k := rounded_update_keeps env s i.1 i.2.1 i.2.2
    have hst : (Rounded.update env s i.1 i.2.1 i.2.2).preInterval = i.2.1 := by
      rw [k.2.2.2.2.2.1, hi.1]
      unfold toU32
      omega
    have hdt : toU32 ((i.2.1 : Int) - (s.preInterval : Int)) = i.2.1 - s.preInterval := by
      unfold toU32
      omega
    have hrest := ih (Rounded.update env s i.1 i.2.1 i.2.2)
      (fun j hj => hin j (List.mem_cons_of_mem _ hj)) (by rw [hst]; exact hch.2)
    have hpre2 : toU32 (i.2.2 : Int) = i.2.1 := by
      rw [hi.1]
      unfold toU32
      omega
    rw [hst] at hrest
    rw [rounded_updates_cons, ← hrest]
    simp only [elapsedMs, List.sum_cons]
    rw [hpre2, hdt]
    have := hch.1
    omega

/-- Witness of amended C18: two calls, each reading one clock value twice. -/
theorem rounded_update_clock_witness :
    (elapsedMs zeroState.preInterval
        [(levelBurst, 100, 100), (levelBurst, 250, 250)]).sum + zeroState.preInterval
      = (Rounded.updates sampleEnv zeroState
          [(levelBurst, 100, 100), (levelBurst, 250, 250)]).preInterval :=
  (rounded_update_clock sampleEnv zeroState levelBurst 0 0
    [(levelBurst, 100, 100), (levelBurst, 250, 250)]).2.2.2
    (by decide) (by simp [zeroState])

/-! ## Calibration in binary32 -/

/-- The `double` quotient `1 / 65.5`. -/
theorem f64_unit_rate : f64 (2 / 131 : ℚ) = (8800927516082801 / 576460752303423488 : ℚ) := by
  have h := roundFloat_eval_pos 53 (-1074) (2 / 131 : ℚ) (-59) 8800927516082801
    (by norm_num) (by norm_num) (by norm_num) (by norm_num) (by norm_num)
  unfold f64
  rw [h]
  norm_num

theorem f64_absorb_unit_rate : f64 (302353673384073135538801 / 576460752303423488 : ℚ) = (563177603081005 / 1073741824 : ℚ) := by
  have h := roundFloat_eval_pos 53 (-1074) (302353673384073135538801 / 576460752303423488 : ℚ) (-33) 4505420824648040
    (by norm_num) (by norm_num) (by norm_num) (by norm_num) (by norm_num)
  unfold f64
  rw [h]
  norm_num

/-- At `524500` the quotient `1 / 65.5` is absorbed. -/
theorem f32_absorb_unit_rate : f32 (563177603081005 / 1073741824 : ℚ) = (524500 : ℚ) := by
  have h := roundFloat_eval_pos 24 (-149) (563177603081005 / 1073741824 : ℚ) (-4) 8392000
    (by norm_num) (by norm_num) (by norm_num) (by norm_num) (by norm_num)
  unfold f32
  rw [h]
  norm_num

theorem f32_loss_mean : f32 (1049 / 6 : ℚ) = (11457877 / 65536 : ℚ) := by
  have h := roundFloat_eval_pos 24 (-149) (1049 / 6 : ℚ) (-16) 11457877
    (by norm_num) (by norm_num) (by norm_num) (by norm_num) (by norm_num)
  unfold f32
  rw [h]
  norm_num

/-- One rounded loop iteration on a full burst. -/
theorem rounded_calcGyroOffsetsBody_of_full (env : Env) (a : CalcAcc) (b : List (Fin 256))
    (hb : b.length = 14) :
    (Rounded.calcGyroOffsetsBody env a b).x
        = f32 (f64 (a.x + f64 (f32 (burstWord b 4 : ℚ) / 65.5)))
      ∧ (Rounded.calcGyroOffsetsBody env a b).y
        = f32 (f64 (a.y + f64 (f32 (burstWord b 5 : ℚ) / 65.5)))
      ∧ (Rounded.calcGyroOffsetsBody env a b).z
        = f32 (f64 (a.z + f64 (f32 (burstWord b 6 : ℚ) / 65.5))) := by
  obtain ⟨b0, b1, b2, b3, b4, b5, b6, b7, b8, b9, b10, b11, b12, b13, rfl⟩ :=
    list_of_length_14 b hb
  simp [Rounded.calcGyroOffsetsBody, TwoWire.requestFrom, readWord_cons_cons, burstWord]

/-- The accumulators after the first `n` iterations of the rounded calibration loop are the
running binary32 sums of the quotients. -/
theorem rounded_calcGyroOffsets_loop (env : Env) (w : TwoWire) (resp : Nat → List (Fin 256))
    (n : Nat) (hfull : ∀ i, i < n → (resp i).length = 14) :
    ((List.range n).foldl (fun a i => Rounded.calcGyroOffsetsBody env a (resp i))
          { x := 0, y := 0, z := 0, wire := w }).x
        = floatSum (fun i => f64 (f32 (burstWord (resp i) 4 : ℚ) / 65.5)) n
      ∧ ((List.range n).foldl (fun a i => Rounded.calcGyroOffsetsBody env a (resp i))
          { x := 0, y := 0, z := 0, wire := w }).y
        = floatSum (fun i => f64 (f32 (burstWord (resp i) 5 : ℚ) / 65.5)) n
      ∧ ((List.range n).foldl (fun a i => Rounded.calcGyroOffsetsBody env a (resp i))
          { x := 0, y := 0, z := 0, wire := w }).z
        = floatSum (fun i => f64 (f32 (burstWord (resp i) 6 : ℚ) / 65.5)) n := by
  induction n with
  | zero => exact ⟨rfl, rfl, rfl⟩
  | succ n ih =>
    have ih := ih (fun i hi => hfull i (Nat.lt_succ_of_lt hi))
    have hb := rounded_calcGyroOffsetsBody_of_full env
      ((List.range n).foldl (fun a i => Rounded.calcGyroOffsetsBody env a (resp i))
        { x := 0, y := 0, z := 0, wire := w }) (resp n) (hfull n (Nat.lt_succ_self n))
    rw [List.range_succ, List.foldl_append]
    simp only [List.foldl_cons, List.foldl_nil, floatSum]
    rw [hb.1, hb.2.1, hb.2.2, ih.1, ih.2.1, ih.2.2]
    exact ⟨rfl, rfl, rfl⟩

/-- The offsets stored by the rounded calibration over full bursts. -/
theorem rounded_calcGyroOffsets_offsets (env : Env) (s : MPU6050) (console : Bool)
    (resp : Nat → List (Fin 256)) (hfull : ∀ i, i < 3000 → (resp i).length = 14) :
    (Rounded.calcGyroOffsets env s console resp).gyroXoffset
        = f32 (floatSum (fun i => f64 (f32 (burstWord (resp i) 4 : ℚ) / 65.5)) 3000 / 3000)
      ∧ (Rounded.calcGyroOffsets env s console resp).gyroYoffset
        = f32 (floatSum (fun i => f64 (f32 (burstWord (resp i) 5 : ℚ) / 65.5)) 3000 / 3000)
      ∧ (Rounded.calcGyroOffsets env s console resp).gyroZoffset
        = f32 (floatSum (fun i => f64 (f32 (burstWord (resp i) 6 : ℚ) / 65.5)) 3000 / 3000) := by
  have h := rounded_calcGyroOffsets_loop env s.wire resp 3000 hfull
  refine ⟨?_, ?_, ?_⟩
  · rw [← h.1]; simp only [Rounded.calcGyroOffsets]
  · rw [← h.2.1]; simp only [Rounded.calcGyroOffsets]
  · rw [← h.2.2]; simp only [Rounded.calcGyroOffsets]

/-- The quotient added for a raw word `131 * k`, `|k| ≤ 250`, is the integer `2 * k`. -/
theorem rounded_quotient_exact (k : ℤ) (hk : |k| ≤ 250) :
    f64 (f32 ((131 * k : ℤ) : ℚ) / 65.5) = ((2 * k : ℤ) : ℚ) := by
  rw [abs_le] at hk
  have h1 : f32 ((131 * k : ℤ) : ℚ) = ((131 * k : ℤ) : ℚ) :=
    f32_intCast _ (abs_lt.mpr ⟨by omega, by omega⟩)
  have h2 : ((131 * k : ℤ) : ℚ) / 65.5 = ((2 * k : ℤ) : ℚ) := by
    push_cast
    norm_num
    ring
  rw [h1, h2]
  exact f64_intCast _ (abs_lt.mpr ⟨by omega, by omega⟩)

/-- The running binary32 sum of a constant even integer `2 * k`, `|k| ≤ 250`, is exact over
`3000` terms. -/
theorem floatSum_exact (t : ℕ → ℚ) (k : ℤ) (hk : |k| ≤ 250)
    (ht : ∀ i, i < 3000 → t i = ((2 * k : ℤ) : ℚ)) (n : ℕ) (hn : n ≤ 3000) :
    floatSum t n = ((2 * k * n : ℤ) : ℚ) := by
  rw [abs_le] at hk
  induction n with
  | zero => simp [floatSum]
  | succ n ih =>
    have hlo : -1500000 ≤ 2 * k * ((n : ℤ) + 1) := by nlinarith
    have hhi : 2 * k * ((n : ℤ) + 1) ≤ 1500000 := by nlinarith
    have hsum : floatSum t n + t n = ((2 * k * ((n : ℤ) + 1) : ℤ) : ℚ) := by
      rw [ih (by omega), ht n (by omega)]
      push_cast
      ring
    simp only [floatSum]
    rw [hsum, f64_intCast _ (abs_lt.mpr ⟨by omega, by omega⟩),
      f32_intCast _ (abs_lt.mpr ⟨by omega, by omega⟩)]
    push_cast
    ring

/-- Over 3000 full bursts the rounded calibration stores, per axis, the rounding of
`x / 3000` where `x` is the running binary32 sum of the quotients; for a constant triplet of
multiples of `131` all partial sums are exact. -/
theorem rounded_calcGyroOffsets_exact (env : Env) (s : MPU6050) (console : Bool)
    (resp : Nat → List (Fin 256)) (hfull : ∀ i, i < 3000 → (resp i).length = 14) :
    ((Rounded.calcGyroOffsets env s console resp).gyroXoffset
        = f32 (floatSum (fun i => f64 (f32 (burstWord (resp i) 4 : ℚ) / 65.5)) 3000 / 3000)
      ∧ (Rounded.calcGyroOffsets env s console resp).gyroYoffset
        = f32 (floatSum (fun i => f64 (f32 (burstWord (resp i) 5 : ℚ) / 65.5)) 3000 / 3000)
      ∧ (Rounded.calcGyroOffsets env s console resp).gyroZoffset
        = f32 (floatSum (fun i => f64 (f32 (burstWord (resp i) 6 : ℚ) / 65.5)) 3000 / 3000))
      ∧ ∀ kx ky kz : ℤ, |kx| ≤ 250 → |ky| ≤ 250 → |kz| ≤ 250 →
          (∀ i, i < 3000 → burstWord (resp i) 4 = 131 * kx ∧ burstWord (resp i) 5 = 131 * ky
            ∧ burstWord (resp i) 6 = 131 * kz) →
          (Rounded.calcGyroOffsets env s console resp).gyroXoffset
              = ((131 * kx : ℤ) : ℚ) / 65.5
            ∧ (Rounded.calcGyroOffsets env s console resp).gyroYoffset
              = ((131 * ky : ℤ) : ℚ) / 65.5
            ∧ (Rounded.calcGyroOffsets env s console resp).gyroZoffset
              = ((131 * kz : ℤ) : ℚ) / 65.5 := by
  have o := rounded_calcGyroOffsets_offsets env s console resp hfull
  refine ⟨o, fun kx ky kz hx hy hz hc => ?_⟩
  have fin : ∀ k : ℤ, |k| ≤ 250 → ∀ t : ℕ → ℚ, (∀ i, i < 3000 → t i = ((2 * k : ℤ) : ℚ)) →
      f32 (floatSum t 3000 / 3000) = ((131 * k : ℤ) : ℚ) / 65.5 := by
    intro k hk t ht
    have hk2 := abs_le.mp hk
    rw [floatSum_exact t k hk ht 3000 (le_refl _)]
    have e1 : ((2 * k * ((3000 : ℕ) : ℤ) : ℤ) : ℚ) / 3000 = ((2 * k : ℤ) : ℚ) := by
      push_cast
      ring
    have e2 : ((131 * k : ℤ) : ℚ) / 65.5 = ((2 * k : ℤ) : ℚ) := by
      push_cast
      norm_num
      ring
    rw [e1, e2]
    exact f32_intCast _ (abs_lt.mpr ⟨by omega, by omega⟩)
  refine ⟨?_, ?_, ?_⟩
  · rw [o.1]
    exact fin kx hx _ (fun i hi => by
      show f64 (f32 (burstWord (resp i) 4 : ℚ) / 65.5) = _
      rw [(hc i hi).1]
      exact rounded_quotient_exact kx hx)
  · rw [o.2.1]
    exact fin ky hy _ (fun i hi => by
      show f64 (f32 (burstWord (resp i) 5 : ℚ) / 65.5) = _
      rw [(hc i hi).2.1]
      exact rounded_quotient_exact ky hy)
  · rw [o.2.2]
    exact fin kz hz _ (fun i hi => by
      show f64 (f32 (burstWord (resp i) 6 : ℚ) / 65.5) = _
      rw [(hc i hi).2.2]
      exact rounded_quotient_exact kz hz)

/-- A binary32 value is a dyadic rational: it is never `b / 65.5` for a `b` that is not a
multiple of `131`. -/
theorem dyadic_ne_over_131 (m e b : ℤ) (hb : ¬ (131 : ℤ) ∣ b) :
    (m : ℚ) * 2 ^ e ≠ (b : ℚ) / 65.5 := by
  intro h
  have hp : Prime (131 : ℤ) := Int.prime_iff_natAbs_prime.mpr (by norm_num)
  have h2 : ¬ (131 : ℤ) ∣ 2 := by norm_num
  have key : ∀ k : ℕ, ¬ (131 : ℤ) ∣ b * 2 ^ k := by
    intro k hk
    rcases hp.dvd_or_dvd hk with h1 | h1
    · exact hb h1
    · exact h2 (hp.dvd_of_dvd_pow h1)
  have e65 : (b : ℚ) / 65.5 = 2 * b / 131 := by
    norm_num
    ring
  rw [e65] at h
  rcases le_total 0 e with he | he
  · obtain ⟨k, rfl⟩ := Int.eq_ofNat_of_zero_le he
    rw [zpow_natCast] at h
    have h3 : ((131 * (m * 2 ^ k) : ℤ) : ℚ) = ((b * 2 ^ 1 : ℤ) : ℚ) := by
      push_cast
      rw [h]
      ring
    have h4 : (131 : ℤ) * (m * 2 ^ k) = b * 2 ^ 1 := by exact_mod_cast h3
    exact key 1 ⟨_, h4.symm⟩
  · obtain ⟨k, hk⟩ := Int.exists_eq_neg_ofNat he
    subst hk
    rw [zpow_neg, zpow_natCast] at h
    have hpos : (2 : ℚ) ^ k ≠ 0 := by positivity
    have h3 : ((131 * m : ℤ) : ℚ) = ((b * 2 ^ (k + 1) : ℤ) : ℚ) := by
      push_cast
      have h5 : (m : ℚ) = 2 * b / 131 * 2 ^ k := by
        rw [← h]
        field_simp
      rw [h5, pow_succ]
      ring
    have h4 : (131 : ℤ) * m = b * 2 ^ (k + 1) := by exact_mod_cast h3
    exact key (k + 1) ⟨_, h4.symm⟩

theorem f32_ne_over_131 (q : ℚ) (b : ℤ) (hb : ¬ (131 : ℤ) ∣ b) : f32 q ≠ (b : ℚ) / 65.5 :=
  dyadic_ne_over_131 _ _ b hb

/-- C7, amended: over 3000 full bursts the rounded calibration stores, per axis, the
rounding of `x / 3000` where `x` is the running binary32 sum of the quotients
`rawGyro_i / 65.5`; when every burst carries the same raw gyro triplet and each word is a
multiple of `131`, of magnitude at most `131 * 250` as every such signed 16-bit word is, all
partial sums are exact and the stored offsets are exactly the words over `65.5`, whatever
the other bytes are; for a `b` that is not a multiple of `131` no stored offset is
`b / 65.5`, which is not a binary32 value. -/
theorem rounded_calcGyroOffsets_sum (env : Env) (s : MPU6050) (console : Bool)
    (resp : Nat → List (Fin 256)) (hfull : ∀ i, i < 3000 → (resp i).length = 14) :
    ((Rounded.calcGyroOffsets env s console resp).gyroXoffset
        = f32 (floatSum (fun i => f64 (f32 (burstWord (resp i) 4 : ℚ) / 65.5)) 3000 / 3000)
      ∧ (Rounded.calcGyroOffsets env s console resp).gyroYoffset
        = f32 (floatSum (fun i => f64 (f32 (burstWord (resp i) 5 : ℚ) / 65.5)) 3000 / 3000)
      ∧ (Rounded.calcGyroOffsets env s console resp).gyroZoffset
        = f32 (floatSum (fun i => f64 (f32 (burstWord (resp i) 6 : ℚ) / 65.5)) 3000 / 3000))
      ∧ (∀ kx ky kz : ℤ, |kx| ≤ 250 → |ky| ≤ 250 → |kz| ≤ 250 →
          (∀ i, i < 3000 → burstWord (resp i) 4 = 131 * kx ∧ burstWord (resp i) 5 = 131 * ky
            ∧ burstWord (resp i) 6 = 131 * kz) →
          (Rounded.calcGyroOffsets env s console resp).gyroXoffset
              = ((131 * kx : ℤ) : ℚ) / 65.5
            ∧ (Rounded.calcGyroOffsets env s console resp).gyroYoffset
              = ((131 * ky : ℤ) : ℚ) / 65.5
            ∧ (Rounded.calcGyroOffsets env s console resp).gyroZoffset
              = ((131 * kz : ℤ) : ℚ) / 65.5)
      ∧ (∀ b : ℤ, ¬ (131 : ℤ) ∣ b →
          (Rounded.calcGyroOffsets env s console resp).gyroXoffset ≠ (b : ℚ) / 65.5
            ∧ (Rounded.calcGyroOffsets env s console resp).gyroYoffset ≠ (b : ℚ) / 65.5
            ∧ (Rounded.calcGyroOffsets env s console resp).gyroZoffset ≠ (b : ℚ) / 65.5) := by
  have h := rounded_calcGyroOffsets_exact env s console resp hfull
  have o := rounded_calcGyroOffsets_offsets env s console resp hfull
  refine ⟨h.1, h.2, fun b hb => ⟨?_, ?_, ?_⟩⟩
  · rw [o.1]
    exact f32_ne_over_131 _ b hb
  · rw [o.2.1]
    exact f32_ne_over_131 _ b hb
  · rw [o.2.2]
    exact f32_ne_over_131 _ b hb

/-- Witness of amended C7: 3000 bursts that all carry the raw gyro triplet `(655, 655, 655)`,
`655 = 131 * 5`. -/
theorem rounded_calcGyroOffsets_sum_witness :
    (Rounded.calcGyroOffsets sampleEnv zeroState false (fun _ => levelBurst)).gyroXoffset
      = (((131 * 5 : ℤ) : ℚ)) / 65.5 :=
  ((rounded_calcGyroOffsets_sum sampleEnv zeroState false (fun _ => levelBurst)
    (fun _ _ => rfl)).2.1 5 5 5 (by norm_num) (by norm_num) (by norm_num)
    (fun _ _ => by decide)).1

theorem burstWord_lossBursts (i : ℕ) :
    burstWord (lossBursts i) 4 = if i < 1049 then 32750 else 1 := by
  unfold lossBursts
  split_ifs <;> decide

theorem f64_five_hundred : f64 (f32 ((32750 : ℤ) : ℚ) / 65.5) = 500 := by
  have := rounded_quotient_exact 250 (by norm_num)
  simpa using this

theorem f64_unit_quotient :
    f64 (f32 ((1 : ℤ) : ℚ) / 65.5) = 8800927516082801 / 576460752303423488 := by
  have a1 : f32 ((1 : ℤ) : ℚ) = 1 := by
    have := f32_intCast 1 (by norm_num)
    simpa using this
  have a2 : (1 : ℚ) / 65.5 = (2 / 131 : ℚ) := by norm_num
  rw [a1, a2, f64_unit_rate]

/-- The running sum over `lossBursts`: exact multiples of `500` for the first `1049` bursts,
then stuck at `524500`. -/
theorem floatSum_lossBursts :
    (∀ n, n ≤ 1049 →
        floatSum (fun i => f64 (f32 (burstWord (lossBursts i) 4 : ℚ) / 65.5)) n
          = ((500 * n : ℤ) : ℚ))
      ∧ (∀ n, 1049 ≤ n →
        floatSum (fun i => f64 (f32 (burstWord (lossBursts i) 4 : ℚ) / 65.5)) n = 524500) := by
  have p1 : ∀ n, n ≤ 1049 →
      floatSum (fun i => f64 (f32 (burstWord (lossBursts i) 4 : ℚ) / 65.5)) n
        = ((500 * n : ℤ) : ℚ) := by
    intro n
    induction n with
    | zero => intro _; simp [floatSum]
    | succ n ih =>
      intro hn
      have hsum : ((500 * (n : ℤ) : ℤ) : ℚ) + 500 = ((500 * ((n : ℤ) + 1) : ℤ) : ℚ) := by
        push_cast
        ring
      simp only [floatSum]
      rw [ih (by omega), burstWord_lossBursts, if_pos (by omega), f64_five_hundred, hsum,
        f64_intCast _ (abs_lt.mpr ⟨by omega, by omega⟩),
        f32_intCast _ (abs_lt.mpr ⟨by omega, by omega⟩)]
      push_cast
      ring
  refine ⟨p1, ?_⟩
  intro n hn
  induction n, hn using Nat.le_induction with
  | base =>
    rw [p1 1049 (le_refl _)]
    norm_num
  | succ n hn ih =>
    have a1 : (524500 : ℚ) + (8800927516082801 / 576460752303423488 : ℚ)
        = (302353673384073135538801 / 576460752303423488 : ℚ) := by norm_num
    simp only [floatSum]
    rw [ih, burstWord_lossBursts, if_neg (by omega), f64_unit_quotient, a1,
      f64_absorb_unit_rate, f32_absorb_unit_rate]

/-- The exact sum of the quotients over `lossBursts`. -/
theorem exactSum_lossBursts :
    ∑ i ∈ Finset.range 3000, (burstWord (lossBursts i) 4 : ℚ) / 65.5 = 68713402 / 131 := by
  have p1 : ∀ n, n ≤ 1049 →
      ∑ i ∈ Finset.range n, (burstWord (lossBursts i) 4 : ℚ) / 65.5 = 500 * n := by
    intro n
    induction n with
    | zero => intro _; simp
    | succ n ih =>
      intro hn
      rw [Finset.sum_range_succ, ih (by omega), burstWord_lossBursts, if_pos (by omega)]
      push_cast
      norm_num
      ring
  have p2 : ∀ n, 1049 ≤ n →
      ∑ i ∈ Finset.range n, (burstWord (lossBursts i) 4 : ℚ) / 65.5
        = 524500 + ((n : ℚ) - 1049) * (2 / 131) := by
    intro n hn
    induction n, hn using Nat.le_induction with
    | base =>
      rw [p1 1049 (le_refl _)]
      norm_num
    | succ n hn ih =>
      rw [Finset.sum_range_succ, ih, burstWord_lossBursts, if_neg (by omega)]
      push_cast
      norm_num
      ring
  rw [p2 3000 (by norm_num)]
  norm_num

/-- C7 as stated fails in binary32: over bursts whose raw gyro X word is `32750` for the
first `1049` bursts and `1` for the other `1951`, the accumulator stops growing at `524500`
and the stored offset is `174.8333...`, not the sum of the quotients over `3000`; and when
every burst carries the raw gyro X word `1`, the stored offset is not `1 / 65.5`. -/
theorem rounded_calcGyroOffsets_counterexample :
    (∀ i, i < 3000 → (lossBursts i).length = 14)
      ∧ (Rounded.calcGyroOffsets sampleEnv zeroState false lossBursts).gyroXoffset
          = 11457877 / 65536
      ∧ (∑ i ∈ Finset.range 3000, (burstWord (lossBursts i) 4 : ℚ) / 65.5) / 3000
          = 34356701 / 196500
      ∧ (Rounded.calcGyroOffsets sampleEnv zeroState false lossBursts).gyroXoffset
          ≠ (∑ i ∈ Finset.range 3000, (burstWord (lossBursts i) 4 : ℚ) / 65.5) / 3000
      ∧ (∀ i : ℕ, i < 3000 → (unitBurst.length = 14 ∧ burstWord unitBurst 4 = 1))
      ∧ (Rounded.calcGyroOffsets sampleEnv zeroState false (fun _ => unitBurst)).gyroXoffset
          ≠ ((1 : ℤ) : ℚ) / 65.5 := by
  have hfull : ∀ i, i < 3000 → (lossBursts i).length = 14 := by
    intro i _
    unfold lossBursts
    split_ifs <;> rfl
  have hv : (Rounded.calcGyroOffsets sampleEnv zeroState false lossBursts).gyroXoffset
      = 11457877 / 65536 := by
    rw [(rounded_calcGyroOffsets_offsets sampleEnv zeroState false lossBursts hfull).1,
      floatSum_lossBursts.2 3000 (by norm_num)]
    have a1 : (524500 : ℚ) / 3000 = (1049 / 6 : ℚ) := by norm_num
    rw [a1, f32_loss_mean]
  have hs : (∑ i ∈ Finset.range 3000, (burstWord (lossBursts i) 4 : ℚ) / 65.5) / 3000
      = 34356701 / 196500 := by
    rw [exactSum_lossBursts]
    norm_num
  have hu : (Rounded.calcGyroOffsets sampleEnv zeroState false (fun _ => unitBurst)).gyroXoffset
      ≠ ((1 : ℤ) : ℚ) / 65.5 := by
    rw [(rounded_calcGyroOffsets_offsets sampleEnv zeroState false (fun _ => unitBurst)
      (fun _ _ => rfl)).1]
    exact f32_ne_over_131 _ 1 (by norm_num)
  refine ⟨hfull, hv, hs, ?_, fun _ _ => ⟨rfl, by decide⟩, hu⟩
  rw [hv, hs]
  norm_num

/-! ## The complementary filter in binary32 -/

/-- The `double` nearest to the constant `PI`. -/
theorem f64_pi : f64 (6283185307179586476925286766559 / 2000000000000000000000000000000 : ℚ) = (884279719003555 / 281474976710656 : ℚ) := by
  have h := roundFloat_eval_pos 53 (-1074) (6283185307179586476925286766559 / 2000000000000000000000000000000 : ℚ) (-51) 7074237752028440
    (by norm_num) (by norm_num) (by norm_num) (by norm_num) (by norm_num)
  unfold f64
  rw [h]
  norm_num

/-- The value of `atan2(1, 1)` is a `double`. -/
theorem f64_quarter_pi : f64 (884279719003555 / 1125899906842624 : ℚ) = (884279719003555 / 1125899906842624 : ℚ) := by
  have h := roundFloat_eval_pos 53 (-1074) (884279719003555 / 1125899906842624 : ℚ) (-53) 7074237752028440
    (by norm_num) (by norm_num) (by norm_num) (by norm_num) (by norm_num)
  unfold f64
  rw [h]
  norm_num

theorem f64_tilt_times_360 : f64 (39792587355159975 / 140737488355328 : ℚ) = (4974073419394997 / 17592186044416 : ℚ) := by
  have h := roundFloat_eval_pos 53 (-1074) (39792587355159975 / 140737488355328 : ℚ) (-44) 4974073419394997
    (by norm_num) (by norm_num) (by norm_num) (by norm_num) (by norm_num)
  unfold f64
  rw [h]
  norm_num

theorem f64_tilt_halved : f64 (4974073419394997 / 35184372088832 : ℚ) = (4974073419394997 / 35184372088832 : ℚ) := by
  have h := roundFloat_eval_pos 53 (-1074) (4974073419394997 / 35184372088832 : ℚ) (-45) 4974073419394997
    (by norm_num) (by norm_num) (by norm_num) (by norm_num) (by norm_num)
  unfold f64
  rw [h]
  norm_num

theorem f64_tilt_degrees : f64 (39792587355159976 / 884279719003555 : ℚ) = (45 : ℚ) := by
  have h := roundFloat_eval_pos 53 (-1074) (39792587355159976 / 884279719003555 : ℚ) (-47) 6333186975989760
    (by norm_num) (by norm_num) (by norm_num) (by norm_num) (by norm_num)
  unfold f64
  rw [h]
  norm_num

theorem f32_tilt_degrees : f32 (45 : ℚ) = (45 : ℚ) := by
  have h := roundFloat_eval_pos 24 (-149) (45 : ℚ) (-18) 11796480
    (by norm_num) (by norm_num) (by norm_num) (by norm_num) (by norm_num)
  unfold f32
  rw [h]
  norm_num

/-- The `float` literal `0.02f`. -/
theorem f32_acc_coef : f32 (1 / 50 : ℚ) = (5368709 / 268435456 : ℚ) := by
  have h := roundFloat_eval_pos 24 (-149) (1 / 50 : ℚ) (-29) 10737418
    (by norm_num) (by norm_num) (by norm_num) (by norm_num) (by norm_num)
  unfold f32
  rw [h]
  norm_num

/-- The `float` literal `0.98f`. -/
theorem f32_gyro_coef : f32 (49 / 50 : ℚ) = (2055209 / 2097152 : ℚ) := by
  have h := roundFloat_eval_pos 24 (-149) (49 / 50 : ℚ) (-24) 16441672
    (by norm_num) (by norm_num) (by norm_num) (by norm_num) (by norm_num)
  unfold f32
  rw [h]
  norm_num

theorem f32_gyro_part_45 : f32 (92484405 / 2097152 : ℚ) = (11560551 / 262144 : ℚ) := by
  have h := roundFloat_eval_pos 24 (-149) (92484405 / 2097152 : ℚ) (-18) 11560551
    (by norm_num) (by norm_num) (by norm_num) (by norm_num) (by norm_num)
  unfold f32
  rw [h]
  norm_num

theorem f32_acc_part_45 : f32 (241591905 / 268435456 : ℚ) = (7549747 / 8388608 : ℚ) := by
  have h := roundFloat_eval_pos 24 (-149) (241591905 / 268435456 : ℚ) (-24) 15099494
    (by norm_num) (by norm_num) (by norm_num) (by norm_num) (by norm_num)
  unfold f32
  rw [h]
  norm_num

theorem f32_blend_45 : f32 (377487379 / 8388608 : ℚ) = (11796481 / 262144 : ℚ) := by
  have h := roundFloat_eval_pos 24 (-149) (377487379 / 8388608 : ℚ) (-18) 11796481
    (by norm_num) (by norm_num) (by norm_num) (by norm_num) (by norm_num)
  unfold f32
  rw [h]
  norm_num

/-- The rounded blend of two values with weights `g` and `a`: its distance to the exact
convex combination `q + g * (p - q)` is at most four rounding errors. -/
theorem rounded_blend (a g p q : ℚ) (ha : 0 ≤ a) (hg0 : 0 ≤ g)
    (hsum : |a + g - 1| ≤ 1 / 2 ^ 24) :
    |f32 (f32 (g * p) + f32 (a * q)) - (q + g * (p - q))|
      ≤ max |p| |q| / 2 ^ 22 + 1 / 2 ^ 148 := by
  have hp : |p| ≤ max |p| |q| := le_max_left _ _
  have hq : |q| ≤ max |p| |q| := le_max_right _ _
  have hM : 0 ≤ max |p| |q| := le_trans (abs_nonneg p) hp
  generalize max |p| |q| = M at hp hq hM ⊢
  have hs := abs_le.mp hsum
  have hgp : |g * p| ≤ g * M := by
    rw [abs_mul, abs_of_nonneg hg0]
    exact mul_le_mul_of_nonneg_left hp hg0
  have haq : |a * q| ≤ a * M := by
    rw [abs_mul, abs_of_nonneg ha]
    exact mul_le_mul_of_nonneg_left hq ha
  have hsM : a * M + g * M ≤ M + M / 2 ^ 24 := by nlinarith [hs.2]
  have eA := f32_err (g * p)
  have eB := f32_err (a * q)
  have eX := f32_err (f32 (g * p) + f32 (a * q))
  have hA : |f32 (g * p)| ≤ |g * p| + (|g * p| / 2 ^ 24 + 1 / 2 ^ 150) := by
    have := abs_sub_abs_le_abs_sub (f32 (g * p)) (g * p)
    linarith
  have hB : |f32 (a * q)| ≤ |a * q| + (|a * q| / 2 ^ 24 + 1 / 2 ^ 150) := by
    have := abs_sub_abs_le_abs_sub (f32 (a * q)) (a * q)
    linarith
  have hAB : |f32 (g * p) + f32 (a * q)| ≤ |f32 (g * p)| + |f32 (a * q)| := abs_add _ _
  have hmid : |g * p + a * q - (q + g * (p - q))| ≤ M / 2 ^ 24 := by
    have e : g * p + a * q - (q + g * (p - q)) = (a + g - 1) * q := by ring
    rw [e, abs_mul]
    calc |a + g - 1| * |q| ≤ 1 / 2 ^ 24 * M :=
          mul_le_mul hsum hq (abs_nonneg _) (by norm_num)
      _ = M / 2 ^ 24 := by ring
  have e1 := abs_le.mp eA
  have e2 := abs_le.mp eB
  have e3 := abs_le.mp eX
  have e4 := abs_le.mp hmid
  have n1 := abs_nonneg (g * p)
  have n2 := abs_nonneg (a * q)
  rw [abs_le]
  constructor <;> linarith

/-- The rounded blend lies between its two arguments up to the rounding term. -/
theorem rounded_blend_between (a g p q : ℚ) (ha : 0 ≤ a) (hg0 : 0 ≤ g) (hg1 : g ≤ 1)
    (hsum : |a + g - 1| ≤ 1 / 2 ^ 24) :
    min p q - (max |p| |q| / 2 ^ 22 + 1 / 2 ^ 148) ≤ f32 (f32 (g * p) + f32 (a * q))
      ∧ f32 (f32 (g * p) + f32 (a * q))
        ≤ max p q + (max |p| |q| / 2 ^ 22 + 1 / 2 ^ 148) := by
  have h := abs_le.mp (rounded_blend a g p q ha hg0 hsum)
  have hc : min p q ≤ q + g * (p - q) ∧ q + g * (p - q) ≤ max p q := by
    rcases le_total p q with hpq | hpq
    · rw [min_eq_left hpq, max_eq_right hpq]
      constructor <;> nlinarith
    · rw [min_eq_right hpq, max_eq_left hpq]
      constructor <;> nlinarith
  constructor <;> linarith [hc.1, hc.2]

/-- The `double` nearest to `atan(0.8)` is a binary64 value. -/
theorem f64_slope_atan : f64 (3038763055969609 / 4503599627370496 : ℚ) = (3038763055969609 / 4503599627370496 : ℚ) := by
  have h := roundFloat_eval_pos 53 (-1074) (3038763055969609 / 4503599627370496 : ℚ) (-53) 6077526111939218
    (by norm_num) (by norm_num) (by norm_num) (by norm_num) (by norm_num)
  unfold f64
  rw [h]
  norm_num

/-- The product `atan2(1, 1.25) * 360` in binary64. -/
theorem f64_slope_times_360 : f64 (136744337518632405 / 562949953421312 : ℚ) = (8546521094914525 / 35184372088832 : ℚ) := by
  have h := roundFloat_eval_pos 53 (-1074) (136744337518632405 / 562949953421312 : ℚ) (-45) 8546521094914525
    (by norm_num) (by norm_num) (by norm_num) (by norm_num) (by norm_num)
  unfold f64
  rw [h]
  norm_num

/-- The quotient by `2.0` in binary64. -/
theorem f64_slope_halved : f64 (8546521094914525 / 70368744177664 : ℚ) = (8546521094914525 / 70368744177664 : ℚ) := by
  have h := roundFloat_eval_pos 53 (-1074) (8546521094914525 / 70368744177664 : ℚ) (-46) 8546521094914525
    (by norm_num) (by norm_num) (by norm_num) (by norm_num) (by norm_num)
  unfold f64
  rw [h]
  norm_num

/-- The quotient by `PI` in binary64: the tilt in degrees. -/
theorem f64_slope_degrees : f64 (6837216875931620 / 176855943800711 : ℚ) = (5440884313979217 / 140737488355328 : ℚ) := by
  have h := roundFloat_eval_pos 53 (-1074) (6837216875931620 / 176855943800711 : ℚ) (-47) 5440884313979217
    (by norm_num) (by norm_num) (by norm_num) (by norm_num) (by norm_num)
  unfold f64
  rw [h]
  norm_num

/-- The tilt of `atan2(1, 1.25)` stored as a `float`, about `38.66` degrees. -/
theorem f32_slope_degrees : f32 (5440884313979217 / 140737488355328 : ℚ) = (10134437 / 262144 : ℚ) := by
  have h := roundFloat_eval_pos 24 (-149) (5440884313979217 / 140737488355328 : ℚ) (-18) 10134437
    (by norm_num) (by norm_num) (by norm_num) (by norm_num) (by norm_num)
  unfold f32
  rw [h]
  norm_num

/-- The stored tilt is a binary32 value. -/
theorem f32_slope_idem : f32 (10134437 / 262144 : ℚ) = (10134437 / 262144 : ℚ) := by
  have h := roundFloat_eval_pos 24 (-149) (10134437 / 262144 : ℚ) (-18) 10134437
    (by norm_num) (by norm_num) (by norm_num) (by norm_num) (by norm_num)
  unfold f32
  rw [h]
  norm_num

/-- The value `1.25` is a binary64 value. -/
theorem f64_five_quarters : f64 (5 / 4 : ℚ) = (5 / 4 : ℚ) := by
  have h := roundFloat_eval_pos 53 (-1074) (5 / 4 : ℚ) (-52) 5629499534213120
    (by norm_num) (by norm_num) (by norm_num) (by norm_num) (by norm_num)
  unfold f64
  rw [h]
  norm_num

/-- The value `1.25` is a binary32 value. -/
theorem f32_five_quarters : f32 (5 / 4 : ℚ) = (5 / 4 : ℚ) := by
  have h := roundFloat_eval_pos 24 (-149) (5 / 4 : ℚ) (-23) 10485760
    (by norm_num) (by norm_num) (by norm_num) (by norm_num) (by norm_num)
  unfold f32
  rw [h]
  norm_num

/-- The coefficient `3/32` is a binary32 value. -/
theorem f32_three_32nds : f32 (3 / 32 : ℚ) = (3 / 32 : ℚ) := by
  have h := roundFloat_eval_pos 24 (-149) (3 / 32 : ℚ) (-27) 12582912
    (by norm_num) (by norm_num) (by norm_num) (by norm_num) (by norm_num)
  unfold f32
  rw [h]
  norm_num

/-- The coefficient `29/32` is a binary32 value. -/
theorem f32_29_32nds : f32 (29 / 32 : ℚ) = (29 / 32 : ℚ) := by
  have h := roundFloat_eval_pos 24 (-149) (29 / 32 : ℚ) (-24) 15204352
    (by norm_num) (by norm_num) (by norm_num) (by norm_num) (by norm_num)
  unfold f32
  rw [h]
  norm_num

/-- The gyro part `29/32 * tilt` of the blend, rounded. -/
theorem f32_gyro_part_slope : f32 (293898673 / 8388608 : ℚ) = (4592167 / 131072 : ℚ) := by
  have h := roundFloat_eval_pos 24 (-149) (293898673 / 8388608 : ℚ) (-18) 9184334
    (by norm_num) (by norm_num) (by norm_num) (by norm_num) (by norm_num)
  unfold f32
  rw [h]
  norm_num

/-- The accelerometer part `3/32 * tilt` of the blend, rounded. -/
theorem f32_acc_part_slope : f32 (30403311 / 8388608 : ℚ) = (1900207 / 524288 : ℚ) := by
  have h := roundFloat_eval_tie_up_pos 24 (-149) (30403311 / 8388608 : ℚ) (-22) 15201656
    (by norm_num) (by norm_num) (by norm_num) (by norm_num) (by norm_num)
  unfold f32
  rw [h]
  norm_num

/-- The sum of the two parts, rounded: one unit in the last place above the tilt. -/
theorem f32_blend_slope : f32 (20268875 / 524288 : ℚ) = (5067219 / 131072 : ℚ) := by
  have h := roundFloat_eval_tie_up_pos 24 (-149) (20268875 / 524288 : ℚ) (-18) 10134438
    (by norm_num) (by norm_num) (by norm_num) (by norm_num) (by norm_num)
  unfold f32
  rw [h]
  norm_num

/-- The binary32 sum of the `float` literals `0.02f` and `0.98f` is `1`. -/
theorem f32_default_sum : f32 (268435461 / 268435456 : ℚ) = (1 : ℚ) := by
  have h := roundFloat_eval_pos 24 (-149) (268435461 / 268435456 : ℚ) (-23) 8388608
    (by norm_num) (by norm_num) (by norm_num) (by norm_num) (by norm_num)
  unfold f32
  rw [h]
  norm_num

/-! ## Worked steps of the filter -/

theorem readWordAt_tiltBurst :
    readWordAt (tiltBurst.take 14) 0 = 0 ∧ readWordAt (tiltBurst.take 14) 1 = 16384
      ∧ readWordAt (tiltBurst.take 14) 2 = 16384 ∧ readWordAt (tiltBurst.take 14) 4 = 0 := by
  decide

theorem readWordAt_slopeBurst :
    readWordAt (slopeBurst.take 14) 0 = 0 ∧ readWordAt (slopeBurst.take 14) 1 = 16384
      ∧ readWordAt (slopeBurst.take 14) 2 = 20480 ∧ readWordAt (slopeBurst.take 14) 4 = 0 := by
  decide

/-- A zero raw gyro word and a zero offset give a zero rate. -/
theorem rounded_rate_zero : f32 (f32 (f64 (f32 ((0 : ℤ) : ℚ) / 65.5)) - 0) = 0 := by
  rw [Int.cast_zero, f32_zero, zero_div, f64_zero, f32_zero, sub_zero, f32_zero]

/-- The raw accelerometer word `0` is `0` g. -/
theorem rounded_acc_zero : f32 (f64 (f32 ((0 : ℤ) : ℚ) / 16384.0)) = 0 := by
  rw [Int.cast_zero, f32_zero, zero_div, f64_zero, f32_zero]

/-- The raw accelerometer word `16384` is `1` g. -/
theorem rounded_acc_one : f32 (f64 (f32 ((16384 : ℤ) : ℚ) / 16384.0)) = 1 := by
  have a1 : f32 ((16384 : ℤ) : ℚ) = 16384 := by
    have := f32_intCast 16384 (by norm_num)
    simpa using this
  have a2 : (16384 : ℚ) / 16384.0 = 1 := by norm_num
  have a3 : f64 1 = 1 := by
    have := f64_intCast 1 (by norm_num)
    simpa using this
  rw [a1, a2, a3, f32_one]

/-- The raw accelerometer word `20480` is `1.25` g. -/
theorem rounded_acc_five_quarters : f32 (f64 (f32 ((20480 : ℤ) : ℚ) / 16384.0)) = 5 / 4 := by
  have a1 : f32 ((20480 : ℤ) : ℚ) = 20480 := by
    have := f32_intCast 20480 (by norm_num)
    simpa using this
  have a2 : (20480 : ℚ) / 16384.0 = (5 / 4 : ℚ) := by norm_num
  rw [a1, a2, f64_five_quarters, f32_five_quarters]

/-- The tilt in degrees computed from `atan2(1, 1)` is `45`. -/
theorem rounded_degrees_45 :
    f32 (f64 (f64 (f64 (f64 (884279719003555 / 1125899906842624 : ℚ) * 360) / 2.0) / f64 PI))
      = 45 := by
  have m1 : (884279719003555 / 1125899906842624 : ℚ) * 360
      = (39792587355159975 / 140737488355328 : ℚ) := by norm_num
  have m2 : (4974073419394997 / 17592186044416 : ℚ) / 2.0
      = (4974073419394997 / 35184372088832 : ℚ) := by norm_num
  have hPI : PI
      = (6283185307179586476925286766559 / 2000000000000000000000000000000 : ℚ) := by
    unfold PI
    norm_num
  have m3 : (4974073419394997 / 35184372088832 : ℚ)
      / (884279719003555 / 281474976710656 : ℚ)
      = (39792587355159976 / 884279719003555 : ℚ) := by norm_num
  rw [f64_quarter_pi, m1, f64_tilt_times_360, m2, f64_tilt_halved, hPI, f64_pi, m3,
    f64_tilt_degrees, f32_tilt_degrees]

/-- The tilt in degrees computed from `atan2(1, 1.25)` is the `float` `10134437 / 262144`. -/
theorem rounded_degrees_slope :
    f32 (f64 (f64 (f64 (f64 (3038763055969609 / 4503599627370496 : ℚ) * 360) / 2.0) / f64 PI))
      = 10134437 / 262144 := by
  have m1 : (3038763055969609 / 4503599627370496 : ℚ) * 360
      = (136744337518632405 / 562949953421312 : ℚ) := by norm_num
  have m2 : (8546521094914525 / 35184372088832 : ℚ) / 2.0
      = (8546521094914525 / 70368744177664 : ℚ) := by norm_num
  have hPI : PI
      = (6283185307179586476925286766559 / 2000000000000000000000000000000 : ℚ) := by
    unfold PI
    norm_num
  have m3 : (8546521094914525 / 70368744177664 : ℚ)
      / (884279719003555 / 281474976710656 : ℚ)
      = (6837216875931620 / 176855943800711 : ℚ) := by norm_num
  rw [f64_slope_atan, m1, f64_slope_times_360, m2, f64_slope_halved, hPI, f64_pi, m3,
    f64_slope_degrees, f32_slope_degrees]

/-- The burst `tiltBurst` decodes to a tilt of `45` degrees about X and a zero raw gyro X
word, from any state. -/
theorem rounded_tilt_45 (s : MPU6050) (t1 t2 : Nat) :
    (Rounded.update tiltEnv s tiltBurst t1 t2).angleAccX = 45
      ∧ (Rounded.update tiltEnv s tiltBurst t1 t2).rawGyroX = 0 := by
  have r := rounded_update_raw_any tiltEnv s tiltBurst t1 t2
  have w := readWordAt_tiltBurst
  have t := (rounded_update_tilt tiltEnv s tiltBurst t1 t2).1
  have e : tiltEnv.atan2 1 (f32 (1 + |(0 : ℚ)|))
      = (884279719003555 / 1125899906842624 : ℚ) := by
    rw [abs_zero, add_zero, f32_one]
    show (if (1 : ℚ) = 1 ∧ (1 : ℚ) = 1 then (884279719003555 / 1125899906842624 : ℚ)
      else if (1 : ℚ) = 1 ∧ (1 : ℚ) = 5 / 4
        then (3038763055969609 / 4503599627370496 : ℚ) else 0) = _
    rw [if_pos ⟨rfl, rfl⟩]
  refine ⟨?_, r.2.2.2.2.1.trans w.2.2.2⟩
  rw [t, r.1, r.2.1, r.2.2.1, w.1, w.2.1, w.2.2.1, rounded_acc_zero, rounded_acc_one, e,
    rounded_degrees_45]

/-- The burst `slopeBurst` decodes to a tilt of `10134437 / 262144` degrees about X and a
zero raw gyro X word, from any state. -/
theorem rounded_tilt_slope (s : MPU6050) (t1 t2 : Nat) :
    (Rounded.update tiltEnv s slopeBurst t1 t2).angleAccX = 10134437 / 262144
      ∧ (Rounded.update tiltEnv s slopeBurst t1 t2).rawGyroX = 0 := by
  have r := rounded_update_raw_any tiltEnv s slopeBurst t1 t2
  have w := readWordAt_slopeBurst
  have t := (rounded_update_tilt tiltEnv s slopeBurst t1 t2).1
  have e : tiltEnv.atan2 1 (f32 (5 / 4 + |(0 : ℚ)|))
      = (3038763055969609 / 4503599627370496 : ℚ) := by
    rw [abs_zero, add_zero, f32_five_quarters]
    show (if (1 : ℚ) = 1 ∧ (5 / 4 : ℚ) = 1 then (884279719003555 / 1125899906842624 : ℚ)
      else if (1 : ℚ) = 1 ∧ (5 / 4 : ℚ) = 5 / 4
        then (3038763055969609 / 4503599627370496 : ℚ) else 0) = _
    rw [if_neg (by norm_num), if_pos ⟨rfl, rfl⟩]
  refine ⟨?_, r.2.2.2.2.1.trans w.2.2.2⟩
  rw [t, r.1, r.2.1, r.2.2.1, w.1, w.2.1, w.2.2.1, rounded_acc_zero, rounded_acc_one,
    rounded_acc_five_quarters, e, rounded_degrees_slope]

/-- With a zero raw gyro X word and a zero offset the rate is zero, the gyro integral is
rounded in place and the fused angle blends the rounded previous fused angle with the
tilt. -/
theorem rounded_still_step (env : Env) (s : MPU6050) (resp : List (Fin 256)) (t1 t2 : Nat)
    (hr : (Rounded.update env s resp t1 t2).rawGyroX = 0) (ho : s.gyroXoffset = 0) :
    (Rounded.update env s resp t1 t2).gyroX = 0
      ∧ (Rounded.update env s resp t1 t2).angleGyroX = f32 s.angleGyroX
      ∧ (Rounded.update env s resp t1 t2).angleX
          = f32 (f32 (s.gyroCoef * f32 s.angleX)
              + f32 (s.accCoef * (Rounded.update env s resp t1 t2).angleAccX)) := by
  have r := (rounded_update_rates env s resp t1 t2).1
  have g := (rounded_update_integrals env s resp t1 t2).1
  have f := (rounded_update_fused env s resp t1 t2).1
  have hg : (Rounded.update env s resp t1 t2).gyroX = 0 := by
    rw [r, hr, ho, rounded_rate_zero]
  refine ⟨hg, ?_, ?_⟩
  · rw [g, hg, zero_mul, f32_zero, add_zero]
  · rw [f, hg, zero_mul, f32_zero, add_zero]

/-- The coefficients stored by the one-argument constructor. -/
theorem rounded_ctor_coefficients (u : MPU6050) (w : TwoWire) :
    (Rounded.ctor u w).accCoef = 5368709 / 268435456
      ∧ (Rounded.ctor u w).gyroCoef = 2055209 / 2097152 := by
  have a1 : (0.02 : ℚ) = (1 / 50 : ℚ) := by norm_num
  have a2 : (0.98 : ℚ) = (49 / 50 : ℚ) := by norm_num
  constructor
  · show f32 0.02 = _
    rw [a1, f32_acc_coef]
  · show f32 0.98 = _
    rw [a2, f32_gyro_coef]

/-- The coefficients stored by the two-argument constructor for `3/32` and `29/32`. -/
theorem rounded_ctorCoef_slope (u : MPU6050) (w : TwoWire) :
    (Rounded.ctorCoef u w (3 / 32) (29 / 32)).accCoef = 3 / 32
      ∧ (Rounded.ctorCoef u w (3 / 32) (29 / 32)).gyroCoef = 29 / 32 := by
  constructor
  · show f32 (3 / 32) = _
    rw [f32_three_32nds]
  · show f32 (29 / 32) = _
    rw [f32_29_32nds]

/-- One update of `tiltState` on the 45 degree burst: tilt and gyro integral stay at `45`,
the fused angle becomes `45 + 2^-18`. -/
theorem rounded_tilt_step (t1 t2 : Nat) :
    (Rounded.update tiltEnv tiltState tiltBurst t1 t2).angleAccX = 45
      ∧ (Rounded.update tiltEnv tiltState tiltBurst t1 t2).angleGyroX = 45
      ∧ (Rounded.update tiltEnv tiltState tiltBurst t1 t2).gyroX = 0
      ∧ (Rounded.update tiltEnv tiltState tiltBurst t1 t2).angleX = 11796481 / 262144 := by
  have t := rounded_tilt_45 tiltState t1 t2
  have c := rounded_still_step tiltEnv tiltState tiltBurst t1 t2 t.2 rfl
  have k := rounded_ctor_coefficients zeroState zeroState.wire
  have ka : tiltState.accCoef = 5368709 / 268435456 := k.1
  have kg : tiltState.gyroCoef = 2055209 / 2097152 := k.2
  have hx : tiltState.angleX = 45 := rfl
  have hgx : tiltState.angleGyroX = 45 := rfl
  have m1 : (2055209 / 2097152 : ℚ) * 45 = (92484405 / 2097152 : ℚ) := by norm_num
  have m2 : (5368709 / 268435456 : ℚ) * 45 = (241591905 / 268435456 : ℚ) := by norm_num
  have m3 : (11560551 / 262144 : ℚ) + (7549747 / 8388608 : ℚ)
      = (377487379 / 8388608 : ℚ) := by norm_num
  refine ⟨t.1, ?_, c.1, ?_⟩
  · rw [c.2.1, hgx, f32_tilt_degrees]
  · rw [c.2.2, t.1, ka, kg, hx, f32_tilt_degrees, m1, f32_gyro_part_45, m2, f32_acc_part_45,
      m3, f32_blend_45]

/-- One update of `slopeState` on the burst `slopeBurst`: tilt and gyro integral stay at
`10134437 / 262144`, the fused angle becomes `5067219 / 131072`, which is `2^-18` more. -/
theorem rounded_slope_step (t1 t2 : Nat) :
    (Rounded.update tiltEnv slopeState slopeBurst t1 t2).angleAccX = 10134437 / 262144
      ∧ (Rounded.update tiltEnv slopeState slopeBurst t1 t2).angleGyroX = 10134437 / 262144
      ∧ (Rounded.update tiltEnv slopeState slopeBurst t1 t2).gyroX = 0
      ∧ (Rounded.update tiltEnv slopeState slopeBurst t1 t2).angleX = 5067219 / 131072 := by
  have t := rounded_tilt_slope slopeState t1 t2
  have c := rounded_still_step tiltEnv slopeState slopeBurst t1 t2 t.2 rfl
  have k := rounded_ctorCoef_slope zeroState zeroState.wire
  have ka : slopeState.accCoef = 3 / 32 := k.1
  have kg : slopeState.gyroCoef = 29 / 32 := k.2
  have hx : slopeState.angleX = (10134437 / 262144 : ℚ) := rfl
  have hgx : slopeState.angleGyroX = (10134437 / 262144 : ℚ) := rfl
  have m1 : (29 / 32 : ℚ) * (10134437 / 262144 : ℚ) = (293898673 / 8388608 : ℚ) := by
    norm_num
  have m2 : (3 / 32 : ℚ) * (10134437 / 262144 : ℚ) = (30403311 / 8388608 : ℚ) := by
    norm_num
  have m3 : (4592167 / 131072 : ℚ) + (1900207 / 524288 : ℚ)
      = (20268875 / 524288 : ℚ) := by norm_num
  refine ⟨t.1, ?_, c.1, ?_⟩
  · rw [c.2.1, hgx, f32_slope_idem]
  · rw [c.2.2, t.1, ka, kg, hx, f32_slope_idem, m1, f32_gyro_part_slope, m2,
      f32_acc_part_slope, m3, f32_blend_slope]

/-- C19 as stated fails in binary32. The one-argument constructor stores `0.02f` and
`0.98f`, whose sum is not `1` although it rounds to `1`; with these coefficients, a fused
angle of `45` and a burst at rest tilted by `45` degrees, `p` and the tilt are both `45` but
the fused angle becomes `45 + 2^-18`. With the coefficients `3/32` and `29/32`, of sum
exactly `1`, a fused angle and a tilt both equal to the `float` `10134437 / 262144` give a
fused angle `2^-18` above them. -/
theorem rounded_convex_counterexample :
    (tiltState.accCoef = 5368709 / 268435456 ∧ tiltState.gyroCoef = 2055209 / 2097152
        ∧ tiltState.accCoef + tiltState.gyroCoef ≠ 1
        ∧ f32 (tiltState.accCoef + tiltState.gyroCoef) = 1)
      ∧ (tiltState.angleX + (Rounded.update tiltEnv tiltState tiltBurst 100 101).gyroX
            * (Rounded.update tiltEnv tiltState tiltBurst 100 101).interval = 45
        ∧ (Rounded.update tiltEnv tiltState tiltBurst 100 101).angleAccX = 45
        ∧ (Rounded.update tiltEnv tiltState tiltBurst 100 101).angleX = 11796481 / 262144
        ∧ ¬ ((Rounded.update tiltEnv tiltState tiltBurst 100 101).angleX
              ≤ max (tiltState.angleX
                  + (Rounded.update tiltEnv tiltState tiltBurst 100 101).gyroX
                    * (Rounded.update tiltEnv tiltState tiltBurst 100 101).interval)
                (Rounded.update tiltEnv tiltState tiltBurst 100 101).angleAccX))
      ∧ (0 ≤ slopeState.accCoef ∧ slopeState.accCoef ≤ 1 ∧ 0 ≤ slopeState.gyroCoef
        ∧ slopeState.gyroCoef ≤ 1 ∧ slopeState.accCoef + slopeState.gyroCoef = 1)
      ∧ (slopeState.angleX + (Rounded.update tiltEnv slopeState slopeBurst 100 101).gyroX
            * (Rounded.update tiltEnv slopeState slopeBurst 100 101).interval
          = 10134437 / 262144
        ∧ (Rounded.update tiltEnv slopeState slopeBurst 100 101).angleAccX
          = 10134437 / 262144
        ∧ (Rounded.update tiltEnv slopeState slopeBurst 100 101).angleX = 5067219 / 131072
        ∧ ¬ ((Rounded.update tiltEnv slopeState slopeBurst 100 101).angleX
              ≤ max (slopeState.angleX
                  + (Rounded.update tiltEnv slopeState slopeBurst 100 101).gyroX
                    * (Rounded.update tiltEnv slopeState slopeBurst 100 101).interval)
                (Rounded.update tiltEnv slopeState slopeBurst 100 101).angleAccX)) := by
  have k := rounded_ctor_coefficients zeroState zeroState.wire
  have ka : tiltState.accCoef = 5368709 / 268435456 := k.1
  have kg : tiltState.gyroCoef = 2055209 / 2097152 := k.2
  have k2 := rounded_ctorCoef_slope zeroState zeroState.wire
  have ka2 : slopeState.accCoef = 3 / 32 := k2.1
  have kg2 : slopeState.gyroCoef = 29 / 32 := k2.2
  have c := rounded_tilt_step 100 101
  have c2 := rounded_slope_step 100 101
  have hx : tiltState.angleX = 45 := rfl
  have hx2 : slopeState.angleX = (10134437 / 262144 : ℚ) := rfl
  have hp : tiltState.angleX + (Rounded.update tiltEnv tiltState tiltBurst 100 101).gyroX
      * (Rounded.update tiltEnv tiltState tiltBurst 100 101).interval = 45 := by
    rw [c.2.2.1, zero_mul, add_zero, hx]
  have hp2 : slopeState.angleX + (Rounded.update tiltEnv slopeState slopeBurst 100 101).gyroX
      * (Rounded.update tiltEnv slopeState slopeBurst 100 101).interval
      = 10134437 / 262144 := by
    rw [c2.2.2.1, zero_mul, add_zero, hx2]
  have s1 : (5368709 / 268435456 : ℚ) + (2055209 / 2097152 : ℚ)
      = (268435461 / 268435456 : ℚ) := by norm_num
  refine ⟨⟨ka, kg, ?_, ?_⟩, ⟨hp, c.1, c.2.2.2, ?_⟩, ?_, ⟨hp2, c2.1, c2.2.2.2, ?_⟩⟩
  · rw [ka, kg]
    norm_num
  · rw [ka, kg, s1, f32_default_sum]
  · rw [hp, c.1, c.2.2.2]
    norm_num
  · rw [ka2, kg2]
    norm_num
  · rw [hp2, c2.1, c2.2.2.2]
    norm_num

/-- C19, amended: with `accCoef ≥ 0`, `0 ≤ gyroCoef ≤ 1` and a sum within `2^-24` of `1`, the
fused angle stored by one rounded update lies between `p` and the new accelerometer tilt up
to `max |p| |tilt| / 2^22 + 2^-148`, where `p` is the binary32 value of
`angleX + gyroX*dt`; likewise for Y. With `accCoef = 0` and `gyroCoef = 1` it is exactly `p`,
with `accCoef = 1` and `gyroCoef = 0` exactly the tilt. The coefficients stored by the
one-argument constructor are the `float` values of `0.02` and `0.98`; they lie in `[0,1]`
and their sum is within `2^-24` of `1`. -/
theorem rounded_update_convex (env : Env) (s : MPU6050) (resp : List (Fin 256)) (t1 t2 : Nat)
    (ha0 : 0 ≤ s.accCoef) (hg0 : 0 ≤ s.gyroCoef) (hg1 : s.gyroCoef ≤ 1)
    (hsum : |s.accCoef + s.gyroCoef - 1| ≤ 1 / 2 ^ 24) :
    (min (f32 (s.angleX + f32 ((Rounded.update env s resp t1 t2).gyroX
              * (Rounded.update env s resp t1 t2).interval)))
            (Rounded.update env s resp t1 t2).angleAccX
          - (max |f32 (s.angleX + f32 ((Rounded.update env s resp t1 t2).gyroX
                * (Rounded.update env s resp t1 t2).interval))|
              |(Rounded.update env s resp t1 t2).angleAccX| / 2 ^ 22 + 1 / 2 ^ 148)
          ≤ (Rounded.update env s resp t1 t2).angleX
        ∧ (Rounded.update env s resp t1 t2).angleX
          ≤ max (f32 (s.angleX + f32 ((Rounded.update env s resp t1 t2).gyroX
                * (Rounded.update env s resp t1 t2).interval)))
              (Rounded.update env s resp t1 t2).angleAccX
            + (max |f32 (s.angleX + f32 ((Rounded.update env s resp t1 t2).gyroX
                  * (Rounded.update env s resp t1 t2).interval))|
                |(Rounded.update env s resp t1 t2).angleAccX| / 2 ^ 22 + 1 / 2 ^ 148))
      ∧ (min (f32 (s.angleY + f32 ((Rounded.update env s resp t1 t2).gyroY
              * (Rounded.update env s resp t1 t2).interval)))
            (Rounded.update env s resp t1 t2).angleAccY
          - (max |f32 (s.angleY + f32 ((Rounded.update env s resp t1 t2).gyroY
                * (Rounded.update env s resp t1 t2).interval))|
              |(Rounded.update env s resp t1 t2).angleAccY| / 2 ^ 22 + 1 / 2 ^ 148)
          ≤ (Rounded.update env s resp t1 t2).angleY
        ∧ (Rounded.update env s resp t1 t2).angleY
          ≤ max (f32 (s.angleY + f32 ((Rounded.update env s resp t1 t2).gyroY
                * (Rounded.update env s resp t1 t2).interval)))
              (Rounded.update env s resp t1 t2).angleAccY
            + (max |f32 (s.angleY + f32 ((Rounded.update env s resp t1 t2).gyroY
                  * (Rounded.update env s resp t1 t2).interval))|
                |(Rounded.update env s resp t1 t2).angleAccY| / 2 ^ 22 + 1 / 2 ^ 148))
      ∧ (s.accCoef = 0 → s.gyroCoef = 1 →
          (Rounded.update env s resp t1 t2).angleX
              = f32 (s.angleX + f32 ((Rounded.update env s resp t1 t2).gyroX
                  * (Rounded.update env s resp t1 t2).interval))
            ∧ (Rounded.update env s resp t1 t2).angleY
              = f32 (s.angleY + f32 ((Rounded.update env s resp t1 t2).gyroY
                  * (Rounded.update env s resp t1 t2).interval)))
      ∧ (s.accCoef = 1 → s.gyroCoef = 0 →
          (Rounded.update env s resp t1 t2).angleX = (Rounded.update env s resp t1 t2).angleAccX
            ∧ (Rounded.update env s resp t1 t2).angleY
              = (Rounded.update env s resp t1 t2).angleAccY)
      ∧ (∀ (u : MPU6050) (w : TwoWire),
          (Rounded.ctor u w).accCoef = f32 0.02 ∧ (Rounded.ctor u w).gyroCoef = f32 0.98
            ∧ 0 ≤ (Rounded.ctor u w).accCoef ∧ (Rounded.ctor u w).accCoef ≤ 1
            ∧ 0 ≤ (Rounded.ctor u w).gyroCoef ∧ (Rounded.ctor u w).gyroCoef ≤ 1
            ∧ |(Rounded.ctor u w).accCoef + (Rounded.ctor u w).gyroCoef - 1|
                ≤ 1 / 2 ^ 24) := by
  have f := rounded_update_fused env s resp t1 t2
  have t := rounded_update_tilt env s resp t1 t2
  refine ⟨?_, ?_, ?_, ?_, ?_⟩
  · have h := rounded_blend_between s.accCoef s.gyroCoef
      (f32 (s.angleX + f32 ((Rounded.update env s resp t1 t2).gyroX
        * (Rounded.update env s resp t1 t2).interval)))
      (Rounded.update env s resp t1 t2).angleAccX ha0 hg0 hg1 hsum
    rw [← f.1] at h
    exact h
  · have h := rounded_blend_between s.accCoef s.gyroCoef
      (f32 (s.angleY + f32 ((Rounded.update env s resp t1 t2).gyroY
        * (Rounded.update env s resp t1 t2).interval)))
      (Rounded.update env s resp t1 t2).angleAccY ha0 hg0 hg1 hsum
    rw [← f.2] at h
    exact h
  · intro ha hg
    constructor
    · rw [f.1, ha, hg, one_mul, zero_mul, f32_zero, add_zero, f32_idem, f32_idem]
    · rw [f.2, ha, hg, one_mul, zero_mul, f32_zero, add_zero, f32_idem, f32_idem]
  · intro ha hg
    constructor
    · rw [f.1, ha, hg, one_mul, zero_mul, f32_zero, zero_add, t.1, f32_idem, f32_idem]
    · rw [f.2, ha, hg, one_mul, zero_mul, f32_zero, zero_add, t.2, f32_idem, f32_idem]
  · intro u w
    have k := rounded_ctor_coefficients u w
    refine ⟨rfl, rfl, ?_, ?_, ?_, ?_, ?_⟩
    · rw [k.1]; norm_num
    · rw [k.1]; norm_num
    · rw [k.2]; norm_num
    · rw [k.2]; norm_num
    · rw [k.1, k.2, abs_le]
      constructor <;> norm_num

/-- Witness of amended C19: the default coefficients on the 45 degree burst. -/
theorem rounded_update_convex_witness :
    |tiltState.accCoef + tiltState.gyroCoef - 1| ≤ 1 / 2 ^ 24
      ∧ (Rounded.update tiltEnv tiltState tiltBurst 100 101).angleX
          ≤ max (f32 (tiltState.angleX
                + f32 ((Rounded.update tiltEnv tiltState tiltBurst 100 101).gyroX
                  * (Rounded.update tiltEnv tiltState tiltBurst 100 101).interval)))
              (Rounded.update tiltEnv tiltState tiltBurst 100 101).angleAccX
            + (max |f32 (tiltState.angleX
                  + f32 ((Rounded.update tiltEnv tiltState tiltBurst 100 101).gyroX
                    * (Rounded.update tiltEnv tiltState tiltBurst 100 101).interval))|
                |(Rounded.update tiltEnv tiltState tiltBurst 100 101).angleAccX| / 2 ^ 22
              + 1 / 2 ^ 148) := by
  have k := rounded_ctor_coefficients zeroState zeroState.wire
  have ka : tiltState.accCoef = 5368709 / 268435456 := k.1
  have kg : tiltState.gyroCoef = 2055209 / 2097152 := k.2
  have hs : |tiltState.accCoef + tiltState.gyroCoef - 1| ≤ 1 / 2 ^ 24 := by
    rw [ka, kg, abs_le]
    constructor <;> norm_num
  exact ⟨hs, (rounded_update_convex tiltEnv tiltState tiltBurst 100 101
    (by rw [ka]; norm_num) (by rw [kg]; norm_num) (by rw [kg]; norm_num) hs).1.2⟩

/-- One step of the filter with a zero gyro increment, from a binary32 value `x` towards the
tilt `a`: the exact recurrence holds up to the rounding term. -/
theorem rounded_filter_step (c g x a inc : ℚ) (hc : 0 ≤ c) (hg0 : 0 ≤ g)
    (hsum : |c + g - 1| ≤ 1 / 2 ^ 24) (hx : f32 x = x) (hinc : inc = 0) :
    |f32 (f32 (g * f32 (x + f32 inc)) + f32 (c * a)) - a - g * (x - a)|
        ≤ max |x| |a| / 2 ^ 22 + 1 / 2 ^ 148
      ∧ |f32 (f32 (g * f32 (x + f32 inc)) + f32 (c * a)) - a|
        ≤ g * |x - a| + (max |x| |a| / 2 ^ 22 + 1 / 2 ^ 148) := by
  rw [hinc, f32_zero, add_zero, hx]
  have h := rounded_blend c g x a hc hg0 hsum
  have e : f32 (f32 (g * x) + f32 (c * a)) - a - g * (x - a)
      = f32 (f32 (g * x) + f32 (c * a)) - (a + g * (x - a)) := by ring
  rw [e]
  refine ⟨h, ?_⟩
  have e2 : f32 (f32 (g * x) + f32 (c * a)) - a
      = (f32 (f32 (g * x) + f32 (c * a)) - (a + g * (x - a))) + g * (x - a) := by ring
  have h3 : |g * (x - a)| = g * |x - a| := by rw [abs_mul, abs_of_nonneg hg0]
  have h4 := abs_add (f32 (f32 (g * x) + f32 (c * a)) - (a + g * (x - a))) (g * (x - a))
  rw [e2]
  linarith

/-- The recurrence along a run with constant tilt about X and no gyro increment. -/
theorem rounded_updates_chainX (env : Env) (c g a : ℚ) (hc : 0 ≤ c) (hg0 : 0 ≤ g)
    (hsum : |c + g - 1| ≤ 1 / 2 ^ 24) (ins : List (List (Fin 256) × Nat × Nat)) :
    ∀ s : MPU6050, s.accCoef = c → s.gyroCoef = g → f32 s.angleX = s.angleX →
      (∀ st ∈ Rounded.updateTrace env s ins,
        st.angleAccX = a ∧ (st.gyroX = 0 ∨ st.interval = 0)) →
      List.Chain (fun x x1 => |x1 - a - g * (x - a)| ≤ max |x| |a| / 2 ^ 22 + 1 / 2 ^ 148
          ∧ |x1 - a| ≤ g * |x - a| + (max |x| |a| / 2 ^ 22 + 1 / 2 ^ 148))
        s.angleX ((Rounded.updateTrace env s ins).map (fun st => st.angleX)) := by
  induction ins with
  | nil =>
    intro s _ _ _ _
    exact List.Chain.nil
  | cons i rest ih =>
    intro s hc1 hg1 hx hrun
    have ht : Rounded.updateTrace env s (i :: rest)
        = Rounded.update env s i.1 i.2.1 i.2.2
          :: Rounded.updateTrace env (Rounded.update env s i.1 i.2.1 i.2.2) rest := rfl
    rw [ht] at hrun
    rw [ht, List.map_cons]
    have f := (rounded_update_fused env s i.1 i.2.1 i.2.2).1
    have k := rounded_update_keeps env s i.1 i.2.1 i.2.2
    have h1 := hrun _ (List.mem_cons_self _ _)
    have hinc : (Rounded.update env s i.1 i.2.1 i.2.2).gyroX
        * (Rounded.update env s i.1 i.2.1 i.2.2).interval = 0 := by
      rcases h1.2 with h | h
      · rw [h, zero_mul]
      · rw [h, mul_zero]
    refine List.Chain.cons ?_ (ih _ (k.1.trans hc1) (k.2.1.trans hg1) ?_
      (fun st hst => hrun st (List.mem_cons_of_mem _ hst)))
    · have b := rounded_filter_step c g s.angleX a _ hc hg0 hsum hx hinc
      rw [f, h1.1, hc1, hg1]
      exact b
    · rw [f]
      exact f32_idem _

/-- The recurrence along a run with constant tilt about Y and no gyro increment. -/
theorem rounded_updates_chainY (env : Env) (c g a : ℚ) (hc : 0 ≤ c) (hg0 : 0 ≤ g)
    (hsum : |c + g - 1| ≤ 1 / 2 ^ 24) (ins : List (List (Fin 256) × Nat × Nat)) :
    ∀ s : MPU6050, s.accCoef = c → s.gyroCoef = g → f32 s.angleY = s.angleY →
      (∀ st ∈ Rounded.updateTrace env s ins,
        st.angleAccY = a ∧ (st.gyroY = 0 ∨ st.interval = 0)) →
      List.Chain (fun x x1 => |x1 - a - g * (x - a)| ≤ max |x| |a| / 2 ^ 22 + 1 / 2 ^ 148
          ∧ |x1 - a| ≤ g * |x - a| + (max |x| |a| / 2 ^ 22 + 1 / 2 ^ 148))
        s.angleY ((Rounded.updateTrace env s ins).map (fun st => st.angleY)) := by
  induction ins with
  | nil =>
    intro s _ _ _ _
    exact List.Chain.nil
  | cons i rest ih =>
    intro s hc1 hg1 hx hrun
    have ht : Rounded.updateTrace env s (i :: rest)
        = Rounded.update env s i.1 i.2.1 i.2.2
          :: Rounded.updateTrace env (Rounded.update env s i.1 i.2.1 i.2.2) rest := rfl
    rw [ht] at hrun
    rw [ht, List.map_cons]
    have f := (rounded_update_fused env s i.1 i.2.1 i.2.2).2
    have k := rounded_update_keeps env s i.1 i.2.1 i.2.2
    have h1 := hrun _ (List.mem_cons_self _ _)
    have hinc : (Rounded.update env s i.1 i.2.1 i.2.2).gyroY
        * (Rounded.update env s i.1 i.2.1 i.2.2).interval = 0 := by
      rcases h1.2 with h | h
      · rw [h, zero_mul]
      · rw [h, mul_zero]
    refine List.Chain.cons ?_ (ih _ (k.1.trans hc1) (k.2.1.trans hg1) ?_
      (fun st hst => hrun st (List.mem_cons_of_mem _ hst)))
    · have b := rounded_filter_step c g s.angleY a _ hc hg0 hsum hx hinc
      rw [f, h1.1, hc1, hg1]
      exact b
    · rw [f]
      exact f32_idem _

/-- C20 as stated fails in binary32: with coefficients `3/32` and `29/32`, of sum exactly
`1`, a fused X angle equal to the tilt `a = 10134437 / 262144` and a burst at rest that
decodes to this tilt with a zero gyro rate, one update stores `a + 2^-18`; so `angleX = a` is
not a fixed point, `angleX_1 - a` is not `gyroCoef^1 * (angleX_0 - a) = 0`, and the error
grows from `0` to `2^-18`. -/
theorem rounded_converge_counterexample :
    (slopeState.accCoef + slopeState.gyroCoef = 1 ∧ 0 ≤ slopeState.gyroCoef
        ∧ slopeState.gyroCoef < 1)
      ∧ (∀ st ∈ Rounded.updateTrace tiltEnv slopeState [(slopeBurst, 100, 101)],
          st.angleAccX = 10134437 / 262144 ∧ (st.gyroX = 0 ∨ st.interval = 0))
      ∧ slopeState.angleX = 10134437 / 262144
      ∧ (Rounded.updates tiltEnv slopeState [(slopeBurst, 100, 101)]).angleX
          = 10134437 / 262144 + 1 / 2 ^ 18
      ∧ (Rounded.updates tiltEnv slopeState [(slopeBurst, 100, 101)]).angleX
            - 10134437 / 262144
          ≠ slopeState.gyroCoef ^ [(slopeBurst, 100, 101)].length
            * (slopeState.angleX - 10134437 / 262144)
      ∧ ¬ (|(Rounded.updates tiltEnv slopeState [(slopeBurst, 100, 101)]).angleX
              - 10134437 / 262144|
            ≤ |slopeState.angleX - 10134437 / 262144|) := by
  have k := rounded_ctorCoef_slope zeroState zeroState.wire
  have ka : slopeState.accCoef = 3 / 32 := k.1
  have kg : slopeState.gyroCoef = 29 / 32 := k.2
  have c := rounded_slope_step 100 101
  have hx : slopeState.angleX = (10134437 / 262144 : ℚ) := rfl
  have hu : Rounded.updates tiltEnv slopeState [(slopeBurst, 100, 101)]
      = Rounded.update tiltEnv slopeState slopeBurst 100 101 := rfl
  have ht : Rounded.updateTrace tiltEnv slopeState [(slopeBurst, 100, 101)]
      = [Rounded.update tiltEnv slopeState slopeBurst 100 101] := rfl
  refine ⟨?_, ?_, hx, ?_, ?_, ?_⟩
  · rw [ka, kg]
    norm_num
  · intro st hst
    rw [ht, List.mem_singleton] at hst
    rw [hst]
    exact ⟨c.1, Or.inl c.2.2.1⟩
  · rw [hu, c.2.2.2]
    norm_num
  · rw [hu, c.2.2.2, hx, kg]
    norm_num
  · rw [hu, c.2.2.2, hx]
    norm_num

/-- C20, amended: with `accCoef ≥ 0`, `gyroCoef ≥ 0` and a sum within `2^-24` of `1`, along a
sequence of rounded updates that all decode the same tilt `a` and have a zero gyro rate or a
zero `dt`, started from a binary32 fused angle, each call satisfies the recurrence up to
rounding: with `x` the fused angle before the call and `x1` after it,
`|x1 - a - gyroCoef * (x - a)| ≤ max |x| |a| / 2^22 + 2^-148`, hence
`|x1 - a| ≤ gyroCoef * |x - a| + max |x| |a| / 2^22 + 2^-148`. The same holds for Y. -/
theorem rounded_updates_converge (env : Env) (s : MPU6050)
    (ins : List (List (Fin 256) × Nat × Nat)) (a : ℚ)
    (ha0 : 0 ≤ s.accCoef) (hg0 : 0 ≤ s.gyroCoef)
    (hsum : |s.accCoef + s.gyroCoef - 1| ≤ 1 / 2 ^ 24) :
    (f32 s.angleX = s.angleX →
        (∀ st ∈ Rounded.updateTrace env s ins,
          st.angleAccX = a ∧ (st.gyroX = 0 ∨ st.interval = 0)) →
        List.Chain (fun x x1 =>
            |x1 - a - s.gyroCoef * (x - a)| ≤ max |x| |a| / 2 ^ 22 + 1 / 2 ^ 148
              ∧ |x1 - a| ≤ s.gyroCoef * |x - a| + (max |x| |a| / 2 ^ 22 + 1 / 2 ^ 148))
          s.angleX ((Rounded.updateTrace env s ins).map (fun st => st.angleX)))
      ∧ (f32 s.angleY = s.angleY →
        (∀ st ∈ Rounded.updateTrace env s ins,
          st.angleAccY = a ∧ (st.gyroY = 0 ∨ st.interval = 0)) →
        List.Chain (fun y y1 =>
            |y1 - a - s.gyroCoef * (y - a)| ≤ max |y| |a| / 2 ^ 22 + 1 / 2 ^ 148
              ∧ |y1 - a| ≤ s.gyroCoef * |y - a| + (max |y| |a| / 2 ^ 22 + 1 / 2 ^ 148))
          s.angleY ((Rounded.updateTrace env s ins).map (fun st => st.angleY))) :=
  ⟨fun hx hrun =>
      rounded_updates_chainX env s.accCoef s.gyroCoef a ha0 hg0 hsum ins s rfl rfl hx hrun,
    fun hy hrun =>
      rounded_updates_chainY env s.accCoef s.gyroCoef a ha0 hg0 hsum ins s rfl rfl hy hrun⟩

/-- Witness of amended C20: two calls from a fused angle of `10` degrees towards the tilt
`10134437 / 262144`, about `38.66` degrees, with coefficients `3/32` and `29/32`; the first
call satisfies the recurrence with the factor `29/32` up to the rounding term. -/
theorem rounded_updates_converge_witness :
    (∀ st ∈ Rounded.updateTrace tiltEnv driftState
          [(slopeBurst, 100, 101), (slopeBurst, 200, 201)],
        st.angleAccX = 10134437 / 262144 ∧ (st.gyroX = 0 ∨ st.interval = 0))
      ∧ List.Chain (fun x x1 =>
          |x1 - 10134437 / 262144 - driftState.gyroCoef * (x - 10134437 / 262144)|
              ≤ max |x| |(10134437 / 262144 : ℚ)| / 2 ^ 22 + 1 / 2 ^ 148
            ∧ |x1 - 10134437 / 262144|
              ≤ driftState.gyroCoef * |x - 10134437 / 262144|
                + (max |x| |(10134437 / 262144 : ℚ)| / 2 ^ 22 + 1 / 2 ^ 148))
        driftState.angleX
        ((Rounded.updateTrace tiltEnv driftState
          [(slopeBurst, 100, 101), (slopeBurst, 200, 201)]).map (fun st => st.angleX)) := by
  have k := rounded_ctorCoef_slope zeroState zeroState.wire
  have ka : driftState.accCoef = 3 / 32 := k.1
  have kg : driftState.gyroCoef = 29 / 32 := k.2
  have hx : driftState.angleX = 10 := rfl
  have ht : Rounded.updateTrace tiltEnv driftState
      [(slopeBurst, 100, 101), (slopeBurst, 200, 201)]
      = [Rounded.update tiltEnv driftState slopeBurst 100 101,
          Rounded.update tiltEnv (Rounded.update tiltEnv driftState slopeBurst 100 101)
            slopeBurst 200 201] := rfl
  have t1 := rounded_tilt_slope driftState 100 101
  have t2 := rounded_tilt_slope (Rounded.update tiltEnv driftState slopeBurst 100 101) 200 201
  have c1 := rounded_still_step tiltEnv driftState slopeBurst 100 101 t1.2 rfl
  have c2 := rounded_still_step tiltEnv (Rounded.update tiltEnv driftState slopeBurst 100 101)
    slopeBurst 200 201 t2.2 rfl
  have hrun : ∀ st ∈ Rounded.updateTrace tiltEnv driftState
      [(slopeBurst, 100, 101), (slopeBurst, 200, 201)],
      st.angleAccX = 10134437 / 262144 ∧ (st.gyroX = 0 ∨ st.interval = 0) := by
    intro st hst
    rw [ht] at hst
    simp only [List.mem_cons, List.mem_singleton, List.not_mem_nil, or_false] at hst
    rcases hst with h | h
    · rw [h]
      exact ⟨t1.1, Or.inl c1.1⟩
    · rw [h]
      exact ⟨t2.1, Or.inl c2.1⟩
  exact ⟨hrun, (rounded_updates_converge tiltEnv driftState
    [(slopeBurst, 100, 101), (slopeBurst, 200, 201)] (10134437 / 262144)
    (by rw [ka]; norm_num) (by rw [kg]; norm_num) (by rw [ka, kg]; norm_num)).1
    (by rw [hx]; exact f32_ten) hrun⟩

end IMU6050
